import Mathlib

/-! # The multi-trie of `src/src/mtrie.cpp`

A shallow embedding of `zmq::mtrie_t` (the prefix-matching engine of the
PUB/XPUB sockets) and the properties of `add`, of the two forms of `rm` and of
`match`.

Conventions of the embedding

* a pipe (`pipe_t *`) is the natural number of its address; the pipe set
  `pipes_t` (a `std::set <pipe_t*>`) is the strictly ascending list of its
  members, which is also the order in which the set is iterated;
* a byte is a natural number below 256 and a byte string `(data_, size_)` is
  the list of its `size_` bytes; `min` is a byte and `count` has a type wide
  enough for 256 (`mtrie.hpp` is not among the sources; `add_helper` says that
  `count_t` is used because the range may extend one value beyond a byte);
* a node is a value: the member functions, which update the node in place,
  take the node and return the updated node next to their C++ result.  No node
  is shared between two tries (`refs` is 1 throughout and is left out);
* a block of memory is the list of its elements; `new`, `calloc` and
  `realloc` return a block;
* a call that does not return normally yields a `fault`; a function that
  loops or recurses without a bound known from its arguments takes a step
  budget and yields the fault `fuel` when the budget is used up.
-/

namespace zmq

/-- A pipe, identified by its address. -/
abbrev pipe_t := Nat

/-- The ways in which a call fails to return normally. -/
inductive fault where
  /-- A `zmq_assert` failed: the process aborts. -/
  | assertion
  /-- A read through a pointer, or a member of the union `next`, that holds no
  valid object (undefined behaviour in C++). -/
  | undefined
  /-- The step budget of a bounded run was used up before the call returned. -/
  | fuel
  deriving DecidableEq, Repr

/-- The outcome of a call. -/
abbrev result (α : Type) := Except fault α

/-- The union `next` of a node: what was stored in it last. -/
inductive next_t (α : Type) where
  /-- Nothing valid: never written (the constructor does not initialise it), or
  a table pointer whose block was freed. -/
  | invalid
  /-- The member `next.node`; `none` is the null pointer. -/
  | node (n : Option α)
  /-- The member `next.table`: the block of child pointers it points to. -/
  | table (t : List (Option α))

/-- A node of the trie: `pipes`, `min`, `count` and the union `next`. -/
inductive mtrie_t where
  | mk (pipes : List pipe_t) (min : Nat) (count : Nat) (next : next_t mtrie_t)

namespace mtrie_t

/-- The pipe set of a node. -/
def pipes : mtrie_t → List pipe_t
  | .mk p _ _ _ => p

/-- The base byte of a node. -/
def min : mtrie_t → Nat
  | .mk _ m _ _ => m

/-- The width of the byte range of a node. -/
def count : mtrie_t → Nat
  | .mk _ _ c _ => c

/-- The union of a node. -/
def next : mtrie_t → next_t mtrie_t
  | .mk _ _ _ n => n

end mtrie_t

/-- The constructor `mtrie_t ()`: no pipes, `min = 0`, `count = 0`. -/
def empty : mtrie_t := .mk [] 0 0 .invalid

/-- The call `pipes.insert (pipe_)` on the ordered set. -/
def pipes_insert (pipe_ : pipe_t) : List pipe_t → List pipe_t
  | [] => [pipe_]
  | q :: qs =>
    if pipe_ < q then pipe_ :: q :: qs
    else if pipe_ = q then q :: qs
    else q :: pipes_insert pipe_ qs

/-- The set left by `pipes.erase (pipe_)`. -/
def pipes_erase (pipe_ : pipe_t) (pipes : List pipe_t) : List pipe_t :=
  pipes.filter (fun q => q != pipe_)

/-- The value returned by `pipes.erase (pipe_)`: the number of elements erased. -/
def pipes_erased (pipe_ : pipe_t) (pipes : List pipe_t) : Nat :=
  pipes.count pipe_

/-- The block returned by `calloc (n, sizeof *newtable)`: `n` null pointers. -/
def calloc (n : Nat) : List (Option mtrie_t) :=
  List.replicate n none

/-- The call `memmove (dst + off, src, n * sizeof *dst)` on blocks of
pointers: the block `dst` after the copy, or nothing when the copy reads or
writes past the end of a block. -/
def memmove (dst : List (Option mtrie_t)) (off : Nat) (src : List (Option mtrie_t))
    (n : Nat) : Option (List (Option mtrie_t)) :=
  if off + n ≤ dst.length ∧ n ≤ src.length then
    some (dst.take off ++ src.take n ++ dst.drop (off + n))
  else none

/-- The block `oldtable` of the table extension (lines 123-130), for
`count > 0`: `next.table` when `count > 1`, else the one pointer `next.node`;
nothing when the union holds the other member. -/
def oldtable (count : Nat) : next_t mtrie_t → Option (List (Option mtrie_t))
  | .table t => if count > 1 then some t else none
  | .node n => if count > 1 then none else some [n]
  | .invalid => none

/-- The block `newtable` of the table extension (lines 131-136) for the byte
`c`: `hi - lo` null pointers, then the `count` old pointers copied to the
offset `c - lo`. -/
def newtable (c min count : Nat) (next : next_t mtrie_t) : Option (List (Option mtrie_t)) :=
  let hi := Max.max (min + count) (c + 1)
  let lo := Min.min min c
  (oldtable count next).bind (fun old => memmove (calloc (hi - lo)) (c - lo) old count)

/-- The range adjustment of `add_helper` for the byte `c` (lines 110-143): the
values of `min`, `count` and `next` after it. -/
def adjust (c min count : Nat) (next : next_t mtrie_t) : result (Nat × Nat × next_t mtrie_t) :=
  if c < min ∨ c ≥ min + count then
    -- The character is out of range of currently handled characters.
    if count = 0 then
      -- min = c; count = 1; next.node = NULL
      .ok (c, 1, .node none)
    else
      match newtable c min count next with
      | none => .error .undefined
      | some _ =>
        -- if (count > 1) free (oldtable); min = c; count = hi - lo;
        -- `newtable` is a local of the block and is stored nowhere.
        .ok (c, Max.max (min + count) (c + 1) - Min.min min c,
          if count > 1 then .invalid else next)
  else .ok (min, count, next)

/-- The function `mtrie_t::add_helper` (`add` calls it unchanged):
`recognize` consumes one byte `c` of the prefix. -/
def add_helper : List Nat → pipe_t → mtrie_t → result (Bool × mtrie_t)
  | [], pipe_, .mk pipes min count next =>
    -- We are at the node corresponding to the prefix.
    .ok (pipes.isEmpty, .mk (pipes_insert pipe_ pipes) min count next)
  | c :: prefix_, pipe_, .mk pipes min count next =>
    match adjust c min count next with
    | .error e => .error e
    | .ok (min1, count1, next1) =>
      if count1 = 1 then
        match next1 with
        | .node n =>
          -- if (!next.node) next.node = new mtrie_t
          match add_helper prefix_ pipe_ (n.getD empty) with
          | .error e => .error e
          | .ok (r, child) => .ok (r, .mk pipes min1 count1 (.node (some child)))
        | _ => .error .undefined
      else
        match next1 with
        | .table t =>
          match t[c - min1]? with
          | none => .error .undefined
          | some slot =>
            -- if (!next.table [c - min]) next.table [c - min] = new mtrie_t
            match add_helper prefix_ pipe_ (slot.getD empty) with
            | .error e => .error e
            | .ok (r, child) =>
              .ok (r, .mk pipes min1 count1 (.table (t.set (c - min1) (some child))))
        | _ => .error .undefined

/-- The function `mtrie_t::add`. -/
def add (prefix_ : List Nat) (pipe_ : pipe_t) (t : mtrie_t) : result (Bool × mtrie_t) :=
  add_helper prefix_ pipe_ t

/-- The prefix form of `mtrie_t::rm_helper` (lines 215-235). -/
def rm_helper : List Nat → pipe_t → mtrie_t → result (Bool × mtrie_t)
  | [], pipe_, .mk pipes min count next =>
    -- zmq_assert (erased == 1)
    if pipes_erased pipe_ pipes = 1 then
      .ok ((pipes_erase pipe_ pipes).isEmpty, .mk (pipes_erase pipe_ pipes) min count next)
    else .error .assertion
  | c :: prefix_, pipe_, .mk pipes min count next =>
    if count = 0 ∨ c < min ∨ c ≥ min + count then
      .ok (false, .mk pipes min count next)
    else if count = 1 then
      match next with
      | .node none => .ok (false, .mk pipes min count next)
      | .node (some child) =>
        match rm_helper prefix_ pipe_ child with
        | .error e => .error e
        | .ok (r, child1) => .ok (r, .mk pipes min count (.node (some child1)))
      | _ => .error .undefined
    else
      match next with
      | .table t =>
        match t[c - min]? with
        | none => .error .undefined
        | some none => .ok (false, .mk pipes min count next)
        | some (some child) =>
          match rm_helper prefix_ pipe_ child with
          | .error e => .error e
          | .ok (r, child1) =>
            .ok (r, .mk pipes min count (.table (t.set (c - min) (some child1))))
      | _ => .error .undefined

/-- The prefix form of `mtrie_t::rm`. -/
def rm (prefix_ : List Nat) (pipe_ : pipe_t) (t : mtrie_t) : result (Bool × mtrie_t) :=
  rm_helper prefix_ pipe_ t

/-- The loop over the pipes of one node in `match` (lines 248-254): `func_`
tells whether the callback is non-null, `total` is the running count and
`calls` the pipes the callback was invoked on so far. -/
def signal (func_ : Bool) (max_ : Nat) : List pipe_t → Nat → List pipe_t → Nat × List pipe_t
  | [], total, calls => (total, calls)
  | q :: qs, total, calls =>
    let calls1 := if func_ then calls ++ [q] else calls
    -- if (++total == max_) break;
    if total + 1 = max_ then (total + 1, calls1)
    else signal func_ max_ qs (total + 1) calls1

/-- The loop `while (true)` of `match` (lines 245-281), entered at node
`current` with `data` left to consume. -/
def match_loop (func_ : Bool) (max_ : Nat) :
    List Nat → mtrie_t → Nat → List pipe_t → result (Nat × List pipe_t)
  | [], .mk pipes _ _ _, total, calls =>
    -- if (!size_) break;
    .ok (signal func_ max_ pipes total calls)
  | d :: data, .mk pipes min count next, total, calls =>
    let s := signal func_ max_ pipes total calls
    if count = 0 then .ok s
    else if count = 1 then
      if d ≠ min then .ok s
      else
        match next with
        | .node (some child) => match_loop func_ max_ data child s.1 s.2
        | _ => .error .undefined
    else if d < min ∨ d ≥ min + count then .ok s
    else
      match next with
      | .table t =>
        match t[d - min]? with
        | none => .error .undefined
        | some none => .ok s
        | some (some child) => match_loop func_ max_ data child s.1 s.2
      | _ => .error .undefined

/-- The function `mtrie_t::match`: the result is the returned total and the
list of the pipes the callback was invoked on, in order (empty when the
callback is null, `func_ = false`). -/
def match_ (data : List Nat) (func_ : Bool) (max_ : Nat) (t : mtrie_t) :
    result (Nat × List pipe_t) :=
  match_loop func_ max_ data t 0 []

/-- The block returned by `realloc (*buff_, n)`: `n` bytes, the first of them
the bytes of the old block; the bytes beyond the old block are indeterminate
and read as 0 here. -/
def realloc (buff : List Nat) (n : Nat) : List Nat :=
  buff.take n ++ List.replicate (n - buff.length) 0

/-- The table loop of the pipe form of `rm_helper` (lines 202-207), entered
with index `c` and the buffer `buff` (the block `*buff_`).  The index is an
`unsigned char`, so `c++` is taken modulo 256, as is the byte `min + c` stored
at `buffsize_`; a store past the end of the block is undefined.  `step` is the
recursive call on a child; the first argument bounds the number of tests of
the loop condition. -/
def rm_table (step : List Nat → mtrie_t → result (mtrie_t × List Nat × List (List Nat)))
    (min count buffsize_ : Nat) :
    Nat → Nat → List Nat → List (Option mtrie_t) →
      result (List (Option mtrie_t) × List Nat × List (List Nat))
  | 0, _, _, _ => .error .fuel
  | k + 1, c, buff, table =>
    if c = count then .ok (table, buff, [])
    else if buffsize_ < buff.length then
      -- (*buff_) [buffsize_] = min + c;
      let buff1 := buff.set buffsize_ ((min + c) % 256)
      match table[c]? with
      | none => .error .undefined
      | some none => rm_table step min count buffsize_ k ((c + 1) % 256) buff1 table
      | some (some child) =>
        match step buff1 child with
        | .error e => .error e
        | .ok (child1, buff2, calls) =>
          match rm_table step min count buffsize_ k ((c + 1) % 256) buff2
              (table.set c (some child1)) with
          | .error e => .error e
          | .ok (table1, buff3, calls1) => .ok (table1, buff3, calls ++ calls1)
    else .error .undefined

/-- The pipe form of `mtrie_t::rm_helper` (lines 172-208), on the buffer
`buff` (the block `*buff_`) with `buffsize_` and `maxbuffsize_`.  The result is
the updated node, the buffer, and the byte strings `(*buff_, buffsize_)` the
callback `func_` was invoked on, in order.  The first argument bounds the depth
of the calls and the length of each table loop. -/
def rm_helper_pipe (pipe_ : pipe_t) :
    Nat → List Nat → Nat → Nat → mtrie_t → result (mtrie_t × List Nat × List (List Nat))
  | 0, _, _, _, _ => .error .fuel
  | k + 1, buff, buffsize_, maxbuffsize_, .mk pipes min count next =>
    -- if (pipes.erase (pipe_) && pipes.empty ()) func_ (*buff_, buffsize_, arg_);
    let pipes1 := pipes_erase pipe_ pipes
    let calls : List (List Nat) :=
      if pipes_erased pipe_ pipes ≠ 0 ∧ pipes1.isEmpty then [buff.take buffsize_] else []
    -- Adjust the buffer.
    let maxbuffsize1 := if buffsize_ ≥ maxbuffsize_ then buffsize_ + 256 else maxbuffsize_
    let buff1 := if buffsize_ ≥ maxbuffsize_ then realloc buff (buffsize_ + 256) else buff
    if count = 0 then .ok (.mk pipes1 min count next, buff1, calls)
    else if count = 1 then
      if buffsize_ < buff1.length then
        -- (*buff_) [buffsize_] = min; buffsize_++;
        match next with
        | .node (some child) =>
          match rm_helper_pipe pipe_ k (buff1.set buffsize_ min) (buffsize_ + 1) maxbuffsize1
              child with
          | .error e => .error e
          | .ok (child1, buff2, calls1) =>
            .ok (.mk pipes1 min count (.node (some child1)), buff2, calls ++ calls1)
        | _ => .error .undefined
      else .error .undefined
    else
      match next with
      | .table t =>
        match rm_table (fun b child => rm_helper_pipe pipe_ k b (buffsize_ + 1) maxbuffsize1 child)
            min count buffsize_ k 0 buff1 t with
        | .error e => .error e
        | .ok (t1, buff2, calls1) => .ok (.mk pipes1 min count (.table t1), buff2, calls ++ calls1)
      | _ => .error .undefined

/-- The pipe form of `mtrie_t::rm`: the sweep starts with no buffer
(`buff = NULL`, sizes 0) and the buffer is freed at the end.  The result is
the trie left and the byte strings the callback was invoked on. -/
def rm_pipe (fuel : Nat) (pipe_ : pipe_t) (t : mtrie_t) : result (mtrie_t × List (List Nat)) :=
  match rm_helper_pipe pipe_ fuel [] 0 0 t with
  | .error e => .error e
  | .ok (t1, _, calls) => .ok (t1, calls)

/-! ## Trie states and what a prefix denotes -/

/-- Well-formed trie states: at every node the pipe set is an ordered set, a
node without children has `count = 0`, a node with `count = 1` holds its child
in `next.node`, and a node with `count ≥ 2` holds in `next.table` a table of
exactly `count` slots (null slots allowed) for the bytes `min .. min + count - 1`,
all of them bytes (`min + count - 1 ≤ 255`).  `B` bounds the width of the
tables. -/
def wf_upto (B : Nat) : mtrie_t → Bool
  | .mk pipes _ count .invalid =>
    decide (pipes.Pairwise (· < ·)) && count == 0
  | .mk _ _ _ (.node none) => false
  | .mk pipes _ count (.node (some child)) =>
    decide (pipes.Pairwise (· < ·)) && count == 1 && wf_upto B child
  | .mk pipes min count (.table t) =>
    decide (pipes.Pairwise (· < ·)) && decide (2 ≤ count) && decide (count ≤ B) &&
      decide (min + count ≤ 256) && t.length == count && wf_table B t
where
  /-- Every child in a table is well formed. -/
  wf_table (B : Nat) : List (Option mtrie_t) → Bool
    | [] => true
    | none :: r => wf_table B r
    | some child :: r => wf_upto B child && wf_table B r

/-- The trie states: tables may span all 256 bytes. -/
def wf (t : mtrie_t) : Bool := wf_upto 256 t

/-- The child of a node for byte `c`, if there is one: the descent step of
`rm_helper` (lines 224-232). -/
def child_at (c : Nat) : mtrie_t → Option mtrie_t
  | .mk _ min count next =>
    if count = 0 ∨ c < min ∨ c ≥ min + count then none
    else if count = 1 then
      match next with
      | .node n => n
      | _ => none
    else
      match next with
      | .table t => (t[c - min]?).join
      | _ => none

/-- The node denoted by a prefix: the end of the descent along its bytes. -/
def node_at : List Nat → mtrie_t → Option mtrie_t
  | [], t => some t
  | c :: p, t => (child_at c t).bind (node_at p)

/-- The pipe set at a prefix: the pipe set of the node it denotes, empty when
it denotes no node. -/
def pipes_at (p : List Nat) (t : mtrie_t) : List pipe_t :=
  match node_at p t with
  | some n => n.pipes
  | none => []

/-- The pipes subscribed at the prefixes of `data`, those of the shortest
prefix first: one entry for every pair of a prefix of `data` and a pipe in
the pipe set at that prefix. -/
def subscribers (data : List Nat) (t : mtrie_t) : List pipe_t :=
  data.inits.flatMap (fun q => pipes_at q t)

/-- Modelled from the spec: `has (prefix, length)` is declared in `mtrie.hpp`
and defined in no file under `src/`.  "Read-only probe; descend to the node
denoted by the prefix (if any) and return the number of pipes in its
pipe-set." -/
def has (p : List Nat) (t : mtrie_t) : Nat :=
  (pipes_at p t).length

/-! ## Sequences of calls -/

/-- A call of `add` or of the prefix form of `rm`. -/
inductive op where
  | add (p : List Nat) (pipe_ : pipe_t)
  | rm (p : List Nat) (pipe_ : pipe_t)
  deriving DecidableEq

/-- One call: the trie it leaves and the value it returns. -/
def call : op → mtrie_t → result (Bool × mtrie_t)
  | .add p x, t => add p x t
  | .rm p x, t => rm p x t

/-- The calls of a sequence in order, each on the trie left by the one
before; the sequence fails as soon as a call does not return normally. -/
def run : List op → mtrie_t → result mtrie_t
  | [], t => .ok t
  | o :: os, t =>
    match call o t with
    | .error e => .error e
    | .ok (_, t1) => run os t1

/-- The pairs registered after a sequence of calls that started with the
pairs `reg`: a pair is registered from its `add` until its `rm`. -/
def registered : List op → List (List Nat × pipe_t) → List (List Nat × pipe_t)
  | [], reg => reg
  | .add p x :: os, reg => registered os (if (p, x) ∈ reg then reg else (p, x) :: reg)
  | .rm p x :: os, reg => registered os (reg.filter (fun q => q != (p, x)))

/-- Every `rm` of the sequence comes after an `add` of the same pair that no
earlier `rm` has used up, and in the end every pair was removed as many times as
it was added.  `pending` lists the adds not yet removed. -/
def balanced : List op → List (List Nat × pipe_t) → Bool
  | [], pending => pending.isEmpty
  | .add p x :: os, pending => balanced os ((p, x) :: pending)
  | .rm p x :: os, pending => decide ((p, x) ∈ pending) && balanced os (pending.erase (p, x))

/-- A step budget that suffices for the sweep of a trie. -/
def need : mtrie_t → Nat
  | .mk _ _ _ .invalid => 1
  | .mk _ _ _ (.node none) => 1
  | .mk _ _ _ (.node (some child)) => need child + 1
  | .mk _ _ count (.table t) => max (count + 1) (need_table t) + 1
where
  /-- The largest budget a child in the table asks for. -/
  need_table : List (Option mtrie_t) → Nat
    | [] => 0
    | none :: r => need_table r
    | some child :: r => max (need child) (need_table r)

/-- The sequence of calls of the stress scenario: for each byte `b` from 0 to
255, in ascending order, `add` of the one-byte prefix `[b]` for the pipe
`b + 1`. -/
def stress_adds : List op :=
  (List.range 256).map (fun b => op.add [b] (b + 1))

/-! ## Writing down a trie -/

/-- A node without children, as `add` leaves it at the end of a new path. -/
def leaf (pipes : List pipe_t) : mtrie_t := .mk pipes 0 0 .invalid

/-- A node with the single child `child` for byte `c`. -/
def single (pipes : List pipe_t) (c : Nat) (child : mtrie_t) : mtrie_t :=
  .mk pipes c 1 (.node (some child))

/-- A node with a table for the bytes from `min` on. -/
def fork (pipes : List pipe_t) (min : Nat) (table : List (Option mtrie_t)) : mtrie_t :=
  .mk pipes min table.length (.table table)

/-! ## Auxiliary functions of the proofs -/

/-- The node with `child` as its child for byte `c`: in place of the child it
had, or as the first child of a node that had none. -/
def set_child (c : Nat) (child : mtrie_t) : mtrie_t → mtrie_t
  | .mk pipes min count (.node _) => .mk pipes min count (.node (some child))
  | .mk pipes min count (.table t) => .mk pipes min count (.table (t.set (c - min) (some child)))
  | .mk pipes _ _ .invalid => .mk pipes c 1 (.node (some child))

/-- The node has a slot for byte `c`, or no child at all. -/
def has_slot (c : Nat) (t : mtrie_t) : Prop :=
  t.count = 0 ∨ (t.min ≤ c ∧ c < t.min + t.count)

/-- The trie left by the sweep of pipe `x`: the pipe is erased at every node. -/
def swept (x : pipe_t) : mtrie_t → mtrie_t
  | .mk pipes min count .invalid => .mk (pipes_erase x pipes) min count .invalid
  | .mk pipes min count (.node none) => .mk (pipes_erase x pipes) min count (.node none)
  | .mk pipes min count (.node (some child)) =>
    .mk (pipes_erase x pipes) min count (.node (some (swept x child)))
  | .mk pipes min count (.table t) =>
    .mk (pipes_erase x pipes) min count (.table (swept_table x t))
where
  /-- The sweep of every child in a table. -/
  swept_table (x : pipe_t) : List (Option mtrie_t) → List (Option mtrie_t)
    | [] => []
    | none :: r => none :: swept_table x r
    | some child :: r => some (swept x child) :: swept_table x r

/-- The prefixes the sweep of pipe `x` reports, in the order of the sweep: the
paths, after `buff`, of the nodes whose pipe set is exactly `x`. -/
def emptied (x : pipe_t) : List Nat → mtrie_t → List (List Nat)
  | buff, .mk pipes _ _ .invalid => if pipes = [x] then [buff] else []
  | buff, .mk pipes _ _ (.node none) => if pipes = [x] then [buff] else []
  | buff, .mk pipes min _ (.node (some child)) =>
    (if pipes = [x] then [buff] else []) ++ emptied x (buff ++ [min]) child
  | buff, .mk pipes min _ (.table t) =>
    (if pipes = [x] then [buff] else []) ++ emptied_table x buff min t
where
  /-- The reports of the children in a table whose first slot stands for
  byte `b`. -/
  emptied_table (x : pipe_t) : List Nat → Nat → List (Option mtrie_t) → List (List Nat)
    | _, _, [] => []
    | buff, b, none :: r => emptied_table x buff (b + 1) r
    | buff, b, some child :: r => emptied x (buff ++ [b]) child ++ emptied_table x buff (b + 1) r

/-! # The socket base of `src/src/socket_base.cpp` and the SUB socket of `src/src/sub.cpp`

Conventions of the embedding

* a socket is a value of `socket_base_t`: the members written by
  `socket_base.cpp`, the options, the two members of `own_t` that the
  termination reads and writes, the `errno` of the calling thread and the
  `trace` of the calls made so far to code outside the two files.  A member
  function takes the socket and returns the updated socket next to its C++
  result;
* the code outside the two files (the context, the mailbox, the clocks, the
  pipes, the messages, `own_t`, and the virtual functions that the socket
  types define) is an environment `env_t`: asked with the socket and the call,
  it answers with the result of the call and the `errno` the call leaves.
  Every call asked is appended to `trace`, so that the trace of a socket tells
  which calls were made, in which order and with which arguments;
* the constants and build options that the headers define are the fields of
  `config_t`;
* a `std::string` is the list of its characters, a `blob_t` and a buffer
  `(optval_, optvallen_)` the list of its bytes, a pointer to an object outside
  the two files a number (0 is the null pointer), a flag word a natural
  number tested with `&&&`;
* a message is a value: its validity, its two flag bits and its bytes;
* `int` members are integers; the one `int` sum (of two high-water marks)
  is undefined when it leaves the range of `int`, the `uint64_t` values are
  reduced modulo `2 ^ 64`.
-/

/-- The values of `errno` that the two files set or test; `other` stands for
the values that only the code outside them sets. -/
inductive errno_t where
  | EINVAL
  | EPROTONOSUPPORT
  | ENOCOMPATPROTO
  | ETERM
  | EFAULT
  | EAGAIN
  | ENOTSUP
  | EINTR
  | EMTHREAD
  | other (n : Nat)
  deriving DecidableEq, Repr

/-- The socket types: the case labels of `socket_base_t::create`. -/
inductive type_t where
  | ZMQ_PAIR
  | ZMQ_PUB
  | ZMQ_SUB
  | ZMQ_REQ
  | ZMQ_REP
  | ZMQ_XREQ
  | ZMQ_XREP
  | ZMQ_PULL
  | ZMQ_PUSH
  | ZMQ_XPUB
  | ZMQ_XSUB
  | ZMQ_ROUTER
  | ZMQ_DEALER
  deriving DecidableEq, Repr

/-- The members of `options_t` that the two files read or write. -/
structure options_t where
  type : type_t
  sndhwm : Int
  rcvhwm : Int
  sndtimeo : Int
  rcvtimeo : Int
  affinity : Nat
  identity : List Nat
  delay_on_close : Bool
  delay_on_disconnect : Bool
  immediate_connect : Bool
  filter : Bool
  deriving DecidableEq, Repr

/-- Modelled from the spec: a message carries two flag bits, more and label,
next to its bytes (`msg.hpp` is not among the sources).  `valid` is what
`check ()` returns. -/
structure msg_t where
  valid : Bool
  more : Bool
  label : Bool
  data : List Nat
  deriving DecidableEq, Repr

/-- The build options and the constants of `zmq.h` and `config.hpp` that the
two files use. -/
structure config_t where
  ZMQ_HAVE_OPENPGM : Bool
  ZMQ_HAVE_WINDOWS : Bool
  ZMQ_HAVE_OPENVMS : Bool
  inbound_poll_rate : Nat
  max_command_delay : Nat
  ZMQ_DONTWAIT : Nat
  ZMQ_SNDMORE : Nat
  ZMQ_SNDLABEL : Nat
  ZMQ_SUBSCRIBE : Int
  ZMQ_UNSUBSCRIBE : Int

/-- A command taken from the mailbox, identified by a number. -/
abbrev command_t := Nat

/-- The calls to code outside the two files, with their arguments. -/
inductive event_t where
  /-- The virtual `xsetsockopt` of a socket type. -/
  | xsetsockopt (option_ : Int) (optval_ : List Nat)
  /-- The virtual `xgetsockopt`, called with a buffer of `optvallen_` bytes. -/
  | xgetsockopt (option_ : Int) (optvallen_ : Nat)
  /-- The virtual `xsend`. -/
  | xsend (msg_ : msg_t) (flags_ : Nat)
  /-- The virtual `xrecv`. -/
  | xrecv (msg_ : msg_t) (flags_ : Nat)
  /-- The virtual `xattach_pipe`. -/
  | xattach_pipe (pipe_ : pipe_t) (peer_identity_ : List Nat)
  /-- The virtual `xterminated`. -/
  | xterminated (pipe_ : pipe_t)
  /-- The virtual `xhas_out`. -/
  | xhas_out
  /-- The virtual `xhas_in`. -/
  | xhas_in
  /-- The function `xsub_t::xsend`. -/
  | xsub_xsend (msg_ : msg_t) (flags_ : Nat)
  /-- The function `xsub_t::xsetsockopt`. -/
  | xsub_xsetsockopt (option_ : Int) (optval_ : List Nat)
  /-- The call `msg.close ()`. -/
  | msg_close (msg_ : msg_t)
  /-- The call `pipe_->set_event_sink (this)`. -/
  | set_event_sink (pipe_ : pipe_t)
  /-- The call `generate_uuid`. -/
  | generate_uuid
  /-- The call `pipe_->terminate (delay_)`. -/
  | pipe_terminate (pipe_ : pipe_t) (delay_ : Bool)
  /-- The call `register_endpoint (addr_, endpoint)`. -/
  | register_endpoint (addr_ : List Char) (options : options_t)
  /-- The call `unregister_endpoints (this)`. -/
  | unregister_endpoints
  /-- The call `find_endpoint (addr_)`. -/
  | find_endpoint (addr_ : List Char)
  /-- The call `choose_io_thread (affinity)`. -/
  | choose_io_thread (affinity : Nat)
  /-- The construction of a `zmq_listener_t`. -/
  | new_listener (io_thread : Nat) (options : options_t)
  /-- The call `listener->set_address (protocol, address)`. -/
  | set_address (listener : Nat) (protocol address : List Char)
  /-- The statement `delete listener`. -/
  | delete_listener (listener : Nat)
  /-- The call `launch_child (object)`. -/
  | launch_child (object : Nat)
  /-- The call `resolve_ip_hostname`. -/
  | resolve_ip_hostname (address : List Char)
  /-- The call `resolve_local_path`. -/
  | resolve_local_path (address : List Char)
  /-- The call `pipepair (parents, pipes, hwms, delays)`; `parent` is the
  second parent, the first is the socket. -/
  | pipepair (parent : Nat) (hwm0 hwm1 : Int) (delay0 delay1 : Bool)
  /-- The call `send_bind (peer, pipe, identity, false)`. -/
  | send_bind (peer : Nat) (pipe_ : pipe_t) (identity : List Nat)
  /-- The construction of a `connect_session_t`. -/
  | new_session (io_thread : Nat) (options : options_t) (protocol address : List Char)
  /-- The call `session->attach_pipe (pipe)`. -/
  | session_attach_pipe (session : Nat) (pipe_ : pipe_t)
  /-- The call `mailbox.recv (&cmd, timeout_)`. -/
  | mailbox_recv (timeout_ : Int)
  /-- The call `cmd.destination->process_command (cmd)`. -/
  | process_command (cmd : command_t)
  /-- The call `zmq::clock_t::rdtsc ()`. -/
  | rdtsc
  /-- The call `clock.now_ms ()`. -/
  | now_ms
  /-- The call `send_reap (this)`. -/
  | send_reap
  /-- The call `own_t::process_term (linger_)`. -/
  | own_process_term (linger_ : Int)
  deriving DecidableEq, Repr

/-- What a call to code outside the two files leaves: its `int` result, the
`errno` after it, and whichever of the other values the call writes (the
message of `xsend` and `xrecv`, the pointer or number it returns, a second
pointer, the bytes it writes, the options of the peer endpoint, and, for a
virtual function of the socket type, the options of the socket after it). -/
structure answer_t where
  rc : Int
  errno : errno_t
  options : options_t
  msg : msg_t
  ptr : Nat
  ptr2 : Nat
  bytes : List Nat
  peer_options : options_t

/-- A socket: the members of `socket_base_t` and what the embedding keeps
with them. -/
structure socket_base_t where
  /-- If true, the associated context was already terminated. -/
  ctx_terminated : Bool
  /-- If true, the object should have been already destroyed. -/
  destroyed : Bool
  /-- Timestamp of when commands were processed the last time. -/
  last_tsc : Nat
  /-- Number of messages received since last command processing. -/
  ticks : Nat
  /-- True if the last message received had the label flag set. -/
  rcvlabel : Bool
  /-- True if the last message received had the more flag set. -/
  rcvmore : Bool
  /-- The list of attached pipes. -/
  pipes : List pipe_t
  /-- The socket options. -/
  options : options_t
  /-- Modelled from the spec: the socket is in the state Terminating
  (the member of `own_t` that `is_terminating ()` returns). -/
  terminating : Bool
  /-- Modelled from the spec: the number of outstanding term-acks (the member
  of `own_t` that `register_term_acks` and `unregister_term_ack` count). -/
  term_acks : Int
  /-- The `errno` of the calling thread. -/
  errno : errno_t
  /-- The calls made so far to code outside the two files, the latest last. -/
  trace : List event_t
  deriving DecidableEq

/-- The code outside the two files.  `answer` tells what a call leaves when it
is made on the socket (whose trace holds the calls before it).
`process_command` is the effect on the socket of processing a command, a call
that comes back into the member functions of the socket. -/
structure env_t where
  answer : socket_base_t → event_t → answer_t
  process_command : command_t → socket_base_t → socket_base_t

/-- The class of the socket object: `sub_t`, whose virtual functions are in
`sub.cpp`, or a socket type whose virtual functions are outside the two
files. -/
inductive class_t where
  | sub
  | other
  deriving DecidableEq, Repr

/-- A call to code outside the two files: the answer, and the socket with the
call in its trace and `errno` as the call leaves it. -/
def ask (env : env_t) (e : event_t) (s : socket_base_t) : answer_t × socket_base_t :=
  let a := env.answer s e
  (a, { s with errno := a.errno, trace := s.trace ++ [e] })

/-- A call to a virtual function that the socket type defines: as `ask`, and
the socket type may write the options. -/
def vask (env : env_t) (e : event_t) (s : socket_base_t) : answer_t × socket_base_t :=
  let a := env.answer s e
  (a, { s with options := a.options, errno := a.errno, trace := s.trace ++ [e] })

/-- The call `cmd.destination->process_command (cmd)`. -/
def process_command (env : env_t) (cmd : command_t) (s : socket_base_t) : socket_base_t :=
  { env.process_command cmd s with trace := s.trace ++ [.process_command cmd] }

/-- The test `flags_ & mask` of a flag word. -/
def test_flag (flags_ mask : Nat) : Bool := flags_ &&& mask != 0

/-- The largest `int`. -/
def INT_MAX : Int := 2 ^ 31 - 1

/-- The least `int`. -/
def INT_MIN : Int := -(2 ^ 31)

/-- The sum of two `int`s; signed overflow is undefined. -/
def int_add (a b : Int) : result Int :=
  if INT_MIN ≤ a + b ∧ a + b ≤ INT_MAX then .ok (a + b) else .error .undefined

/-- The conversion `(int) x` of a `uint64_t`. -/
def to_int (x : Nat) : Int :=
  if x % 2 ^ 32 < 2 ^ 31 then (x % 2 ^ 32 : Nat) else (x % 2 ^ 32 : Nat) - 2 ^ 32

/-- The position of the first occurrence of `str` in `s`, as
`std::string::find` returns it; `none` is `npos`. -/
def find (str : List Char) : List Char → Option Nat
  | [] => if str = [] then some 0 else none
  | c :: s => if str.isPrefixOf (c :: s) then some 0 else (find str s).map (· + 1)

/-- Modelled from the spec: `is_terminating ()` of `own_t`. -/
def is_terminating (s : socket_base_t) : Bool := s.terminating

/-- Modelled from the spec: `register_term_acks (count_)` of `own_t`. -/
def register_term_acks (count_ : Int) (s : socket_base_t) : socket_base_t :=
  { s with term_acks := s.term_acks + count_ }

/-- Modelled from the spec: `own_t::process_term (linger_)`, which takes the
object to the state Terminating. -/
def own_process_term (env : env_t) (linger_ : Int) (s : socket_base_t) : socket_base_t :=
  { (ask env (.own_process_term linger_) s).2 with terminating := true }

/-- Modelled from the spec: `unregister_term_ack ()` of `own_t`, which takes
one from the outstanding term-acks. -/
def unregister_term_ack (s : socket_base_t) : socket_base_t :=
  { s with term_acks := s.term_acks - 1 }

/-- The call `memcpy (data + off, src, n)` on blocks of bytes. -/
def memcpy (data : List Nat) (off : Nat) (src : List Nat) (n : Nat) : List Nat :=
  data.take off ++ src.take n ++ data.drop (off + n)

namespace sub_t

/-- The function `sub_t::xsetsockopt` (lines 38-74). -/
def xsetsockopt (cfg : config_t) (env : env_t) (option_ : Int) (optval_ : List Nat)
    (s : socket_base_t) : result (Int × socket_base_t) :=
  if option_ = cfg.ZMQ_SUBSCRIBE ∨ option_ = cfg.ZMQ_UNSUBSCRIBE then
    -- Create the subscription message.
    let data := List.replicate (optval_.length + 1) 0
    let data :=
      if option_ = cfg.ZMQ_SUBSCRIBE then data.set 0 1
      else if option_ = cfg.ZMQ_UNSUBSCRIBE then data.set 0 0
      else data
    let data := memcpy data 1 optval_ optval_.length
    let msg : msg_t := { valid := true, more := false, label := false, data := data }
    -- Pass it further on in the stack.
    let (a, s1) := vask env (.xsub_xsend msg 0) s
    let rc := a.rc
    let err := s1.errno
    let (c, s2) := ask env (.msg_close a.msg) s1
    if c.rc ≠ 0 then .error .assertion
    else if rc ≠ 0 then .ok (rc, { s2 with errno := err })
    else .ok (rc, s2)
  else
    -- Not one of our custom options; pass along to base.
    let (a, s1) := vask env (.xsub_xsetsockopt option_ optval_) s
    .ok (a.rc, s1)

/-- The function `sub_t::xsend` (lines 76-81). -/
def xsend (msg_ : msg_t) (_flags_ : Nat) (s : socket_base_t) : Int × msg_t × socket_base_t :=
  (-1, msg_, { s with errno := .ENOTSUP })

/-- The function `sub_t::xhas_out` (lines 83-87). -/
def xhas_out (s : socket_base_t) : Bool × socket_base_t := (false, s)

end sub_t

namespace socket_base_t

/-- The constructor: a socket of the given options in its first state. -/
def init (options : options_t) (errno : errno_t) : socket_base_t :=
  { ctx_terminated := false, destroyed := false, last_tsc := 0, ticks := 0,
    rcvlabel := false, rcvmore := false, pipes := [], options := options,
    terminating := false, term_acks := 0, errno := errno, trace := [] }

/-- The virtual `xsetsockopt` of the class. -/
def xsetsockopt (cfg : config_t) (env : env_t) (cls : class_t) (option_ : Int)
    (optval_ : List Nat) (s : socket_base_t) : result (Int × socket_base_t) :=
  match cls with
  | .sub => sub_t.xsetsockopt cfg env option_ optval_ s
  | .other =>
    let (a, s1) := vask env (.xsetsockopt option_ optval_) s
    .ok (a.rc, s1)

/-- The virtual `xgetsockopt`: the result, the bytes written to the buffer
and the socket. -/
def xgetsockopt (env : env_t) (option_ : Int) (optvallen_ : Nat) (s : socket_base_t) :
    Int × List Nat × socket_base_t :=
  let (a, s1) := vask env (.xgetsockopt option_ optvallen_) s
  (a.rc, a.bytes, s1)

/-- The virtual `xsend` of the class: the result, the message after the call
and the socket. -/
def xsend (env : env_t) (cls : class_t) (msg_ : msg_t) (flags_ : Nat) (s : socket_base_t) :
    Int × msg_t × socket_base_t :=
  match cls with
  | .sub => sub_t.xsend msg_ flags_ s
  | .other =>
    let (a, s1) := vask env (.xsend msg_ flags_) s
    (a.rc, a.msg, s1)

/-- The virtual `xrecv`: the result, the message after the call and the
socket. -/
def xrecv (env : env_t) (msg_ : msg_t) (flags_ : Nat) (s : socket_base_t) :
    Int × msg_t × socket_base_t :=
  let (a, s1) := vask env (.xrecv msg_ flags_) s
  (a.rc, a.msg, s1)

/-- The virtual `xattach_pipe`. -/
def xattach_pipe (env : env_t) (pipe_ : pipe_t) (peer_identity_ : List Nat)
    (s : socket_base_t) : socket_base_t :=
  (vask env (.xattach_pipe pipe_ peer_identity_) s).2

/-- The virtual `xhas_out` of the class. -/
def xhas_out (env : env_t) (cls : class_t) (s : socket_base_t) : Bool × socket_base_t :=
  match cls with
  | .sub => sub_t.xhas_out s
  | .other =>
    let (a, s1) := vask env .xhas_out s
    (a.rc != 0, s1)

/-- The function `parse_uri` (lines 162-180): the result, the two strings
after the call and the socket. -/
def parse_uri (uri_ : Option (List Char)) (protocol_ address_ : List Char)
    (s : socket_base_t) : result (Int × List Char × List Char × socket_base_t) :=
  match uri_ with
  | none => .error .assertion
  | some uri =>
    match find "://".toList uri with
    | none => .ok (-1, protocol_, address_, { s with errno := .EINVAL })
    | some pos =>
      let protocol_ := uri.take pos
      let address_ := uri.drop (pos + 3)
      if protocol_.isEmpty ∨ address_.isEmpty then
        .ok (-1, protocol_, address_, { s with errno := .EINVAL })
      else .ok (0, protocol_, address_, s)

/-- The function `check_protocol` (lines 182-221). -/
def check_protocol (cfg : config_t) (protocol_ : List Char) (s : socket_base_t) :
    Int × socket_base_t :=
  -- First check out whether the protcol is something we are aware of.
  if protocol_ ≠ "inproc".toList ∧ protocol_ ≠ "ipc".toList ∧ protocol_ ≠ "tcp".toList ∧
      protocol_ ≠ "pgm".toList ∧ protocol_ ≠ "epgm".toList ∧ protocol_ ≠ "sys".toList then
    (-1, { s with errno := .EPROTONOSUPPORT })
  -- If 0MQ is not compiled with OpenPGM, pgm and epgm transports are not
  -- available.
  else if cfg.ZMQ_HAVE_OPENPGM = false ∧
      (protocol_ = "pgm".toList ∨ protocol_ = "epgm".toList) then
    (-1, { s with errno := .EPROTONOSUPPORT })
  -- IPC transport is not available on Windows and OpenVMS.
  else if (cfg.ZMQ_HAVE_WINDOWS = true ∨ cfg.ZMQ_HAVE_OPENVMS = true) ∧
      protocol_ = "ipc".toList then
    (-1, { s with errno := .EPROTONOSUPPORT })
  -- Check whether socket type and transport protocol match.
  else if (protocol_ = "pgm".toList ∨ protocol_ = "epgm".toList) ∧
      s.options.type ≠ .ZMQ_PUB ∧ s.options.type ≠ .ZMQ_SUB ∧
      s.options.type ≠ .ZMQ_XPUB ∧ s.options.type ≠ .ZMQ_XSUB then
    (-1, { s with errno := .ENOCOMPATPROTO })
  -- Protocol is available.
  else (0, s)

/-- The identity that `attach_pipe` makes up for a peer without one: the
17 bytes of `blob_t identity (17, 0)` after `generate_uuid` has written 16
bytes from the second byte on. -/
def generated_identity (uuid : List Nat) : List Nat :=
  memcpy (List.replicate 17 0) 1 ((List.range 16).map (fun i => uuid.getD i 0)) 16

/-- The function `attach_pipe` (lines 223-247). -/
def attach_pipe (env : env_t) (pipe_ : pipe_t) (peer_identity_ : List Nat)
    (s : socket_base_t) : socket_base_t :=
  -- First, register the pipe so that we can terminate it later on.
  let s := (ask env (.set_event_sink pipe_) s).2
  let s := { s with pipes := s.pipes ++ [pipe_] }
  -- Then, pass the pipe to the specific socket type.
  -- If the peer haven't specified it's identity, let's generate one.
  let s :=
    if peer_identity_.length ≠ 0 then xattach_pipe env pipe_ peer_identity_ s
    else
      let (a, s) := ask env .generate_uuid s
      xattach_pipe env pipe_ (generated_identity a.bytes) s
  -- If the socket is already being closed, ask any new pipes to terminate
  -- straight away.
  if is_terminating s then
    (ask env (.pipe_terminate pipe_ false) (register_term_acks 1 s)).2
  else s

/-- The function `setsockopt` (lines 249-259). -/
def setsockopt (cfg : config_t) (env : env_t) (cls : class_t) (option_ : Int)
    (optval_ : List Nat) (s : socket_base_t) : result (Int × socket_base_t) :=
  if s.ctx_terminated then .ok (-1, { s with errno := .ETERM })
  else xsetsockopt cfg env cls option_ optval_ s

/-- The function `getsockopt` (lines 261-271): the result, the bytes written
to the buffer and the socket. -/
def getsockopt (env : env_t) (option_ : Int) (optvallen_ : Nat) (s : socket_base_t) :
    Int × List Nat × socket_base_t :=
  if s.ctx_terminated then (-1, [], { s with errno := .ETERM })
  else xgetsockopt env option_ optvallen_ s

/-- The high-water mark of one direction of an inproc connection, as `connect`
computes `sndhwm` and `rcvhwm` (lines 376-383): `mine` is the mark of the
connecting socket, `theirs` the opposite mark of the peer. -/
def inproc_hwm (mine theirs : Int) : result Int :=
  if mine = 0 ∨ theirs = 0 then .ok 0 else int_add mine theirs

/-- The function `connect` (lines 330-440). -/
def connect (cfg : config_t) (env : env_t) (addr_ : Option (List Char))
    (s : socket_base_t) : result (Int × socket_base_t) :=
  if s.ctx_terminated then .ok (-1, { s with errno := .ETERM })
  else
    -- Parse addr_ string.
    match parse_uri addr_ [] [] s with
    | .error f => .error f
    | .ok (rc, protocol, address, s) =>
    if rc ≠ 0 then .ok (-1, s)
    else
    -- Checks that protocol is valid and supported on this system
    let (rc, s) := check_protocol cfg protocol s
    if rc ≠ 0 then .ok (-1, s)
    else
    -- Parsed address for validation
    let (rc, s) :=
      if protocol = "tcp".toList then
        let (a, s) := ask env (.resolve_ip_hostname address) s
        (a.rc, s)
      else if protocol = "ipc".toList then
        let (a, s) := ask env (.resolve_local_path address) s
        (a.rc, s)
      else (rc, s)
    if rc ≠ 0 then .ok (-1, s)
    else if protocol = "inproc".toList ∨ protocol = "sys".toList then
      -- Find the peer endpoint.
      let (peer, s) := ask env (.find_endpoint (addr_.getD [])) s
      if peer.ptr = 0 then .ok (-1, s)
      else
      -- The total HWM for an inproc connection should be the sum of
      -- the binder's HWM and the connector's HWM.
      match inproc_hwm s.options.sndhwm peer.peer_options.rcvhwm with
      | .error f => .error f
      | .ok sndhwm =>
      match inproc_hwm s.options.rcvhwm peer.peer_options.sndhwm with
      | .error f => .error f
      | .ok rcvhwm =>
      -- Create a bi-directional pipe to connect the peers.
      let (p, s) := ask env (.pipepair peer.ptr sndhwm rcvhwm
        s.options.delay_on_disconnect s.options.delay_on_close) s
      if p.rc ≠ 0 then .error .assertion
      else
      -- Attach local end of the pipe to this socket object.
      let s := attach_pipe env p.ptr peer.peer_options.identity s
      -- Attach remote end of the pipe to the peer socket.
      let s := (ask env (.send_bind peer.ptr p.ptr2 s.options.identity) s).2
      .ok (0, s)
    else
      -- Choose the I/O thread to run the session in.
      let (io_thread, s) := ask env (.choose_io_thread s.options.affinity) s
      if io_thread.ptr = 0 then .ok (-1, { s with errno := .EMTHREAD })
      else
      -- Create session.
      let (session, s) := ask env (.new_session io_thread.ptr s.options protocol address) s
      -- If 'immediate connect' feature is required, we'll create the pipes
      -- to the session straight away.
      let r : result socket_base_t :=
        if s.options.immediate_connect then
          let (p, s) := ask env (.pipepair session.ptr s.options.sndhwm s.options.rcvhwm
            s.options.delay_on_disconnect s.options.delay_on_close) s
          if p.rc ≠ 0 then .error .assertion
          else
          -- Attach local end of the pipe to the socket object.
          let s := attach_pipe env p.ptr [] s
          -- Attach remote end of the pipe to the session object later on.
          .ok (ask env (.session_attach_pipe session.ptr p.ptr2) s).2
        else .ok s
      match r with
      | .error f => .error f
      | .ok s =>
      -- Activate the session. Make it a child of this socket.
      .ok (0, (ask env (.launch_child session.ptr) s).2)

/-- The function `bind` (lines 273-328). -/
def bind (cfg : config_t) (env : env_t) (addr_ : Option (List Char))
    (s : socket_base_t) : result (Int × socket_base_t) :=
  if s.ctx_terminated then .ok (-1, { s with errno := .ETERM })
  else
    -- Parse addr_ string.
    match parse_uri addr_ [] [] s with
    | .error f => .error f
    | .ok (rc, protocol, address, s1) =>
    if rc ≠ 0 then .ok (-1, s1)
    else
    let (rc, s2) := check_protocol cfg protocol s1
    if rc ≠ 0 then .ok (-1, s2)
    else if protocol = "inproc".toList ∨ protocol = "sys".toList then
      let (a, s3) := ask env (.register_endpoint (addr_.getD []) s2.options) s2
      .ok (a.rc, s3)
    else if protocol = "tcp".toList ∨ protocol = "ipc".toList then
      -- Choose I/O thread to run the listerner in.
      let (io_thread, s3) := ask env (.choose_io_thread s2.options.affinity) s2
      if io_thread.ptr = 0 then .ok (-1, { s3 with errno := .EMTHREAD })
      else
      -- Create and run the listener.
      let (listener, s4) := ask env (.new_listener io_thread.ptr s3.options) s3
      let (a, s5) := ask env (.set_address listener.ptr protocol address) s4
      if a.rc ≠ 0 then .ok (-1, (ask env (.delete_listener listener.ptr) s5).2)
      else .ok (0, (ask env (.launch_child listener.ptr) s5).2)
    else if protocol = "pgm".toList ∨ protocol = "epgm".toList then
      -- For convenience's sake, bind can be used interchageable with
      -- connect for PGM and EPGM transports.
      connect cfg env addr_ s
    else .error .assertion

/-- The loop of `process_commands` (lines 721-729), entered with the result
`rc` of the last `mailbox.recv` and the command `cmd` it wrote: whether the
loop was left by `break` (and not by `return -1`), and the socket. -/
def process_commands_loop (env : env_t) :
    Nat → Int → command_t → socket_base_t → result (Bool × socket_base_t)
  | 0, _, _, _ => .error .fuel
  | fuel + 1, rc, cmd, s =>
    if rc = -1 ∧ s.errno = .EAGAIN then .ok (true, s)
    else if rc = -1 ∧ s.errno = .EINTR then .ok (false, s)
    else if rc ≠ 0 then .error .assertion
    else
      let s := process_command env cmd s
      let (a, s) := ask env (.mailbox_recv 0) s
      process_commands_loop env fuel a.rc a.ptr s

/-- The end of `process_commands` (lines 720-738), entered with the result
`rc` of the first `mailbox.recv` and the command `cmd` it wrote. -/
def process_commands_end (env : env_t) (fuel : Nat) (rc : Int) (cmd : command_t)
    (s : socket_base_t) : result (Int × socket_base_t) :=
  -- Process all the commands available at the moment.
  match process_commands_loop env fuel rc cmd s with
  | .error f => .error f
  | .ok (false, s) => .ok (-1, s)
  | .ok (true, s) =>
    if s.ctx_terminated then .ok (-1, { s with errno := .ETERM })
    else .ok (0, s)

/-- The function `process_commands` (lines 685-739), with a budget for the
steps of its loop. -/
def process_commands (cfg : config_t) (env : env_t) (fuel : Nat) (timeout_ : Int)
    (throttle_ : Bool) (s : socket_base_t) : result (Int × socket_base_t) :=
  if timeout_ ≠ 0 then
    -- If we are asked to wait, simply ask mailbox to wait.
    let (a, s) := ask env (.mailbox_recv timeout_) s
    process_commands_end env fuel a.rc a.ptr s
  else
    -- Get the CPU's tick counter. If 0, the counter is not available.
    let (tsc, s) := ask env .rdtsc s
    -- Check whether TSC haven't jumped backwards and whether certain time
    -- have elapsed since last command processing. If it didn't do nothing.
    if (tsc.ptr ≠ 0 ∧ throttle_ = true) ∧
        (tsc.ptr ≥ s.last_tsc ∧ tsc.ptr - s.last_tsc ≤ cfg.max_command_delay) then
      .ok (0, s)
    else
      let s := if tsc.ptr ≠ 0 ∧ throttle_ = true then { s with last_tsc := tsc.ptr } else s
      -- Check whether there are any commands pending for this thread.
      let (a, s) := ask env (.mailbox_recv 0) s
      process_commands_end env fuel a.rc a.ptr s

/-- The time `end` of `send` and `recv`: 0 for an infinite timeout, else
`clock.now_ms () + timeout`. -/
def deadline (env : env_t) (timeout : Int) (s : socket_base_t) : Nat × socket_base_t :=
  if timeout < 0 then (0, s)
  else
    let (now, s) := ask env .now_ms s
    ((now.ptr + timeout.toNat) % 2 ^ 64, s)

/-- The step at the end of a round of the loops of `send` and `recv`
(`if (timeout > 0)`): the timeout left, or nothing when it is reached, and
the socket. -/
def remaining (env : env_t) (timeout : Int) (end_ : Nat) (s : socket_base_t) :
    Option Int × socket_base_t :=
  if timeout > 0 then
    let (now, s) := ask env .now_ms s
    let timeout := to_int ((end_ + 2 ^ 64 - now.ptr % 2 ^ 64) % 2 ^ 64)
    if timeout ≤ 0 then (none, { s with errno := .EAGAIN })
    else (some timeout, s)
  else (some timeout, s)

/-- The loop of `send` (lines 491-503): whether it was left by `break` (and
not by `return -1`), the message and the socket. -/
def send_loop (cfg : config_t) (env : env_t) (cls : class_t) (fuel : Nat) (flags_ : Nat)
    (end_ : Nat) : Nat → Int → msg_t → socket_base_t → result (Bool × msg_t × socket_base_t)
  | 0, _, _, _ => .error .fuel
  | k + 1, timeout, msg_, s =>
    match process_commands cfg env fuel timeout false s with
    | .error f => .error f
    | .ok (rc, s) =>
    if rc ≠ 0 then .ok (false, msg_, s)
    else
    let (rc, msg_, s) := xsend env cls msg_ flags_ s
    if rc = 0 then .ok (true, msg_, s)
    else if s.errno ≠ .EAGAIN then .ok (false, msg_, s)
    else
    match remaining env timeout end_ s with
    | (none, s) => .ok (false, msg_, s)
    | (some timeout, s) => send_loop cfg env cls fuel flags_ end_ k timeout msg_ s

/-- The message after the statements of `send` that impose the LABEL and MORE
flags on it (lines 460-464). -/
def impose_flags (cfg : config_t) (flags_ : Nat) (msg_ : msg_t) : msg_t :=
  let msg_ := if test_flag flags_ cfg.ZMQ_SNDLABEL then { msg_ with label := true } else msg_
  if test_flag flags_ cfg.ZMQ_SNDMORE then { msg_ with more := true } else msg_

/-- The function `send` (lines 442-505), with a budget for the steps of each
loop: the result, the message after the call and the socket. -/
def send (cfg : config_t) (env : env_t) (cls : class_t) (fuel : Nat) (msg_ : msg_t)
    (flags_ : Nat) (s : socket_base_t) : result (Int × msg_t × socket_base_t) :=
  -- Check whether the library haven't been shut down yet.
  if s.ctx_terminated then .ok (-1, msg_, { s with errno := .ETERM })
  -- Check whether message passed to the function is valid.
  else if msg_.valid = false then .ok (-1, msg_, { s with errno := .EFAULT })
  else
    -- Process pending commands, if any.
    match process_commands cfg env fuel 0 true s with
    | .error f => .error f
    | .ok (rc, s) =>
    if rc ≠ 0 then .ok (-1, msg_, s)
    else
    -- At this point we impose the LABEL & MORE flags on the message.
    let msg_ := impose_flags cfg flags_ msg_
    -- Try to send the message.
    let (rc, msg_, s) := xsend env cls msg_ flags_ s
    if rc = 0 then .ok (0, msg_, s)
    else if s.errno ≠ .EAGAIN then .ok (-1, msg_, s)
    -- In case of non-blocking send we'll simply propagate
    -- the error - including EAGAIN - up the stack.
    else if test_flag flags_ cfg.ZMQ_DONTWAIT = true ∨ s.options.sndtimeo = 0 then
      .ok (-1, msg_, s)
    else
      -- Compute the time when the timeout should occur.
      let timeout := s.options.sndtimeo
      let (end_, s) := deadline env timeout s
      -- Wait for the next command, process it and try to send the message
      -- again.  If timeout is reached in the meantime, return EAGAIN.
      match send_loop cfg env cls fuel flags_ end_ fuel timeout msg_ s with
      | .error f => .error f
      | .ok (false, msg_, s) => .ok (-1, msg_, s)
      | .ok (true, msg_, s) => .ok (0, msg_, s)

/-- The four statements that end each successful path of `recv` (lines
541-546, 561-566 and 600-605): the message and the socket after them. -/
def recv_flags (msg_ : msg_t) (s : socket_base_t) : msg_t × socket_base_t :=
  let rcvlabel := msg_.label
  let rcvmore := msg_.more || rcvlabel
  let msg_ := if rcvlabel then { msg_ with label := false } else msg_
  let msg_ := if rcvmore then { msg_ with more := false } else msg_
  (msg_, { s with rcvlabel := rcvlabel, rcvmore := rcvmore })

/-- The loop of `recv` (lines 579-599): whether it was left by `break` (and
not by `return -1`), the message and the socket. -/
def recv_loop (cfg : config_t) (env : env_t) (fuel : Nat) (flags_ : Nat) (end_ : Nat) :
    Nat → Bool → Int → msg_t → socket_base_t → result (Bool × msg_t × socket_base_t)
  | 0, _, _, _, _ => .error .fuel
  | k + 1, block, timeout, msg_, s =>
    match process_commands cfg env fuel (if block then timeout else 0) false s with
    | .error f => .error f
    | .ok (rc, s) =>
    if rc ≠ 0 then .ok (false, msg_, s)
    else
    let (rc, msg_, s) := xrecv env msg_ flags_ s
    if rc = 0 then .ok (true, msg_, { s with ticks := 0 })
    else if s.errno ≠ .EAGAIN then .ok (false, msg_, s)
    else
    match remaining env timeout end_ s with
    | (none, s) => .ok (false, msg_, s)
    | (some timeout, s) => recv_loop cfg env fuel flags_ end_ k true timeout msg_ s

/-- The statements of `recv` that count the call and, once every
`inbound_poll_rate` calls, process the commands (lines 533-537): the result of
`process_commands`, or 0 when it is not called, and the socket. -/
def recv_tick (cfg : config_t) (env : env_t) (fuel : Nat) (s : socket_base_t) :
    result (Int × socket_base_t) :=
  let s := { s with ticks := s.ticks + 1 }
  if s.ticks = cfg.inbound_poll_rate then
    match process_commands cfg env fuel 0 false s with
    | .error f => .error f
    | .ok (r, s) => if r ≠ 0 then .ok (r, s) else .ok (0, { s with ticks := 0 })
  else .ok (0, s)

/-- The branch of `recv` for a non-blocking call that found no message
(lines 553-568). -/
def recv_nonblocking (cfg : config_t) (env : env_t) (fuel : Nat) (msg_ : msg_t) (flags_ : Nat)
    (s : socket_base_t) : result (Int × msg_t × socket_base_t) :=
  match process_commands cfg env fuel 0 false s with
  | .error f => .error f
  | .ok (r, s) =>
    if r ≠ 0 then .ok (-1, msg_, s)
    else
      let s := { s with ticks := 0 }
      let (rc, msg_, s) := xrecv env msg_ flags_ s
      if rc < 0 then .ok (rc, msg_, s)
      else
        let (msg_, s) := recv_flags msg_ s
        .ok (0, msg_, s)

/-- The end of `recv` for a blocking call that found no message (lines
570-606). -/
def recv_blocking (cfg : config_t) (env : env_t) (fuel : Nat) (msg_ : msg_t) (flags_ : Nat)
    (s : socket_base_t) : result (Int × msg_t × socket_base_t) :=
  -- Compute the time when the timeout should occur.
  let timeout := s.options.rcvtimeo
  let (end_, s) := deadline env timeout s
  -- In blocking scenario, commands are processed over and over again
  -- until we are able to fetch a message.
  let block := s.ticks != 0
  match recv_loop cfg env fuel flags_ end_ fuel block timeout msg_ s with
  | .error f => .error f
  | .ok (false, msg_, s) => .ok (-1, msg_, s)
  | .ok (true, msg_, s) =>
    let (msg_, s) := recv_flags msg_ s
    .ok (0, msg_, s)

/-- The function `recv` (lines 507-607), with a budget for the steps of each
loop: the result, the message after the call and the socket. -/
def recv (cfg : config_t) (env : env_t) (fuel : Nat) (msg_ : msg_t) (flags_ : Nat)
    (s : socket_base_t) : result (Int × msg_t × socket_base_t) :=
  -- Check whether the library haven't been shut down yet.
  if s.ctx_terminated then .ok (-1, msg_, { s with errno := .ETERM })
  -- Check whether message passed to the function is valid.
  else if msg_.valid = false then .ok (-1, msg_, { s with errno := .EFAULT })
  else
    -- Get the message.
    let (rc, msg_, s) := xrecv env msg_ flags_ s
    if rc ≠ 0 ∧ s.errno ≠ .EAGAIN then .ok (-1, msg_, s)
    else
    -- Once every inbound_poll_rate messages check for signals and process
    -- incoming commands.
    match recv_tick cfg env fuel s with
    | .error f => .error f
    | .ok (r, s) =>
    if r ≠ 0 then .ok (-1, msg_, s)
    -- If we have the message, return immediately.
    else if rc = 0 then
      let (msg_, s) := recv_flags msg_ s
      .ok (0, msg_, s)
    -- For non-blocking recv, commands are processed in case there's an
    -- activate_reader command already waiting int a command pipe.
    else if test_flag flags_ cfg.ZMQ_DONTWAIT = true ∨ s.options.rcvtimeo = 0 then
      recv_nonblocking cfg env fuel msg_ flags_ s
    else recv_blocking cfg env fuel msg_ flags_ s

/-- The function `close` (lines 609-617). -/
def close (env : env_t) (s : socket_base_t) : Int × socket_base_t :=
  -- Transfer the ownership of the socket from this application thread
  -- to the reaper thread which will take care of the rest of shutdown
  -- process.
  (0, (ask env .send_reap s).2)

/-- The function `has_out` (lines 624-627). -/
def has_out (env : env_t) (cls : class_t) (s : socket_base_t) : Bool × socket_base_t :=
  xhas_out env cls s

/-- The function `process_stop` (lines 741-748). -/
def process_stop (s : socket_base_t) : socket_base_t :=
  { s with ctx_terminated := true }

/-- The function `process_bind` (lines 750-754). -/
def process_bind (env : env_t) (pipe_ : pipe_t) (peer_identity_ : List Nat)
    (s : socket_base_t) : socket_base_t :=
  attach_pipe env pipe_ peer_identity_ s

/-- The function `process_term` (lines 760-774). -/
def process_term (env : env_t) (linger_ : Int) (s : socket_base_t) : socket_base_t :=
  -- Unregister all inproc endpoints associated with this socket.
  let s := (ask env .unregister_endpoints s).2
  -- Ask all attached pipes to terminate.
  let s := s.pipes.foldl (fun s pipe_ => (ask env (.pipe_terminate pipe_ false) s).2) s
  let s := register_term_acks s.pipes.length s
  -- Continue the termination process immediately.
  own_process_term env linger_ s

/-- The function `process_destroy` (lines 776-779). -/
def process_destroy (s : socket_base_t) : socket_base_t :=
  { s with destroyed := true }

/-- The virtual `xterminated`. -/
def xterminated (env : env_t) (pipe_ : pipe_t) (s : socket_base_t) : socket_base_t :=
  (vask env (.xterminated pipe_) s).2

/-- The function `terminated` (lines 946-956); `pipes.erase (pipe_)` takes the
pipe out of the list of attached pipes. -/
def terminated (env : env_t) (pipe_ : pipe_t) (s : socket_base_t) : socket_base_t :=
  -- Notify the specific socket type about the pipe termination.
  let s := xterminated env pipe_ s
  -- Remove the pipe from the list of attached pipes and confirm its
  -- termination if we are already shutting down.
  let s := { s with pipes := s.pipes.erase pipe_ }
  if is_terminating s then unregister_term_ack s else s

end socket_base_t

/-- The constructor of `sub_t` (lines 26-35): the socket that the constructor
of `xsub_t` leaves, given by its options, with the type and the filter set. -/
def sub_t.init (options : options_t) (errno : errno_t) : socket_base_t :=
  socket_base_t.init { options with type := .ZMQ_SUB, filter := true } errno

/-! ## What the claims about the socket speak of -/

/-- The string `uri` is `before`, then its first `"://"`, then `after`. -/
def splits_at_first (uri before after : List Char) : Prop :=
  uri = before ++ "://".toList ++ after ∧
    ∀ b a : List Char, uri = b ++ "://".toList ++ a → before.length ≤ b.length

/-- The transport named `protocol_` is not available in the build: it is not
one of inproc, ipc, tcp, pgm, epgm, sys, or it is pgm or epgm in a build
without OpenPGM, or it is ipc in a build for Windows or OpenVMS. -/
def unsupported (cfg : config_t) (protocol_ : List Char) : Prop :=
  protocol_ ∉ ["inproc".toList, "ipc".toList, "tcp".toList, "pgm".toList, "epgm".toList,
      "sys".toList] ∨
    ((protocol_ = "pgm".toList ∨ protocol_ = "epgm".toList) ∧ cfg.ZMQ_HAVE_OPENPGM = false) ∨
    (protocol_ = "ipc".toList ∧ (cfg.ZMQ_HAVE_WINDOWS = true ∨ cfg.ZMQ_HAVE_OPENVMS = true))

/-- The transport named `protocol_` is a multicast transport, pgm or epgm, and
the socket type is none of PUB, SUB, XPUB, XSUB. -/
def incompatible (protocol_ : List Char) (type : type_t) : Prop :=
  (protocol_ = "pgm".toList ∨ protocol_ = "epgm".toList) ∧
    type ∉ [type_t.ZMQ_PUB, type_t.ZMQ_SUB, type_t.ZMQ_XPUB, type_t.ZMQ_XSUB]

/-- A call of the user on the socket, with its arguments. -/
inductive api_t where
  | setsockopt (option_ : Int) (optval_ : List Nat)
  | getsockopt (option_ : Int) (optvallen_ : Nat)
  | bind (addr_ : Option (List Char))
  | connect (addr_ : Option (List Char))
  | send (msg_ : msg_t) (flags_ : Nat)
  | recv (msg_ : msg_t) (flags_ : Nat)

/-- The result of a call of the user and the socket after it. -/
def perform (cfg : config_t) (env : env_t) (cls : class_t) (fuel : Nat) :
    api_t → socket_base_t → result (Int × socket_base_t)
  | .setsockopt option_ optval_, s => socket_base_t.setsockopt cfg env cls option_ optval_ s
  | .getsockopt option_ optvallen_, s =>
    let (rc, _, s) := socket_base_t.getsockopt env option_ optvallen_ s
    .ok (rc, s)
  | .bind addr_, s => socket_base_t.bind cfg env addr_ s
  | .connect addr_, s => socket_base_t.connect cfg env addr_ s
  | .send msg_ flags_, s =>
    match socket_base_t.send cfg env cls fuel msg_ flags_ s with
    | .error f => .error f
    | .ok (rc, _, s) => .ok (rc, s)
  | .recv msg_ flags_, s =>
    match socket_base_t.recv cfg env fuel msg_ flags_ s with
    | .error f => .error f
    | .ok (rc, _, s) => .ok (rc, s)

/-- The results of a sequence of calls of the user, made one after the other,
and the socket after them. -/
def perform_all (cfg : config_t) (env : env_t) (cls : class_t) (fuel : Nat) :
    List api_t → socket_base_t → result (List Int × socket_base_t)
  | [], s => .ok ([], s)
  | c :: cs, s =>
    match perform cfg env cls fuel c s with
    | .error f => .error f
    | .ok (rc, s) =>
      match perform_all cfg env cls fuel cs s with
      | .error f => .error f
      | .ok (rcs, s) => .ok (rc :: rcs, s)

/-- The number of calls of `xrecv` in a trace. -/
def count_xrecv : List event_t → Nat
  | [] => 0
  | .xrecv _ _ :: r => count_xrecv r + 1
  | _ :: r => count_xrecv r

/-- The high-water marks given to `pipepair` by the calls in a trace. -/
def pipepair_hwms : List event_t → List (Int × Int)
  | [] => []
  | .pipepair _ hwm0 hwm1 _ _ :: r => (hwm0, hwm1) :: pipepair_hwms r
  | _ :: r => pipepair_hwms r

/-- What a pipe does to its socket: it is attached, with the identity of its
peer, or it reports that it has terminated. -/
inductive pipe_op where
  | attach (pipe_ : pipe_t) (peer_identity_ : List Nat)
  | terminated (pipe_ : pipe_t)

/-- The socket after the calls of `attach_pipe` and `terminated` of a
sequence, made one after the other. -/
def pipe_run (env : env_t) : List pipe_op → socket_base_t → socket_base_t
  | [], s => s
  | .attach pipe_ peer_identity_ :: ops, s =>
    pipe_run env ops (socket_base_t.attach_pipe env pipe_ peer_identity_ s)
  | .terminated pipe_ :: ops, s => pipe_run env ops (socket_base_t.terminated env pipe_ s)

/-- Every pipe of the sequence that reports its termination is attached at
that time, `pipes` being the pipes attached at the start. -/
def attached_then : List pipe_op → List pipe_t → Bool
  | [], _ => true
  | .attach pipe_ _ :: ops, pipes => attached_then ops (pipes ++ [pipe_])
  | .terminated pipe_ :: ops, pipes => decide (pipe_ ∈ pipes) && attached_then ops (pipes.erase pipe_)

/-! ## Writing down a socket and its surroundings -/

/-- A build with OpenPGM on a system with the ipc transport, with sample values
for the constants: three flag bits and two option numbers that differ. -/
def sample_config : config_t :=
  { ZMQ_HAVE_OPENPGM := true, ZMQ_HAVE_WINDOWS := false, ZMQ_HAVE_OPENVMS := false,
    inbound_poll_rate := 100, max_command_delay := 3000000,
    ZMQ_DONTWAIT := 1, ZMQ_SNDMORE := 2, ZMQ_SNDLABEL := 4,
    ZMQ_SUBSCRIBE := 6, ZMQ_UNSUBSCRIBE := 7 }

/-- The options of a socket of the given type with the high-water marks 100
and 200, infinite timeouts and no identity. -/
def sample_options (type : type_t) : options_t :=
  { type := type, sndhwm := 100, rcvhwm := 200, sndtimeo := -1, rcvtimeo := -1,
    affinity := 0, identity := [], delay_on_close := true, delay_on_disconnect := true,
    immediate_connect := true, filter := false }

/-- A message of the given bytes with the given flags. -/
def sample_msg (more label : Bool) (data : List Nat) : msg_t :=
  { valid := true, more := more, label := label, data := data }

/-- An answer with the given result and `errno` that writes nothing else. -/
def plain_answer (s : socket_base_t) (rc : Int) (errno : errno_t) (msg_ : msg_t) : answer_t :=
  { rc := rc, errno := errno, options := s.options, msg := msg_, ptr := 1, ptr2 := 2,
    bytes := [], peer_options := s.options }

/-- Surroundings for the examples.  The mailbox is empty (`mailbox.recv`
returns -1 with `EAGAIN`); `xsend` fails with `xsend_errno`, or takes the
message when there is none; the calls of `xrecv` are answered in turn from
`inbox`: a message is returned, at nothing and past the end `xrecv` fails with
`EAGAIN`; `generate_uuid` writes the bytes 1 to 16; an endpoint is found with
the options `peer`; every other call returns 0, the pointers 1 and 2, and
leaves `errno` alone. -/
def sample_env (xsend_errno : Option errno_t) (inbox : List (Option msg_t))
    (peer : options_t) : env_t :=
  { answer := fun s e =>
      match e with
      | .mailbox_recv _ => plain_answer s (-1) .EAGAIN (sample_msg false false [])
      | .xsend msg_ _ =>
        match xsend_errno with
        | none => plain_answer s 0 s.errno msg_
        | some errno => plain_answer s (-1) errno msg_
      | .xsub_xsend msg_ _ =>
        match xsend_errno with
        | none => plain_answer s 0 s.errno msg_
        | some errno => plain_answer s (-1) errno msg_
      | .xrecv msg_ _ =>
        match inbox.getD (count_xrecv s.trace) none with
        | none => plain_answer s (-1) .EAGAIN msg_
        | some m => plain_answer s 0 s.errno m
      | .generate_uuid =>
        { plain_answer s 0 s.errno (sample_msg false false []) with
          bytes := [1, 2, 3, 4, 5, 6, 7, 8, 9, 10, 11, 12, 13, 14, 15, 16] }
      | .find_endpoint _ =>
        { plain_answer s 0 s.errno (sample_msg false false []) with peer_options := peer }
      | _ => plain_answer s 0 s.errno (sample_msg false false []),
    process_command := fun _ s => s }

/-! ## The pipe set -/

theorem mem_pipes_insert (x y : Nat) (l : List Nat) :
    y ∈ pipes_insert x l ↔ y = x ∨ y ∈ l := by
  induction l with
  | nil => simp [pipes_insert]
  | cons q qs ih =>
    unfold pipes_insert
    split_ifs with h1 h2
    · simp
    · subst h2; simp
    · simp [ih]; tauto

theorem pairwise_pipes_insert (x : Nat) (l : List Nat)
    (h : l.Pairwise (· < ·)) : (pipes_insert x l).Pairwise (· < ·) := by
  induction l with
  | nil => simp [pipes_insert]
  | cons q qs ih =>
    unfold pipes_insert
    rw [List.pairwise_cons] at h
    split_ifs with h1 h2
    · rw [List.pairwise_cons, List.pairwise_cons]
      refine ⟨?_, h⟩
      intro a ha
      rcases List.mem_cons.1 ha with rfl | ha
      · exact h1
      · exact lt_trans h1 (h.1 a ha)
    · rw [List.pairwise_cons]; exact h
    · rw [List.pairwise_cons]
      refine ⟨?_, ih h.2⟩
      intro a ha
      rcases (mem_pipes_insert x a qs).1 ha with rfl | ha
      · exact Nat.lt_of_le_of_ne (Nat.le_of_not_lt h1) (Ne.symm h2)
      · exact h.1 a ha

theorem mem_pipes_erase (x y : Nat) (l : List Nat) :
    y ∈ pipes_erase x l ↔ y ∈ l ∧ y ≠ x := by
  simp [pipes_erase]

theorem pairwise_pipes_erase (x : Nat) (l : List Nat)
    (h : l.Pairwise (· < ·)) : (pipes_erase x l).Pairwise (· < ·) :=
  h.filter _

theorem nodup_of_ascending {l : List Nat} (h : l.Pairwise (· < ·)) : l.Nodup :=
  h.imp (fun hab => Nat.ne_of_lt hab)

theorem pipes_erased_eq_one {x : Nat} {l : List Nat} (h : l.Pairwise (· < ·)) :
    pipes_erased x l = 1 ↔ x ∈ l := by
  unfold pipes_erased
  constructor
  · intro h1
    exact List.count_pos_iff.1 (by omega)
  · intro hx
    exact List.count_eq_one_of_mem (nodup_of_ascending h) hx

theorem pipes_erased_ne_zero {x : Nat} {l : List Nat} :
    pipes_erased x l ≠ 0 ↔ x ∈ l := by
  unfold pipes_erased
  rw [Nat.ne_zero_iff_zero_lt, List.count_pos_iff]

theorem length_pipes_erase {x : Nat} {l : List Nat} (h : l.Pairwise (· < ·))
    (hx : x ∈ l) : (pipes_erase x l).length + 1 = l.length := by
  induction l with
  | nil => simp at hx
  | cons q qs ih =>
    rw [List.pairwise_cons] at h
    by_cases hq : q = x
    · subst hq
      have : pipes_erase q qs = qs := by
        unfold pipes_erase
        rw [List.filter_eq_self]
        intro a ha
        have hlt : q < a := h.1 a ha
        have hne : a ≠ q := Nat.ne_of_gt hlt
        simpa using hne
      simp only [pipes_erase] at this ⊢
      simp [this]
    · have hx2 : x ∈ qs := by
        rcases List.mem_cons.1 hx with rfl | h2
        · exact absurd rfl hq
        · exact h2
      have := ih h.2 hx2
      simp [pipes_erase, hq] at this ⊢
      exact this

/-! ## The shape of a well-formed node -/

theorem wf_cases {B : Nat} {t : mtrie_t} (h : wf_upto B t = true) :
    (∃ pipes min, t = .mk pipes min 0 .invalid ∧ pipes.Pairwise (· < ·)) ∨
    (∃ pipes min child, t = .mk pipes min 1 (.node (some child)) ∧
      pipes.Pairwise (· < ·) ∧ wf_upto B child = true) ∨
    (∃ pipes min count T, t = .mk pipes min count (.table T) ∧
      pipes.Pairwise (· < ·) ∧ 2 ≤ count ∧ count ≤ B ∧ min + count ≤ 256 ∧
      T.length = count ∧ wf_upto.wf_table B T = true) := by
  rcases t with ⟨pipes, min, count, next⟩
  rcases next with _ | n | T
  · simp only [wf_upto, Bool.and_eq_true, decide_eq_true_eq, beq_iff_eq] at h
    obtain ⟨h1, rfl⟩ := h
    exact Or.inl ⟨pipes, min, rfl, h1⟩
  · rcases n with _ | child
    · simp [wf_upto] at h
    · simp only [wf_upto, Bool.and_eq_true, decide_eq_true_eq, beq_iff_eq] at h
      obtain ⟨⟨h1, rfl⟩, h3⟩ := h
      exact Or.inr (Or.inl ⟨pipes, min, child, rfl, h1, h3⟩)
  · simp only [wf_upto, Bool.and_eq_true, decide_eq_true_eq, beq_iff_eq] at h
    obtain ⟨⟨⟨⟨⟨h1, h2⟩, h3⟩, h4⟩, h5⟩, h6⟩ := h
    exact Or.inr (Or.inr ⟨pipes, min, count, T, rfl, h1, h2, h3, h4, h5, h6⟩)

theorem wf_pipes {B : Nat} {t : mtrie_t} (h : wf_upto B t = true) :
    t.pipes.Pairwise (· < ·) := by
  rcases wf_cases h with ⟨_, _, rfl, h1⟩ | ⟨_, _, _, rfl, h1, _⟩ | ⟨_, _, _, _, rfl, h1, _⟩ <;>
    exact h1

theorem wf_table_get {B : Nat} {T : List (Option mtrie_t)} (h : wf_upto.wf_table B T = true)
    {i : Nat} {child : mtrie_t} (hi : T[i]? = some (some child)) : wf_upto B child = true := by
  induction T generalizing i with
  | nil => simp at hi
  | cons s r ih =>
    rcases s with _ | c0
    · simp only [wf_upto.wf_table] at h
      cases i with
      | zero => simp at hi
      | succ j => exact ih h (by simpa using hi)
    · simp only [wf_upto.wf_table, Bool.and_eq_true] at h
      cases i with
      | zero =>
        simp at hi
        subst hi
        exact h.1
      | succ j => exact ih h.2 (by simpa using hi)

theorem wf_table_set {B : Nat} {T : List (Option mtrie_t)} (h : wf_upto.wf_table B T = true)
    (i : Nat) {child : mtrie_t} (hc : wf_upto B child = true) :
    wf_upto.wf_table B (T.set i (some child)) = true := by
  induction T generalizing i with
  | nil => simpa using h
  | cons s r ih =>
    have hr : wf_upto.wf_table B r = true := by
      rcases s with _ | c0
      · simpa only [wf_upto.wf_table] using h
      · simp only [wf_upto.wf_table, Bool.and_eq_true] at h
        exact h.2
    cases i with
    | zero => simp [wf_upto.wf_table, hc, hr]
    | succ j =>
      rcases s with _ | c0
      · simpa [wf_upto.wf_table] using ih hr j
      · simp only [wf_upto.wf_table, Bool.and_eq_true] at h
        simpa [wf_upto.wf_table, h.1] using ih hr j

theorem wf_upto_mono {B B1 : Nat} (hB : B ≤ B1) :
    ∀ (n : Nat) (t : mtrie_t), need t ≤ n → wf_upto B t = true → wf_upto B1 t = true := by
  intro n
  induction n with
  | zero =>
    intro t hn
    rcases t with ⟨pipes, min, count, next⟩
    rcases next with _ | n | T
    · simp [need] at hn
    · rcases n with _ | child <;> simp [need] at hn
    · simp [need] at hn
  | succ n ih =>
    intro t hn h
    rcases wf_cases h with ⟨pipes, min, rfl, h1⟩ | ⟨pipes, min, child, rfl, h1, h2⟩ |
      ⟨pipes, min, count, T, rfl, h1, h2, h3, h4, h5, h6⟩
    · simp [wf_upto, h1]
    · have : wf_upto B1 child = true := ih child (by simp [need] at hn; omega) h2
      simp [wf_upto, h1, this]
    · have hT : need.need_table T ≤ n := by
        simp [need] at hn; omega
      have : wf_upto.wf_table B1 T = true := by
        clear h5 hn h
        induction T with
        | nil => rfl
        | cons s r ihr =>
          rcases s with _ | c0
          · simp only [wf_upto.wf_table] at h6 ⊢
            simp only [need.need_table] at hT
            exact ihr h6 hT
          · simp only [wf_upto.wf_table, Bool.and_eq_true] at h6 ⊢
            simp only [need.need_table] at hT
            have h7 : need c0 ≤ n := le_trans (Nat.le_max_left _ _) hT
            have h8 : need.need_table r ≤ n := le_trans (Nat.le_max_right _ _) hT
            exact ⟨ih c0 h7 h6.1, ihr h6.2 h8⟩
      simp [wf_upto, h1, h2, h4, h5, this]
      omega

theorem wf_of_wf_upto {B : Nat} (hB : B ≤ 256) {t : mtrie_t} (h : wf_upto B t = true) :
    wf t = true :=
  wf_upto_mono hB (need t) t (le_refl _) h

theorem wf_empty (B : Nat) : wf_upto B empty = true := by
  simp [empty, wf_upto]

/-! ## The children of a node -/

theorem child_at_leaf (c : Nat) (pipes : List pipe_t) (min : Nat) :
    child_at c (.mk pipes min 0 .invalid) = none := by
  simp [child_at]

theorem child_at_single (c : Nat) (pipes : List pipe_t) (min : Nat) (child : mtrie_t) :
    child_at c (.mk pipes min 1 (.node (some child))) = if c = min then some child else none := by
  unfold child_at
  by_cases h : c = min
  · subst h; simp
  · have : c < min ∨ min + 1 ≤ c := by omega
    simp [h, this]

theorem child_at_table (c : Nat) (pipes : List pipe_t) (min count : Nat)
    (T : List (Option mtrie_t)) (h2 : 2 ≤ count) :
    child_at c (.mk pipes min count (.table T)) =
      if min ≤ c ∧ c < min + count then (T[c - min]?).join else none := by
  unfold child_at
  by_cases h : min ≤ c ∧ c < min + count
  · have h1 : ¬ (count = 0 ∨ c < min ∨ c ≥ min + count) := by omega
    have h3 : ¬ count = 1 := by omega
    simp [h, h1, h3]
  · have h1 : (count = 0 ∨ c < min ∨ c ≥ min + count) := by omega
    simp [h, h1]

theorem child_at_empty (c : Nat) : child_at c empty = none := by
  simp [empty, child_at]

theorem wf_child {B : Nat} {t : mtrie_t} (h : wf_upto B t = true) {c : Nat} {child : mtrie_t}
    (hc : child_at c t = some child) : wf_upto B child = true := by
  rcases wf_cases h with ⟨pipes, min, rfl, h1⟩ | ⟨pipes, min, ch, rfl, h1, h2⟩ |
    ⟨pipes, min, count, T, rfl, h1, h2, h3, h4, h5, h6⟩
  · simp [child_at_leaf] at hc
  · rw [child_at_single] at hc
    split_ifs at hc
    simp at hc
    subst hc
    exact h2
  · rw [child_at_table _ _ _ _ _ h2] at hc
    split_ifs at hc
    cases hs : T[c - min]? with
    | none => simp [hs] at hc
    | some slot =>
      simp [hs] at hc
      subst hc
      exact wf_table_get h6 hs

theorem need_table_get {T : List (Option mtrie_t)} {i : Nat} {child : mtrie_t}
    (hi : T[i]? = some (some child)) : need child ≤ need.need_table T := by
  induction T generalizing i with
  | nil => simp at hi
  | cons s r ih =>
    cases i with
    | zero =>
      simp at hi
      subst hi
      simp only [need.need_table]
      exact Nat.le_max_left _ _
    | succ j =>
      have := ih (i := j) (by simpa using hi)
      rcases s with _ | c0
      · simpa only [need.need_table] using this
      · simp only [need.need_table]
        exact le_trans this (Nat.le_max_right _ _)

theorem need_child_lt {t : mtrie_t} {c : Nat} {child : mtrie_t}
    (hc : child_at c t = some child) : need child < need t := by
  rcases t with ⟨pipes, min, count, next⟩
  rcases next with _ | n | T
  · simp only [child_at] at hc
    split_ifs at hc
  · simp only [child_at] at hc
    split_ifs at hc
    subst hc
    simp [need]
  · simp only [child_at] at hc
    split_ifs at hc
    cases hs : T[c - min]? with
    | none => simp [hs] at hc
    | some slot =>
      simp [hs] at hc
      subst hc
      have := need_table_get hs
      simp only [need]
      have h2 := Nat.le_max_right (count + 1) (need.need_table T)
      omega

theorem need_pos (t : mtrie_t) : 0 < need t := by
  rcases t with ⟨pipes, min, count, next⟩
  rcases next with _ | n | T
  · simp [need]
  · rcases n with _ | child <;> simp [need]
  · simp [need]

/-! ## Replacing a child -/

theorem set_child_pipes (c : Nat) (child t : mtrie_t) : (set_child c child t).pipes = t.pipes := by
  rcases t with ⟨pipes, min, count, next⟩
  rcases next with _ | n | T <;> rfl


theorem child_at_set_child_same {B : Nat} {t : mtrie_t} (h : wf_upto B t = true) {c : Nat}
    (hr : has_slot c t) (child : mtrie_t) : child_at c (set_child c child t) = some child := by
  rcases wf_cases h with ⟨pipes, min, rfl, h1⟩ | ⟨pipes, min, ch, rfl, h1, h2⟩ |
    ⟨pipes, min, count, T, rfl, h1, h2, h3, h4, h5, h6⟩
  · simp [set_child, child_at_single]
  · simp only [has_slot, mtrie_t.count, mtrie_t.min] at hr
    have : c = min := by omega
    simp [set_child, child_at_single, this]
  · simp only [has_slot, mtrie_t.count, mtrie_t.min] at hr
    have hr2 : min ≤ c ∧ c < min + count := by omega
    have hlt : c - min < T.length := by omega
    simp [set_child, child_at_table _ _ _ _ _ h2, hr2, hlt]

theorem child_at_set_child_other {B : Nat} {t : mtrie_t} (h : wf_upto B t = true) {c d : Nat}
    (hr : has_slot c t) (hd : d ≠ c) (child : mtrie_t) :
    child_at d (set_child c child t) = child_at d t := by
  rcases wf_cases h with ⟨pipes, min, rfl, h1⟩ | ⟨pipes, min, ch, rfl, h1, h2⟩ |
    ⟨pipes, min, count, T, rfl, h1, h2, h3, h4, h5, h6⟩
  · simp [set_child, child_at_single, child_at_leaf, hd]
  · simp only [has_slot, mtrie_t.count, mtrie_t.min] at hr
    have : c = min := by omega
    subst this
    simp [set_child, child_at_single, hd]
  · simp only [has_slot, mtrie_t.count, mtrie_t.min] at hr
    simp only [set_child, child_at_table _ _ _ _ _ h2]
    split_ifs with h7
    · have hne : c - min ≠ d - min := by omega
      rw [List.getElem?_set_ne hne]
    · rfl

theorem wf_set_child {B : Nat} {t : mtrie_t} (h : wf_upto B t = true) (c : Nat)
    {child : mtrie_t} (hc : wf_upto B child = true) : wf_upto B (set_child c child t) = true := by
  rcases wf_cases h with ⟨pipes, min, rfl, h1⟩ | ⟨pipes, min, ch, rfl, h1, h2⟩ |
    ⟨pipes, min, count, T, rfl, h1, h2, h3, h4, h5, h6⟩
  · simp [set_child, wf_upto, h1, hc]
  · simp [set_child, wf_upto, h1, hc]
  · simp [set_child, wf_upto, h1, h2, h3, h4, h5, wf_table_set h6 _ hc]

theorem set_child_self {B : Nat} {t : mtrie_t} (h : wf_upto B t = true) {c : Nat}
    {child : mtrie_t} (hc : child_at c t = some child) : set_child c child t = t := by
  rcases wf_cases h with ⟨pipes, min, rfl, h1⟩ | ⟨pipes, min, ch, rfl, h1, h2⟩ |
    ⟨pipes, min, count, T, rfl, h1, h2, h3, h4, h5, h6⟩
  · simp [child_at_leaf] at hc
  · rw [child_at_single] at hc
    split_ifs at hc
    simp at hc
    subst hc
    rfl
  · rw [child_at_table _ _ _ _ _ h2] at hc
    split_ifs at hc with h7
    cases hs : T[c - min]? with
    | none => simp [hs] at hc
    | some slot =>
      simp [hs] at hc
      subst hc
      simp only [set_child]
      congr 2
      apply List.ext_getElem?
      intro i
      by_cases hi : c - min = i
      · subst hi
        rw [List.getElem?_set_self (by omega), hs]
      · rw [List.getElem?_set_ne hi]

theorem has_slot_of_child {t : mtrie_t} {c : Nat} {child : mtrie_t}
    (hc : child_at c t = some child) : has_slot c t := by
  rcases t with ⟨pipes, min, count, next⟩
  simp only [child_at] at hc
  split_ifs at hc with h1 h2
  · right; simp only [mtrie_t.min, mtrie_t.count]; omega
  · right; simp only [mtrie_t.min, mtrie_t.count]; omega

/-! ## One level of each operation -/

theorem join_some_eq {α : Type} (o : Option α) : (some o).join = o := rfl

theorem adjust_in_range {c min count : Nat} (next : next_t mtrie_t)
    (h : min ≤ c ∧ c < min + count) : adjust c min count next = .ok (min, count, next) := by
  have h1 : ¬ (c < min ∨ c ≥ min + count) := by omega
  simp only [adjust, h1, if_false]

theorem adjust_leaf (c min : Nat) (next : next_t mtrie_t) :
    adjust c min 0 next = .ok (c, 1, .node none) := by
  have h1 : c < min ∨ c ≥ min + 0 := by omega
  simp only [adjust, h1, if_true]

theorem adjust_out_of_range {c min count : Nat} (next : next_t mtrie_t) (h0 : count ≠ 0)
    (h : ¬ (min ≤ c ∧ c < min + count)) :
    adjust c min count next = .error .undefined ∨
      ∃ count1, 2 ≤ count1 ∧
        adjust c min count next = .ok (c, count1, if count > 1 then .invalid else next) := by
  have h1 : c < min ∨ c ≥ min + count := by omega
  simp only [adjust, h1, h0, if_true, if_false]
  cases newtable c min count next with
  | none => exact Or.inl rfl
  | some nt => exact Or.inr ⟨_, by omega, rfl⟩

theorem add_helper_cons {B : Nat} {t : mtrie_t} (h : wf_upto B t = true) (c : Nat)
    (p : List Nat) (x : pipe_t) :
    add_helper (c :: p) x t =
      if t.count = 0 ∨ (t.min ≤ c ∧ c < t.min + t.count) then
        match add_helper p x ((child_at c t).getD empty) with
        | .error e => .error e
        | .ok (r, child) => .ok (r, set_child c child t)
      else .error .undefined := by
  rcases wf_cases h with ⟨pipes, min, rfl, h1⟩ | ⟨pipes, min, ch, rfl, h1, h2⟩ |
    ⟨pipes, min, count, T, rfl, h1, h2, h3, h4, h5, h6⟩
  · simp only [add_helper, adjust_leaf, child_at_leaf, set_child, mtrie_t.count, if_true,
      true_or, Option.getD_none]
  · simp only [mtrie_t.count, mtrie_t.min, child_at_single]
    by_cases hc : c = min
    · subst hc
      have hr : c ≤ c ∧ c < c + 1 := by omega
      simp only [add_helper, adjust_in_range _ hr, set_child, one_ne_zero, if_true, hr,
        and_self, or_true, false_or, Option.getD_some]
    · have h8 : ¬ (min ≤ c ∧ c < min + 1) := by omega
      have h9 : ¬ ((1 : Nat) = 0 ∨ min ≤ c ∧ c < min + 1) := by omega
      rw [if_neg h9]
      rcases adjust_out_of_range (.node (some ch)) one_ne_zero h8 with he | ⟨count1, h2c, he⟩
      · simp only [add_helper, he]
      · have hne : ¬ count1 = 1 := by omega
        simp only [add_helper, he, hne, if_false, lt_irrefl]
  · simp only [mtrie_t.count, mtrie_t.min, child_at_table _ _ _ _ _ h2]
    by_cases hc : min ≤ c ∧ c < min + count
    · have h8 : ¬ count = 1 := by omega
      have hlt : c - min < T.length := by omega
      have hs : T[c - min]? = some (T[c - min]) := List.getElem?_eq_getElem hlt
      simp only [add_helper, adjust_in_range _ hc, h8, hc, set_child, hs, if_false, if_true,
        and_self, or_true, join_some_eq]
    · have h0 : count ≠ 0 := by omega
      have h9 : ¬ (count = 0 ∨ min ≤ c ∧ c < min + count) := by omega
      have h10 : count > 1 := by omega
      rw [if_neg h9]
      rcases adjust_out_of_range (.table T) h0 hc with he | ⟨count1, h2c, he⟩
      · simp only [add_helper, he]
      · have hne : ¬ count1 = 1 := by omega
        simp only [add_helper, he, hne, if_false, h10, if_true]

theorem rm_helper_cons {B : Nat} {t : mtrie_t} (h : wf_upto B t = true) (c : Nat)
    (p : List Nat) (x : pipe_t) :
    rm_helper (c :: p) x t =
      match child_at c t with
      | none => .ok (false, t)
      | some child =>
        match rm_helper p x child with
        | .error e => .error e
        | .ok (r, child1) => .ok (r, set_child c child1 t) := by
  rcases wf_cases h with ⟨pipes, min, rfl, h1⟩ | ⟨pipes, min, ch, rfl, h1, h2⟩ |
    ⟨pipes, min, count, T, rfl, h1, h2, h3, h4, h5, h6⟩
  · simp [rm_helper, child_at_leaf]
  · simp only [child_at_single]
    by_cases hc : c = min
    · subst hc
      simp only [rm_helper, set_child, lt_irrefl, ge_iff_le, add_le_iff_nonpos_right,
        one_ne_zero, nonpos_iff_eq_zero, or_self, if_false, if_true]
    · have h7 : c < min ∨ c ≥ min + 1 := by omega
      simp [rm_helper, h7, hc]
  · simp only [child_at_table _ _ _ _ _ h2]
    by_cases hc : min ≤ c ∧ c < min + count
    · have h7 : ¬ (count = 0 ∨ c < min ∨ c ≥ min + count) := by omega
      have h8 : ¬ count = 1 := by omega
      have hlt : c - min < T.length := by omega
      have hs : T[c - min]? = some (T[c - min]) := List.getElem?_eq_getElem hlt
      rcases hslot : T[c - min] with _ | child
      · simp [rm_helper, h7, h8, hc, hs, hslot]
      · simp only [rm_helper, h7, h8, hc, hs, hslot, set_child, if_false, if_true, and_self,
          join_some_eq]
    · have h7 : (count = 0 ∨ c < min ∨ c ≥ min + count) := by omega
      simp [rm_helper, h7, hc]

theorem match_loop_nil (func_ : Bool) (max_ : Nat) (t : mtrie_t) (total : Nat)
    (calls : List pipe_t) :
    match_loop func_ max_ [] t total calls = .ok (signal func_ max_ t.pipes total calls) := by
  rcases t with ⟨pipes, min, count, next⟩
  simp [match_loop, mtrie_t.pipes]

theorem match_loop_cons {B : Nat} {t : mtrie_t} (h : wf_upto B t = true) (func_ : Bool)
    (max_ : Nat) (d : Nat) (data : List Nat) (total : Nat) (calls : List pipe_t) :
    match_loop func_ max_ (d :: data) t total calls =
      match child_at d t with
      | none => .ok (signal func_ max_ t.pipes total calls)
      | some child =>
        match_loop func_ max_ data child (signal func_ max_ t.pipes total calls).1
          (signal func_ max_ t.pipes total calls).2 := by
  rcases wf_cases h with ⟨pipes, min, rfl, h1⟩ | ⟨pipes, min, ch, rfl, h1, h2⟩ |
    ⟨pipes, min, count, T, rfl, h1, h2, h3, h4, h5, h6⟩
  · simp [match_loop, child_at_leaf, mtrie_t.pipes]
  · simp only [child_at_single]
    by_cases hc : d = min
    · subst hc
      simp [match_loop, mtrie_t.pipes]
    · simp [match_loop, hc, mtrie_t.pipes]
  · simp only [child_at_table _ _ _ _ _ h2]
    by_cases hc : min ≤ d ∧ d < min + count
    · have h7 : ¬ (d < min ∨ d ≥ min + count) := by omega
      have h8 : ¬ count = 1 := by omega
      have h9 : ¬ count = 0 := by omega
      have hlt : d - min < T.length := by omega
      have hs : T[d - min]? = some (T[d - min]) := List.getElem?_eq_getElem hlt
      rcases hslot : T[d - min] with _ | child
      · simp [match_loop, h7, h8, h9, hc, hs, hslot, mtrie_t.pipes]
      · simp [match_loop, h7, h8, h9, hc, hs, hslot, mtrie_t.pipes]
    · have h7 : (d < min ∨ d ≥ min + count) := by omega
      have h8 : ¬ count = 1 := by omega
      have h9 : ¬ count = 0 := by omega
      simp [match_loop, h7, h8, h9, hc, mtrie_t.pipes]

/-! ## The pipe set at a prefix -/

theorem pipes_at_nil (t : mtrie_t) : pipes_at [] t = t.pipes := rfl

theorem pipes_at_cons_none {c : Nat} {t : mtrie_t} (hc : child_at c t = none) (q : List Nat) :
    pipes_at (c :: q) t = [] := by
  simp [pipes_at, node_at, hc]

theorem pipes_at_cons_some {c : Nat} {t child : mtrie_t} (hc : child_at c t = some child)
    (q : List Nat) : pipes_at (c :: q) t = pipes_at q child := by
  simp [pipes_at, node_at, hc]

theorem pipes_at_cons_congr {c : Nat} {t t1 : mtrie_t} (hc : child_at c t1 = child_at c t)
    (q : List Nat) : pipes_at (c :: q) t1 = pipes_at (c :: q) t := by
  simp [pipes_at, node_at, hc]

theorem node_at_empty (c : Nat) (q : List Nat) : node_at (c :: q) empty = none := by
  simp [node_at, child_at_empty]

theorem pipes_at_empty (q : List Nat) : pipes_at q empty = [] := by
  cases q with
  | nil => rfl
  | cons c q => simp [pipes_at, node_at_empty]

theorem pipes_at_cons_getD (c : Nat) (q : List Nat) (t : mtrie_t) :
    pipes_at (c :: q) t = pipes_at q ((child_at c t).getD empty) := by
  cases hc : child_at c t with
  | none => simp [pipes_at_cons_none hc, pipes_at_empty]
  | some child => simp [pipes_at_cons_some hc]

theorem wf_node_at {B : Nat} :
    ∀ (p : List Nat) (t n : mtrie_t), wf_upto B t = true → node_at p t = some n →
      wf_upto B n = true := by
  intro p
  induction p with
  | nil =>
    intro t n h hn
    simp [node_at] at hn
    subst hn
    exact h
  | cons c p ih =>
    intro t n h hn
    simp only [node_at] at hn
    cases hc : child_at c t with
    | none => simp [hc] at hn
    | some child =>
      rw [hc] at hn
      exact ih child n (wf_child h hc) hn

theorem pipes_at_ascending {B : Nat} {t : mtrie_t} (h : wf_upto B t = true) (p : List Nat) :
    (pipes_at p t).Pairwise (· < ·) := by
  unfold pipes_at
  cases hn : node_at p t with
  | none => exact List.Pairwise.nil
  | some n => exact wf_pipes (wf_node_at p t n h hn)

theorem child_at_with_pipes (c : Nat) (p1 p2 : List pipe_t) (min count : Nat)
    (next : next_t mtrie_t) :
    child_at c (.mk p1 min count next) = child_at c (.mk p2 min count next) := rfl

theorem wf_with_pipes {B : Nat} {p1 p2 : List pipe_t} {min count : Nat} {next : next_t mtrie_t}
    (h : wf_upto B (.mk p1 min count next) = true) (h2 : p2.Pairwise (· < ·)) :
    wf_upto B (.mk p2 min count next) = true := by
  rcases next with _ | n | T
  · simp only [wf_upto, Bool.and_eq_true, decide_eq_true_eq] at h ⊢
    exact ⟨h2, h.2⟩
  · rcases n with _ | child
    · simp [wf_upto] at h
    · simp only [wf_upto, Bool.and_eq_true, decide_eq_true_eq] at h ⊢
      exact ⟨⟨h2, h.1.2⟩, h.2⟩
  · simp only [wf_upto, Bool.and_eq_true, decide_eq_true_eq] at h ⊢
    obtain ⟨⟨⟨⟨⟨_, h3⟩, h4⟩, h5⟩, h6⟩, h7⟩ := h
    exact ⟨⟨⟨⟨⟨h2, h3⟩, h4⟩, h5⟩, h6⟩, h7⟩

/-! ## What `add` does to the pipe sets -/

theorem add_helper_spec {B : Nat} (x : pipe_t) :
    ∀ (p : List Nat) (t : mtrie_t) (b : Bool) (t1 : mtrie_t), wf_upto B t = true →
      add_helper p x t = .ok (b, t1) →
      wf_upto B t1 = true ∧ b = (pipes_at p t).isEmpty ∧
      pipes_at p t1 = pipes_insert x (pipes_at p t) ∧
      ∀ q, q ≠ p → pipes_at q t1 = pipes_at q t := by
  intro p
  induction p with
  | nil =>
    intro t b t1 h hr
    rcases t with ⟨pipes, min, count, next⟩
    simp only [add_helper, Except.ok.injEq, Prod.mk.injEq] at hr
    obtain ⟨rfl, rfl⟩ := hr
    refine ⟨wf_with_pipes h (pairwise_pipes_insert x pipes (wf_pipes h)), rfl, rfl, ?_⟩
    intro q hq
    cases q with
    | nil => exact absurd rfl hq
    | cons d q =>
      exact pipes_at_cons_congr (child_at_with_pipes d _ pipes _ _ _) q
  | cons c p ih =>
    intro t b t1 h hr
    rw [add_helper_cons h] at hr
    split_ifs at hr with hs
    cases hres : add_helper p x ((child_at c t).getD empty) with
    | error e => simp [hres] at hr
    | ok v =>
      rcases v with ⟨r, child⟩
      simp only [hres, Except.ok.injEq, Prod.mk.injEq] at hr
      obtain ⟨rfl, rfl⟩ := hr
      have hwc : wf_upto B ((child_at c t).getD empty) = true := by
        cases hc : child_at c t with
        | none => exact wf_empty B
        | some ch => exact wf_child h hc
      obtain ⟨i1, i2, i3, i4⟩ := ih _ _ _ hwc hres
      have hsame := child_at_set_child_same h hs child
      refine ⟨wf_set_child h c i1, ?_, ?_, ?_⟩
      · rw [pipes_at_cons_getD]; exact i2
      · rw [pipes_at_cons_some hsame, i3, pipes_at_cons_getD]
      · intro q hq
        cases q with
        | nil => rw [pipes_at_nil, pipes_at_nil, set_child_pipes]
        | cons d q =>
          by_cases hd : d = c
          · subst hd
            have hq2 : q ≠ p := fun e => hq (by rw [e])
            rw [pipes_at_cons_some hsame, i4 q hq2, pipes_at_cons_getD]
          · exact pipes_at_cons_congr (child_at_set_child_other h hs hd _) q

/-! ## What the prefix form of `rm` does to the pipe sets -/

theorem node_at_cons (c : Nat) (q : List Nat) (t : mtrie_t) :
    node_at (c :: q) t = (child_at c t).bind (node_at q) := rfl

theorem rm_helper_spec {B : Nat} (x : pipe_t) :
    ∀ (p : List Nat) (t : mtrie_t) (b : Bool) (t1 : mtrie_t), wf_upto B t = true →
      rm_helper p x t = .ok (b, t1) →
      wf_upto B t1 = true ∧
      pipes_at p t1 = pipes_erase x (pipes_at p t) ∧
      (∀ q, q ≠ p → pipes_at q t1 = pipes_at q t) ∧
      (b = true ↔ (node_at p t).isSome = true ∧ pipes_at p t1 = []) ∧
      ((node_at p t).isSome = true → x ∈ pipes_at p t) ∧
      (∀ q, (node_at q t1).isSome = (node_at q t).isSome) := by
  intro p
  induction p with
  | nil =>
    intro t b t1 h hr
    rcases t with ⟨pipes, min, count, next⟩
    simp only [rm_helper] at hr
    split_ifs at hr with h1
    simp only [Except.ok.injEq, Prod.mk.injEq] at hr
    obtain ⟨rfl, rfl⟩ := hr
    refine ⟨wf_with_pipes h (pairwise_pipes_erase x pipes (wf_pipes h)), rfl, ?_, ?_, ?_, ?_⟩
    · intro q hq
      cases q with
      | nil => exact absurd rfl hq
      | cons d q => exact pipes_at_cons_congr (child_at_with_pipes d _ pipes _ _ _) q
    · simp [pipes_at_nil, mtrie_t.pipes, node_at]
    · intro _
      exact (pipes_erased_eq_one (wf_pipes h)).1 h1
    · intro q
      cases q with
      | nil => rfl
      | cons d q => rw [node_at_cons, node_at_cons, child_at_with_pipes d _ pipes]
  | cons c p ih =>
    intro t b t1 h hr
    rw [rm_helper_cons h] at hr
    cases hc : child_at c t with
    | none =>
      simp only [hc, Except.ok.injEq, Prod.mk.injEq] at hr
      obtain ⟨rfl, rfl⟩ := hr
      have hp : pipes_at (c :: p) t = [] := pipes_at_cons_none hc p
      refine ⟨h, ?_, fun _ _ => rfl, ?_, ?_, fun _ => rfl⟩
      · rw [hp]; rfl
      · simp [node_at_cons, hc]
      · simp [node_at_cons, hc]
    | some ch =>
      simp only [hc] at hr
      cases hres : rm_helper p x ch with
      | error e => simp [hres] at hr
      | ok v =>
        rcases v with ⟨r, child⟩
        simp only [hres, Except.ok.injEq, Prod.mk.injEq] at hr
        obtain ⟨rfl, rfl⟩ := hr
        obtain ⟨i1, i2, i3, i4, i5, i6⟩ := ih _ _ _ (wf_child h hc) hres
        have hs := has_slot_of_child hc
        have hsame := child_at_set_child_same h hs child
        refine ⟨wf_set_child h c i1, ?_, ?_, ?_, ?_, ?_⟩
        · rw [pipes_at_cons_some hsame, i2, pipes_at_cons_some hc]
        · intro q hq
          cases q with
          | nil => rw [pipes_at_nil, pipes_at_nil, set_child_pipes]
          | cons d q =>
            by_cases hd : d = c
            · subst hd
              have hq2 : q ≠ p := fun e => hq (by rw [e])
              rw [pipes_at_cons_some hsame, i3 q hq2, pipes_at_cons_some hc]
            · exact pipes_at_cons_congr (child_at_set_child_other h hs hd _) q
        · rw [i4, node_at_cons, hc, pipes_at_cons_some hsame]
          rfl
        · rw [node_at_cons, hc, pipes_at_cons_some hc]
          exact i5
        · intro q
          cases q with
          | nil => rfl
          | cons d q =>
            by_cases hd : d = c
            · subst hd
              rw [node_at_cons, hsame, node_at_cons, hc]
              exact i6 q
            · rw [node_at_cons, node_at_cons, child_at_set_child_other h hs hd]

theorem rm_helper_total {B : Nat} (x : pipe_t) :
    ∀ (p : List Nat) (t : mtrie_t), wf_upto B t = true → x ∈ pipes_at p t →
      ∃ b t1, rm_helper p x t = .ok (b, t1) := by
  intro p
  induction p with
  | nil =>
    intro t h hx
    rcases t with ⟨pipes, min, count, next⟩
    have h1 : pipes_erased x pipes = 1 := (pipes_erased_eq_one (wf_pipes h)).2 hx
    refine ⟨(pipes_erase x pipes).isEmpty, .mk (pipes_erase x pipes) min count next, ?_⟩
    simp only [rm_helper, h1, if_true]
  | cons c p ih =>
    intro t h hx
    rw [rm_helper_cons h]
    cases hc : child_at c t with
    | none => simp [pipes_at_cons_none hc] at hx
    | some ch =>
      rw [pipes_at_cons_some hc] at hx
      obtain ⟨b, ch1, hr⟩ := ih ch (wf_child h hc) hx
      exact ⟨b, set_child c ch1 t, by simp only [hr]⟩

theorem rm_helper_missing {B : Nat} (x : pipe_t) :
    ∀ (p : List Nat) (t : mtrie_t), wf_upto B t = true → node_at p t = none →
      rm_helper p x t = .ok (false, t) := by
  intro p
  induction p with
  | nil =>
    intro t h hn
    simp [node_at] at hn
  | cons c p ih =>
    intro t h hn
    rw [rm_helper_cons h]
    cases hc : child_at c t with
    | none => rfl
    | some ch =>
      rw [node_at_cons, hc] at hn
      have := ih ch (wf_child h hc) hn
      simp only [this, set_child_self h hc]

/-! ## What `match` reports -/

theorem signal_zero (func_ : Bool) :
    ∀ (l : List pipe_t) (total : Nat) (calls : List pipe_t),
      signal func_ 0 l total calls = (total + l.length, calls ++ (if func_ then l else [])) := by
  intro l
  induction l with
  | nil => intro total calls; simp [signal]
  | cons q qs ih =>
    intro total calls
    simp only [signal, Nat.succ_ne_zero, if_false, ih, List.length_cons]
    cases func_ <;> simp <;> omega

theorem subscribers_nil (t : mtrie_t) : subscribers [] t = t.pipes := by
  simp [subscribers, pipes_at_nil]

theorem subscribers_cons_none {d : Nat} {t : mtrie_t} (hc : child_at d t = none)
    (data : List Nat) : subscribers (d :: data) t = t.pipes := by
  simp [subscribers, List.inits_cons, pipes_at_nil, List.flatMap_map, pipes_at_cons_none hc]

theorem subscribers_cons_some {d : Nat} {t child : mtrie_t} (hc : child_at d t = some child)
    (data : List Nat) : subscribers (d :: data) t = t.pipes ++ subscribers data child := by
  simp [subscribers, List.inits_cons, pipes_at_nil, List.flatMap_map, pipes_at_cons_some hc]

theorem match_loop_zero {B : Nat} (func_ : Bool) :
    ∀ (data : List Nat) (t : mtrie_t) (total : Nat) (calls : List pipe_t),
      wf_upto B t = true →
      match_loop func_ 0 data t total calls =
        .ok (total + (subscribers data t).length,
          calls ++ (if func_ then subscribers data t else [])) := by
  intro data
  induction data with
  | nil =>
    intro t total calls _
    rw [match_loop_nil, signal_zero, subscribers_nil]
  | cons d data ih =>
    intro t total calls h
    rw [match_loop_cons h, signal_zero]
    cases hc : child_at d t with
    | none => simp only [subscribers_cons_none hc]
    | some child =>
      simp only [ih child _ _ (wf_child h hc), subscribers_cons_some hc, List.length_append]
      cases func_ <;> simp <;> omega

theorem match_zero {B : Nat} {t : mtrie_t} (h : wf_upto B t = true) (data : List Nat)
    (func_ : Bool) :
    match_ data func_ 0 t =
      .ok ((subscribers data t).length, if func_ then subscribers data t else []) := by
  unfold match_
  rw [match_loop_zero func_ data t 0 [] h]
  simp

/-! ## Sequences of calls -/

theorem call_spec {B : Nat} {o : op} {t t1 : mtrie_t} {b : Bool} (h : wf_upto B t = true)
    (hc : call o t = .ok (b, t1)) :
    wf_upto B t1 = true ∧
    ∀ reg : List (List Nat × pipe_t), (∀ q y, y ∈ pipes_at q t ↔ (q, y) ∈ reg) →
      ∀ q y, y ∈ pipes_at q t1 ↔ (q, y) ∈ registered [o] reg := by
  rcases o with ⟨p, x⟩ | ⟨p, x⟩
  · obtain ⟨i1, _, i3, i4⟩ := add_helper_spec x p t b t1 h hc
    refine ⟨i1, ?_⟩
    intro reg hreg q y
    simp only [registered]
    by_cases hq : q = p
    · subst hq
      rw [i3, mem_pipes_insert, hreg]
      split_ifs with hm
      · constructor
        · rintro (rfl | h2)
          · exact hm
          · exact h2
        · exact Or.inr
      · simp only [List.mem_cons, Prod.mk.injEq, true_and]
    · rw [i4 q hq, hreg]
      split_ifs with hm
      · rfl
      · simp only [List.mem_cons, Prod.mk.injEq, hq, false_and, false_or]
  · obtain ⟨i1, i2, i3, _⟩ := rm_helper_spec x p t b t1 h hc
    refine ⟨i1, ?_⟩
    intro reg hreg q y
    simp only [registered, List.mem_filter, bne_iff_ne, ne_eq, Prod.mk.injEq, not_and]
    by_cases hq : q = p
    · subst hq
      rw [i2, mem_pipes_erase, hreg]
      simp
    · rw [i3 q hq, hreg]
      simp [hq]

theorem registered_append (os1 os2 : List op) (reg : List (List Nat × pipe_t)) :
    registered (os1 ++ os2) reg = registered os2 (registered os1 reg) := by
  induction os1 generalizing reg with
  | nil => rfl
  | cons o os ih =>
    rcases o with ⟨p, x⟩ | ⟨p, x⟩
    · show registered (os ++ os2) _ = _
      rw [ih]; rfl
    · show registered (os ++ os2) _ = _
      rw [ih]; rfl

theorem run_spec {B : Nat} :
    ∀ (ops : List op) (t t1 : mtrie_t), wf_upto B t = true → run ops t = .ok t1 →
      wf_upto B t1 = true ∧
      ∀ reg : List (List Nat × pipe_t), (∀ q y, y ∈ pipes_at q t ↔ (q, y) ∈ reg) →
        ∀ q y, y ∈ pipes_at q t1 ↔ (q, y) ∈ registered ops reg := by
  intro ops
  induction ops with
  | nil =>
    intro t t1 h hr
    simp only [run, Except.ok.injEq] at hr
    subst hr
    exact ⟨h, fun reg hreg => hreg⟩
  | cons o os ih =>
    intro t t1 h hr
    simp only [run] at hr
    cases hc : call o t with
    | error e => simp [hc] at hr
    | ok v =>
      rcases v with ⟨b, t2⟩
      simp only [hc] at hr
      obtain ⟨w2, s2⟩ := call_spec h hc
      obtain ⟨w1, s1⟩ := ih t2 t1 w2 hr
      refine ⟨w1, ?_⟩
      intro reg hreg
      have := s1 _ (s2 reg hreg)
      rw [← registered_append] at this
      exact this

theorem wf_of_run (B : Nat) (ops : List op) (t : mtrie_t) (h : run ops empty = .ok t) :
    wf_upto B t = true :=
  (run_spec ops empty t (wf_empty B) h).1

theorem pipes_at_empty_iff (q : List Nat) (y : pipe_t) :
    y ∈ pipes_at q empty ↔ (q, y) ∈ ([] : List (List Nat × pipe_t)) := by
  simp [pipes_at_empty]

theorem registered_adds (adds : List (List Nat × pipe_t)) (reg : List (List Nat × pipe_t))
    (a : List Nat × pipe_t) :
    a ∈ registered (adds.map (fun a => op.add a.1 a.2)) reg ↔ a ∈ adds ∨ a ∈ reg := by
  induction adds generalizing reg with
  | nil => simp [registered]
  | cons a0 adds ih =>
    simp only [List.map_cons, registered, ih, List.mem_cons]
    split_ifs with hm
    · constructor
      · rintro (h1 | h1)
        · exact Or.inl (Or.inr h1)
        · exact Or.inr h1
      · rintro ((rfl | h1) | h1)
        · exact Or.inr hm
        · exact Or.inl h1
        · exact Or.inr h1
    · simp only [List.mem_cons]
      tauto

theorem balanced_registered :
    ∀ (ops : List op) (pending reg : List (List Nat × pipe_t)),
      (∀ a ∈ reg, a ∈ pending) → balanced ops pending = true → registered ops reg = [] := by
  intro ops
  induction ops with
  | nil =>
    intro pending reg hsub hb
    simp only [balanced, List.isEmpty_iff] at hb
    subst hb
    simp only [registered]
    exact List.eq_nil_iff_forall_not_mem.2 (fun a ha => by simpa using hsub a ha)
  | cons o os ih =>
    intro pending reg hsub hb
    rcases o with ⟨p, x⟩ | ⟨p, x⟩
    · simp only [balanced] at hb
      simp only [registered]
      apply ih _ _ _ hb
      intro a ha
      split_ifs at ha with hm
      · exact List.mem_cons_of_mem _ (hsub a ha)
      · rcases List.mem_cons.1 ha with rfl | h2
        · exact List.mem_cons_self _ _
        · exact List.mem_cons_of_mem _ (hsub a h2)
    · simp only [balanced, Bool.and_eq_true, decide_eq_true_eq] at hb
      simp only [registered]
      apply ih _ _ _ hb.2
      intro a ha
      simp only [List.mem_filter, bne_iff_ne, ne_eq] at ha
      exact (List.mem_erase_of_ne ha.2).2 (hsub a ha.1)

theorem subscribers_of_no_pipes {t : mtrie_t} (h : ∀ q, pipes_at q t = []) (data : List Nat) :
    subscribers data t = [] := by
  simp [subscribers, h]

theorem mem_subscribers {y : pipe_t} {data : List Nat} {t : mtrie_t} :
    y ∈ subscribers data t ↔ ∃ q, q <+: data ∧ y ∈ pipes_at q t := by
  simp [subscribers, List.mem_flatMap, List.mem_inits]

theorem nodup_inits (l : List Nat) : l.inits.Nodup := by
  induction l with
  | nil => simp
  | cons a l ih =>
    rw [List.inits_cons, List.nodup_cons]
    refine ⟨by simp, ?_⟩
    exact ih.map (fun x y hxy => by simpa using hxy)

theorem count_flatMap_nodup {α : Type} (f : α → List pipe_t) (x : pipe_t) :
    ∀ l : List α, (∀ a ∈ l, (f a).Nodup) →
      (l.flatMap f).count x = (l.filter (fun a => decide (x ∈ f a))).length := by
  intro l
  induction l with
  | nil => intro _; rfl
  | cons a l ih =>
    intro hn
    have h1 := ih (fun b hb => hn b (List.mem_cons_of_mem _ hb))
    rw [List.flatMap_cons, List.count_append, h1, List.filter_cons]
    by_cases hx : x ∈ f a
    · rw [List.count_eq_one_of_mem (hn a (List.mem_cons_self _ _)) hx]
      simp [hx]; omega
    · rw [List.count_eq_zero_of_not_mem hx]
      simp [hx]

theorem rm_helper_subscribers {B : Nat} (x : pipe_t) :
    ∀ (p : List Nat) (t : mtrie_t) (b : Bool) (t1 : mtrie_t), wf_upto B t = true →
      rm_helper p x t = .ok (b, t1) → x ∈ pipes_at p t →
      ∀ d : List Nat,
        (subscribers d t1).length + (if p <+: d then 1 else 0) = (subscribers d t).length ∧
        ∀ y, y ≠ x → (subscribers d t1).count y = (subscribers d t).count y := by
  intro p
  induction p with
  | nil =>
    intro t b t1 h hr hx d
    rcases t with ⟨pipes, min, count, next⟩
    simp only [rm_helper] at hr
    split_ifs at hr with h1
    simp only [Except.ok.injEq, Prod.mk.injEq] at hr
    obtain ⟨rfl, rfl⟩ := hr
    have hlen := length_pipes_erase (wf_pipes h) hx
    have hcount : ∀ y, y ≠ x → (pipes_erase x pipes).count y = pipes.count y := by
      intro y hy
      unfold pipes_erase
      exact List.count_filter (by simpa using hy)
    simp only [mtrie_t.pipes] at hlen
    cases d with
    | nil =>
      simp only [subscribers_nil, mtrie_t.pipes, List.nil_prefix, if_true]
      exact ⟨hlen, hcount⟩
    | cons e d =>
      cases hc : child_at e (.mk pipes min count next) with
      | none =>
        have hc1 : child_at e (.mk (pipes_erase x pipes) min count next) = none := hc
        simp only [subscribers_cons_none hc, subscribers_cons_none hc1, mtrie_t.pipes,
          List.nil_prefix, if_true]
        exact ⟨hlen, hcount⟩
      | some ch =>
        have hc1 : child_at e (.mk (pipes_erase x pipes) min count next) = some ch := hc
        simp only [subscribers_cons_some hc, subscribers_cons_some hc1, mtrie_t.pipes,
          List.nil_prefix, if_true, List.length_append, List.count_append]
        refine ⟨by omega, ?_⟩
        intro y hy
        rw [hcount y hy]
  | cons c p ih =>
    intro t b t1 h hr hx d
    rw [rm_helper_cons h] at hr
    cases hc : child_at c t with
    | none => simp [pipes_at_cons_none hc] at hx
    | some ch =>
      rw [pipes_at_cons_some hc] at hx
      simp only [hc] at hr
      cases hres : rm_helper p x ch with
      | error e => simp [hres] at hr
      | ok v =>
        rcases v with ⟨r, child⟩
        simp only [hres, Except.ok.injEq, Prod.mk.injEq] at hr
        obtain ⟨rfl, rfl⟩ := hr
        have hs := has_slot_of_child hc
        have hsame := child_at_set_child_same h hs child
        cases d with
        | nil =>
          simp [subscribers_nil, set_child_pipes]
        | cons e d =>
          by_cases he : e = c
          · subst he
            obtain ⟨j1, j2⟩ := ih ch r child (wf_child h hc) hres hx d
            simp only [subscribers_cons_some hc, subscribers_cons_some hsame, set_child_pipes,
              List.length_append, List.count_append, List.cons_prefix_cons, true_and]
            refine ⟨by omega, ?_⟩
            intro y hy
            rw [j2 y hy]
          · have hother := child_at_set_child_other h hs he child
            have hnp : ¬ (c :: p <+: e :: d) := by
              rw [List.cons_prefix_cons]
              exact fun hh => he hh.1.symm
            cases hce : child_at e t with
            | none =>
              rw [hce] at hother
              simp [subscribers_cons_none hce, subscribers_cons_none hother, set_child_pipes, hnp]
            | some ch2 =>
              rw [hce] at hother
              simp [subscribers_cons_some hce, subscribers_cons_some hother, set_child_pipes, hnp]

theorem run_keeps_root {B : Nat} (x : pipe_t) :
    ∀ (ops : List op) (t t1 : mtrie_t), wf_upto B t = true → run ops t = .ok t1 →
      op.rm [] x ∉ ops → x ∈ t.pipes → wf_upto B t1 = true ∧ x ∈ t1.pipes := by
  intro ops
  induction ops with
  | nil =>
    intro t t1 h hr _ hx
    simp only [run, Except.ok.injEq] at hr
    subst hr
    exact ⟨h, hx⟩
  | cons o os ih =>
    intro t t1 h hr hno hx
    simp only [run] at hr
    cases hc : call o t with
    | error e => simp [hc] at hr
    | ok v =>
      rcases v with ⟨b, t2⟩
      simp only [hc] at hr
      have hno2 : op.rm [] x ∉ os := fun hm => hno (List.mem_cons_of_mem _ hm)
      have ho : o ≠ op.rm [] x := fun e => hno (e ▸ List.mem_cons_self _ _)
      have hkeep : wf_upto B t2 = true ∧ x ∈ t2.pipes := by
        rcases o with ⟨p, y⟩ | ⟨p, y⟩
        · obtain ⟨i1, _, i3, i4⟩ := add_helper_spec y p t b t2 h hc
          refine ⟨i1, ?_⟩
          by_cases hp : p = []
          · subst hp
            rw [← pipes_at_nil, i3, mem_pipes_insert]
            exact Or.inr hx
          · rw [← pipes_at_nil, i4 [] (Ne.symm hp)]
            exact hx
        · obtain ⟨i1, i2, i3, _⟩ := rm_helper_spec y p t b t2 h hc
          refine ⟨i1, ?_⟩
          by_cases hp : p = []
          · subst hp
            have hy : x ≠ y := fun e => ho (by rw [e])
            rw [← pipes_at_nil, i2, mem_pipes_erase]
            exact ⟨hx, hy⟩
          · rw [← pipes_at_nil, i3 [] (Ne.symm hp)]
            exact hx
      exact ih t2 t1 hkeep.1 hr hno2 hkeep.2

/-! ## The claims about `add`, `rm` and `match` -/

/-- Match completeness on the sequences of `add` calls that all return.  For
every trie `t` that a sequence `adds` of `add (prefix, pipe)` calls returns
from the empty trie and every byte string `data`,
`match (data, len, cb, max = 0)` returns normally; the pipes it invokes the
callback on are `reported`, where each pipe `x` occurs once for every
registered pair `(prefix, x)` whose prefix is a prefix of `data` (so not at all
when there is none), it returns the number of invocations, and with a null
callback it returns the same number. -/
theorem match_complete (adds : List (List Nat × pipe_t)) (t : mtrie_t)
    (h : run (adds.map (fun a => op.add a.1 a.2)) empty = .ok t) (data : List Nat) :
    ∃ reported : List pipe_t,
      match_ data true 0 t = .ok (reported.length, reported) ∧
      (∀ x, reported.count x =
        (adds.dedup.filter (fun a => decide (a.2 = x ∧ a.1 <+: data))).length) ∧
      match_ data false 0 t = .ok (reported.length, []) := by
  obtain ⟨hw, hreg⟩ := run_spec _ empty t (wf_empty 256) h
  have hmem : ∀ q y, y ∈ pipes_at q t ↔ (q, y) ∈ adds := by
    intro q y
    rw [hreg [] pipes_at_empty_iff q y, registered_adds]
    simp
  refine ⟨subscribers data t, ?_, ?_, ?_⟩
  · rw [match_zero hw]; rfl
  · intro x
    unfold subscribers
    rw [count_flatMap_nodup _ x _
      (fun q _ => nodup_of_ascending (pipes_at_ascending hw q))]
    have hperm : (data.inits.filter (fun q => decide (x ∈ pipes_at q t))).Perm
        ((adds.dedup.filter (fun a => decide (a.2 = x ∧ a.1 <+: data))).map Prod.fst) := by
      rw [List.perm_ext_iff_of_nodup ((nodup_inits data).filter _)]
      · intro q
        simp only [List.mem_filter, List.mem_inits, decide_eq_true_eq, hmem, List.mem_map,
          List.mem_dedup, Prod.exists, exists_and_right, exists_eq_right]
        constructor
        · rintro ⟨h1, h2⟩
          exact ⟨x, h2, rfl, h1⟩
        · rintro ⟨y, h2, rfl, h1⟩
          exact ⟨h1, h2⟩
      · apply List.Nodup.map_on
        · intro a ha b hb hab
          simp only [List.mem_filter, decide_eq_true_eq] at ha hb
          exact Prod.ext hab (ha.2.1.trans hb.2.1.symm)
        · exact (List.nodup_dedup adds).filter _
    rw [hperm.length_eq, List.length_map]
  · rw [match_zero hw]; rfl

/-- The scenario of `tests/test_sub_forward.cpp`: the subscriptions "", "B",
"BOO" and "BO" of the pipes 1, 2, 3 and 4, and the message "BOOP". -/
theorem match_complete_witness :
    run ([([], 1), ([66], 2), ([66, 79, 79], 3), ([66, 79], 4)].map
        (fun a => op.add a.1 a.2)) empty =
      .ok (single [1] 66 (single [2] 79 (single [4] 79 (leaf [3])))) ∧
    ∃ reported : List pipe_t,
      match_ [66, 79, 79, 80] true 0 (single [1] 66 (single [2] 79 (single [4] 79 (leaf [3])))) =
        .ok (reported.length, reported) ∧
      (∀ x, reported.count x =
        (List.dedup [(([] : List Nat), (1 : pipe_t)), ([66], 2), ([66, 79, 79], 3),
          ([66, 79], 4)] |>.filter
            (fun a => decide (a.2 = x ∧ a.1 <+: [66, 79, 79, 80]))).length) ∧
      match_ [66, 79, 79, 80] false 0
          (single [1] 66 (single [2] 79 (single [4] 79 (leaf [3])))) =
        .ok (reported.length, []) :=
  ⟨rfl, match_complete [([], 1), ([66], 2), ([66, 79, 79], 3), ([66, 79], 4)]
    (single [1] 66 (single [2] 79 (single [4] 79 (leaf [3])))) rfl [66, 79, 79, 80]⟩

/-- C1, match completeness, at two sibling prefixes.  The claim covers the
trie built by `add ("A", 1)` and `add ("B", 2)` and has
`match ("B", 1, cb, max = 0)` invoke the callback once, on pipe 2.  The first
`add` returns, and `match` on its trie reports nothing for "B"; the second
`add` finds byte 66 outside `[65, 66)`, takes the table extension and does not
return normally, so the two calls leave no trie and `match` after them has
no defined result. -/
theorem match_after_siblings_faults :
    run ([([65], 1)].map (fun a => op.add a.1 a.2)) empty = .ok (single [] 65 (leaf [1])) ∧
    match_ [66] true 0 (single [] 65 (leaf [1])) = .ok (0, []) ∧
    run ([([65], 1), ([66], 2)].map (fun a => op.add a.1 a.2)) empty = .error .undefined ∧
    Except.bind (run ([([65], 1), ([66], 2)].map (fun a => op.add a.1 a.2)) empty)
      (fun t => match_ [66] true 0 t) = .error .undefined :=
  ⟨rfl, rfl, rfl, rfl⟩

/-- C2, add-is-first, at a sibling byte.  After `add ("A", 1)` on the empty
trie no pipe is registered at "B", yet `add ("B", 2)` does not return true: the
node for "A" has `count = 1` and `min = 65`, the byte 66 is out of range, the
widened table is left in the local `newtable` and the call reads `next.table`
while the union still holds `next.node`. -/
theorem add_sibling_faults :
    run [op.add [65] 1] empty = .ok (single [] 65 (leaf [1])) ∧
    pipes_at [66] (single [] 65 (leaf [1])) = [] ∧
    add [66] 2 (single [] 65 (leaf [1])) = .error .undefined :=
  ⟨rfl, rfl, rfl⟩

/-- C3 as stated fails on a missing path: on the empty trie `rm ("A", 1)`
returns false although the pipe set at "A" is empty after the call. -/
theorem rm_false_on_missing_path :
    rm [65] 1 empty = .ok (false, empty) ∧ pipes_at [65] empty = [] :=
  ⟨rfl, rfl⟩

/-- C3, amended.  For every trie state, prefix `p` and pipe for which
`rm (p, pipe)` returns, the result is true if and only if `p` denotes a node
and the pipe set of that node is empty after the call. -/
theorem rm_true_iff_emptied (t : mtrie_t) (p : List Nat) (x : pipe_t) (b : Bool)
    (t1 : mtrie_t) (h : wf t = true) (hr : rm p x t = .ok (b, t1)) :
    b = true ↔ ∃ n, node_at p t1 = some n ∧ n.pipes = [] := by
  obtain ⟨_, _, _, i4, _, i6⟩ := rm_helper_spec x p t b t1 h hr
  rw [i4, ← i6 p]
  unfold pipes_at
  cases node_at p t1 with
  | none => simp
  | some n => simp

/-- The amended C3 on a node that holds pipe 7 alone: `rm ("", 7)` returns true. -/
theorem rm_true_iff_emptied_witness :
    wf (single [7] 66 (leaf [7, 8])) = true ∧
    rm [] 7 (single [7] 66 (leaf [7, 8])) = .ok (true, single [] 66 (leaf [7, 8])) ∧
    (true = true ↔ ∃ n, node_at [] (single [] 66 (leaf [7, 8])) = some n ∧ n.pipes = []) :=
  ⟨by decide, rfl,
    rm_true_iff_emptied (single [7] 66 (leaf [7, 8])) [] 7 true (single [] 66 (leaf [7, 8]))
      (by decide) rfl⟩

/-- A pair added twice and removed twice: the pipe set holds the pipe once, the first `rm` erases it and the second `rm` fails the assertion
`erased == 1`, although the pair was added twice and removed twice. -/
theorem second_rm_aborts :
    balanced [op.add [] 1, op.add [] 1, op.rm [] 1, op.rm [] 1] [] = true ∧
    run [op.add [] 1, op.add [] 1, op.rm [] 1, op.rm [] 1] empty = .error .assertion :=
  ⟨by decide, rfl⟩

/-- The round trip on the sequences whose calls all return.  For every
sequence of `add` and `rm` calls applied to the empty trie in which every pair
is removed as many times as it was added, each `rm` after a matching `add`,
and in which every call returns normally, at the end the pipe set at every prefix is empty: `has (p) = 0` for all `p` and
`match` reports no pipe for any data. -/
theorem round_trip (ops : List op) (t : mtrie_t) (hb : balanced ops [] = true)
    (hr : run ops empty = .ok t) :
    (∀ p, pipes_at p t = [] ∧ has p t = 0) ∧
    ∀ (data : List Nat) (func_ : Bool), match_ data func_ 0 t = .ok (0, []) := by
  obtain ⟨hw, hreg⟩ := run_spec ops empty t (wf_empty 256) hr
  have hnone : ∀ p, pipes_at p t = [] := by
    intro p
    apply List.eq_nil_iff_forall_not_mem.2
    intro y hy
    have := (hreg [] pipes_at_empty_iff p y).1 hy
    rw [balanced_registered ops [] [] (fun a ha => ha) hb] at this
    simp at this
  refine ⟨fun p => ⟨hnone p, by simp [has, hnone p]⟩, ?_⟩
  intro data func_
  rw [match_zero hw, subscribers_of_no_pipes hnone]
  cases func_ <;> rfl

/-- The round trip on six calls in which "B" is subscribed, dropped and subscribed
again by pipe 1, and "BO" by pipe 2. -/
theorem round_trip_witness :
    balanced [op.add [66] 1, op.add [66, 79] 2, op.rm [66] 1, op.add [66] 1,
      op.rm [66, 79] 2, op.rm [66] 1] [] = true ∧
    run [op.add [66] 1, op.add [66, 79] 2, op.rm [66] 1, op.add [66] 1,
      op.rm [66, 79] 2, op.rm [66] 1] empty = .ok (single [] 66 (single [] 79 (leaf []))) ∧
    ((∀ p, pipes_at p (single [] 66 (single [] 79 (leaf []))) = [] ∧
      has p (single [] 66 (single [] 79 (leaf []))) = 0) ∧
    ∀ (data : List Nat) (func_ : Bool),
      match_ data func_ 0 (single [] 66 (single [] 79 (leaf []))) = .ok (0, [])) :=
  ⟨by decide, rfl,
    round_trip [op.add [66] 1, op.add [66, 79] 2, op.rm [66] 1, op.add [66] 1,
      op.rm [66, 79] 2, op.rm [66] 1] (single [] 66 (single [] 79 (leaf []))) (by decide) rfl⟩

/-- C4, the round trip, at two sibling prefixes.  In the sequence `add ("BA", 1)`,
`add ("BO", 2)`, `rm ("BA", 1)`, `rm ("BO", 2)` every pair is added once and
removed once afterwards, and no pair is added while it is registered.  The
first `add` returns; the second finds byte 79 outside `[65, 66)` at the node of
"B", takes the table extension and does not return normally, so not every call
of the sequence returns and it leaves no trie whose pipe sets could be
empty. -/
theorem round_trip_siblings_fault :
    balanced [op.add [66, 65] 1, op.add [66, 79] 2, op.rm [66, 65] 1, op.rm [66, 79] 2] [] =
      true ∧
    run [op.add [66, 65] 1] empty = .ok (single [] 66 (single [] 65 (leaf [1]))) ∧
    call (op.add [66, 79] 2) (single [] 66 (single [] 65 (leaf [1]))) = .error .undefined ∧
    run [op.add [66, 65] 1, op.add [66, 79] 2, op.rm [66, 65] 1, op.rm [66, 79] 2] empty =
      .error .undefined :=
  ⟨by decide, rfl, rfl, rfl⟩

/-- C5, match limit.  With pipe 1 subscribed at "" and pipe 2 at "A" (a trie
built by two `add` calls), `match ("A", 1, cb, max = 1)` invokes the callback
twice and returns 2: the `break` at `++total == max_` leaves the loop over the
pipes of the root only, the descent goes on and the count passes `max_`. -/
theorem match_exceeds_max :
    run [op.add [] 1, op.add [65] 2] empty = .ok (single [1] 65 (leaf [2])) ∧
    match_ [65] true 1 (single [1] 65 (leaf [2])) = .ok (2, [1, 2]) :=
  ⟨rfl, rfl⟩

/-- C6, the effect of `rm` on matching.  For every trie state in which pipe
`x` is in the pipe set of the node denoted by `p`, `rm (p, x)` returns, and
for every data `d` the count returned by `match (d, len, null, max = 0)` is
one less than before when `p` is a prefix of `d` and unchanged otherwise; every
other pipe is reported as many times as before. -/
theorem rm_lowers_match (t : mtrie_t) (p : List Nat) (x : pipe_t) (h : wf t = true)
    (hx : x ∈ pipes_at p t) :
    ∃ b t1, rm p x t = .ok (b, t1) ∧
      ∀ d : List Nat, ∃ n n1 : Nat, ∃ reported reported1 : List pipe_t,
        match_ d false 0 t = .ok (n, []) ∧ match_ d false 0 t1 = .ok (n1, []) ∧
        (p <+: d → n1 + 1 = n) ∧ (¬ p <+: d → n1 = n) ∧
        match_ d true 0 t = .ok (n, reported) ∧ match_ d true 0 t1 = .ok (n1, reported1) ∧
        ∀ y, y ≠ x → reported1.count y = reported.count y := by
  obtain ⟨b, t1, hr⟩ := rm_helper_total x p t h hx
  obtain ⟨hw1, _⟩ := rm_helper_spec x p t b t1 h hr
  refine ⟨b, t1, hr, ?_⟩
  intro d
  obtain ⟨j1, j2⟩ := rm_helper_subscribers x p t b t1 h hr hx d
  refine ⟨(subscribers d t).length, (subscribers d t1).length, subscribers d t,
    subscribers d t1, ?_, ?_, ?_, ?_, ?_, ?_, j2⟩
  · rw [match_zero h]; rfl
  · rw [match_zero hw1]; rfl
  · intro hp; simpa [hp] using j1
  · intro hp; simpa [hp] using j1
  · rw [match_zero h]; rfl
  · rw [match_zero hw1]; rfl

/-- C6 on the trie with pipe 1 at "" and the pipes 1 and 2 at "B", and `rm ("B", 1)`. -/
theorem rm_lowers_match_witness :
    wf (single [1] 66 (leaf [1, 2])) = true ∧
    (1 : pipe_t) ∈ pipes_at [66] (single [1] 66 (leaf [1, 2])) ∧
    ∃ b t1, rm [66] 1 (single [1] 66 (leaf [1, 2])) = .ok (b, t1) ∧
      ∀ d : List Nat, ∃ n n1 : Nat, ∃ reported reported1 : List pipe_t,
        match_ d false 0 (single [1] 66 (leaf [1, 2])) = .ok (n, []) ∧
        match_ d false 0 t1 = .ok (n1, []) ∧
        ([66] <+: d → n1 + 1 = n) ∧ (¬ [66] <+: d → n1 = n) ∧
        match_ d true 0 (single [1] 66 (leaf [1, 2])) = .ok (n, reported) ∧
        match_ d true 0 t1 = .ok (n1, reported1) ∧
        ∀ y, y ≠ 1 → reported1.count y = reported.count y :=
  ⟨by decide, by decide,
    rm_lowers_match (single [1] 66 (leaf [1, 2])) [66] 1 (by decide) (by decide)⟩

/-- The empty-prefix subscriber on the sequences whose calls all return.
After `add (empty prefix, x)` on a trie state, and after every later sequence of `add` and `rm` calls that return and
among which there is no `rm (empty prefix, x)`, `match (data, len, cb, max = 0)`
returns and invokes the callback on `x`, for every data (of any length, with
or without a child for its bytes). -/
theorem empty_prefix_subscriber (t0 : mtrie_t) (x : pipe_t) (b : Bool) (t1 : mtrie_t)
    (ops : List op) (t2 : mtrie_t) (data : List Nat) (h0 : wf t0 = true)
    (ha : add [] x t0 = .ok (b, t1)) (hno : op.rm [] x ∉ ops) (hr : run ops t1 = .ok t2) :
    ∃ total reported, match_ data true 0 t2 = .ok (total, reported) ∧ x ∈ reported := by
  obtain ⟨hw1, _, i3, _⟩ := add_helper_spec x [] t0 b t1 h0 ha
  have hx1 : x ∈ t1.pipes := by
    rw [← pipes_at_nil, i3, mem_pipes_insert]
    exact Or.inl rfl
  obtain ⟨hw2, hx2⟩ := run_keeps_root x ops t1 t2 hw1 hr hno hx1
  refine ⟨_, _, match_zero hw2 data true, ?_⟩
  simp only [if_true]
  exact mem_subscribers.2 ⟨[], List.nil_prefix, hx2⟩

/-- Pipe 5 subscribed at "", four later calls that return, and the message "A". -/
theorem empty_prefix_subscriber_witness :
    wf empty = true ∧ add [] 5 empty = .ok (true, leaf [5]) ∧
    op.rm [] 5 ∉ [op.add [66] 6, op.rm [66] 6, op.add [] 7, op.rm [] 7] ∧
    run [op.add [66] 6, op.rm [66] 6, op.add [] 7, op.rm [] 7] (leaf [5]) =
      .ok (single [5] 66 (leaf [])) ∧
    ∃ total reported,
      match_ [65] true 0 (single [5] 66 (leaf [])) = .ok (total, reported) ∧
      (5 : pipe_t) ∈ reported :=
  ⟨by decide, rfl, by decide, rfl,
    empty_prefix_subscriber empty 5 true (leaf [5])
      [op.add [66] 6, op.rm [66] 6, op.add [] 7, op.rm [] 7] (single [5] 66 (leaf [])) [65]
      (by decide) rfl (by decide) rfl⟩

/-- C9, the empty-prefix subscriber, followed by two sibling prefixes.  After
`add (empty prefix, 5)` the later sequence `add ("A", 6)`, `add ("B", 7)` is a
sequence of `add` calls, and the claim has `match` invoke the callback on
pipe 5 after it.  After the first of the two `match ("B", 1, cb, max = 0)`
still reports pipe 5; the second finds byte 66 outside `[65, 66)` at the root,
takes the table extension and does not return normally, so the sequence
leaves no trie and `match` after it has no defined result. -/
theorem empty_prefix_then_siblings_fault :
    add [] 5 empty = .ok (true, leaf [5]) ∧
    run [op.add [65] 6] (leaf [5]) = .ok (single [5] 65 (leaf [6])) ∧
    match_ [66] true 0 (single [5] 65 (leaf [6])) = .ok (1, [5]) ∧
    run [op.add [65] 6, op.add [66] 7] (leaf [5]) = .error .undefined ∧
    Except.bind (run [op.add [65] 6, op.add [66] 7] (leaf [5]))
      (fun t => match_ [66] true 0 t) = .error .undefined :=
  ⟨rfl, rfl, rfl, rfl, rfl⟩

/-- C10, `rm` on a missing path.  For every trie state, prefix `p` of length at
least 1 and pipe, if the descent along `p` does not reach a node (it meets a
node without children, a byte outside `[min, min + count)` or a null slot),
`rm (p, pipe)` returns false and leaves the whole trie unchanged. -/
theorem rm_missing_path_noop (t : mtrie_t) (p : List Nat) (x : pipe_t) (h : wf t = true)
    (_hp : 1 ≤ p.length) (hn : node_at p t = none) : rm p x t = .ok (false, t) :=
  rm_helper_missing x p t h hn

/-- C10 on a node with a table for "B", "C" and "D" whose slot for "C" is null: the
path "DOP" ends at the node of "DO", which has no children. -/
theorem rm_missing_path_noop_witness :
    wf (fork [1] 66 [some (leaf [2]), none, some (single [] 79 (leaf [3]))]) = true ∧
    1 ≤ [68, 79, 80].length ∧
    node_at [68, 79, 80] (fork [1] 66 [some (leaf [2]), none, some (single [] 79 (leaf [3]))]) =
      none ∧
    rm [68, 79, 80] 3 (fork [1] 66 [some (leaf [2]), none, some (single [] 79 (leaf [3]))]) =
      .ok (false, fork [1] 66 [some (leaf [2]), none, some (single [] 79 (leaf [3]))]) :=
  ⟨by decide, by decide, rfl,
    rm_missing_path_noop (fork [1] 66 [some (leaf [2]), none, some (single [] 79 (leaf [3]))])
      [68, 79, 80] 3 (by decide) (by decide) rfl⟩

/-! ## The sweep: the buffer, the table loop and the bounded run -/

theorem realloc_length (buff : List Nat) (n : Nat) : (realloc buff n).length = n := by
  simp only [realloc, List.length_append, List.length_take, List.length_replicate]
  omega

theorem realloc_take {buff : List Nat} {k n : Nat} (hk : k ≤ buff.length) (hn : k ≤ n) :
    (realloc buff n).take k = buff.take k := by
  unfold realloc
  rw [List.take_append_of_le_length (by simp only [List.length_take]; omega), List.take_take]
  congr 1
  omega

theorem take_set_same (l : List Nat) (n v : Nat) : (l.set n v).take n = l.take n := by
  apply List.ext_getElem?
  intro i
  rw [List.getElem?_take, List.getElem?_take]
  split
  · next hi => rw [List.getElem?_set_ne (by omega)]
  · rfl

theorem take_set_succ {l : List Nat} {n : Nat} (h : n < l.length) (v : Nat) :
    (l.set n v).take (n + 1) = l.take n ++ [v] := by
  rw [List.take_succ, take_set_same]
  simp [List.getElem?_set_self h]

theorem take_of_take_succ {l1 l2 : List Nat} {n : Nat}
    (h : l1.take (n + 1) = l2.take (n + 1)) : l1.take n = l2.take n := by
  have := congrArg (List.take n) h
  simpa [List.take_take] using this

theorem own_report {pipes : List pipe_t} (h : pipes.Pairwise (· < ·)) (x : pipe_t) :
    (pipes_erased x pipes ≠ 0 ∧ (pipes_erase x pipes).isEmpty = true) ↔ pipes = [x] := by
  rw [pipes_erased_ne_zero, List.isEmpty_iff]
  constructor
  · rintro ⟨hx, he⟩
    have hlen := length_pipes_erase h hx
    rw [he] at hlen
    simp only [List.length_nil, Nat.zero_add] at hlen
    rcases pipes with _ | ⟨a, l⟩
    · simp at hx
    · rcases l with _ | ⟨b, l⟩
      · simp at hx
        rw [hx]
      · simp at hlen
  · rintro rfl
    simp [pipes_erase]

theorem own_calls {pipes : List pipe_t} (h : pipes.Pairwise (· < ·)) {x : pipe_t}
    (a b : List (List Nat)) :
    (if pipes_erased x pipes ≠ 0 ∧ (pipes_erase x pipes).isEmpty = true then a else b) =
      if pipes = [x] then a else b :=
  if_congr (own_report h x) rfl rfl

theorem rm_table_swept (x : pipe_t) (k n m1 min count : Nat) (path : List Nat)
    (hc : count ≤ 255) (hm : min + count ≤ 256) (hnm : n < m1)
    (ih : ∀ (buff : List Nat) (t : mtrie_t), wf_upto 255 t = true → need t ≤ k →
      n + 1 ≤ buff.length → m1 ≤ buff.length →
      ∃ buff1, rm_helper_pipe x k buff (n + 1) m1 t =
          .ok (swept x t, buff1, emptied x (buff.take (n + 1)) t) ∧
        buff1.take (n + 1) = buff.take (n + 1) ∧ m1 ≤ buff1.length) :
    ∀ (rest done : List (Option mtrie_t)) (kk c : Nat) (buff : List Nat), done.length = c →
      c + rest.length = count → rest.length < kk → wf_upto.wf_table 255 rest = true →
      need.need_table rest ≤ k → m1 ≤ buff.length → buff.take n = path →
      ∃ buff1,
        rm_table (fun b child => rm_helper_pipe x k b (n + 1) m1 child) min count n kk c buff
            (done ++ rest) =
          .ok (done ++ swept.swept_table x rest, buff1,
            emptied.emptied_table x path (min + c) rest) ∧
        buff1.take n = path ∧ m1 ≤ buff1.length := by
  intro rest
  induction rest with
  | nil =>
    intro done kk c buff hd hcount hk _ _ hlen hpath
    cases kk with
    | zero => simp at hk
    | succ kk =>
      simp only [List.length_nil, Nat.add_zero] at hcount
      exact ⟨buff, by simp [rm_table, hcount, swept.swept_table, emptied.emptied_table],
        hpath, hlen⟩
  | cons s r ihr =>
    intro done kk c buff hd hcount hk hw hn hlen hpath
    cases kk with
    | zero => simp at hk
    | succ kk =>
      simp only [List.length_cons] at hcount hk
      have hne : c ≠ count := by omega
      have hin : n < buff.length := by omega
      have hget : (done ++ s :: r)[c]? = some s := by
        rw [List.getElem?_append_right (by omega)]
        simp [hd]
      have hmod : (c + 1) % 256 = c + 1 := Nat.mod_eq_of_lt (by omega)
      have hbyte : (min + c) % 256 = min + c := Nat.mod_eq_of_lt (by omega)
      have hassoc : ∀ s1 : Option mtrie_t, done ++ s1 :: r = (done ++ [s1]) ++ r := by
        intro s1; simp
      have hlen1 : m1 ≤ (buff.set n (min + c)).length := by simpa using hlen
      have hpath1 : (buff.set n (min + c)).take n = path := by rw [take_set_same, hpath]
      rcases s with _ | child
      · simp only [wf_upto.wf_table] at hw
        simp only [need.need_table] at hn
        obtain ⟨buff1, e1, e2, e3⟩ := ihr (done ++ [none]) kk (c + 1) (buff.set n (min + c))
          (by simp [hd]) (by omega) (by omega) hw hn hlen1 hpath1
        refine ⟨buff1, ?_, e2, e3⟩
        simp only [rm_table, hne, if_false, hin, if_true, hget, hmod, hbyte]
        rw [hassoc none, e1]
        simp [swept.swept_table, emptied.emptied_table, Nat.add_assoc]
      · simp only [wf_upto.wf_table, Bool.and_eq_true] at hw
        simp only [need.need_table] at hn
        have h1 : need child ≤ k := le_trans (le_max_left _ _) hn
        have h2 : need.need_table r ≤ k := le_trans (le_max_right _ _) hn
        obtain ⟨buff2, f1, f2, f3⟩ := ih (buff.set n (min + c)) child hw.1 h1
          (by simp; omega) hlen1
        have hpath2 : buff2.take n = path := by
          rw [take_of_take_succ f2, hpath1]
        obtain ⟨buff3, e1, e2, e3⟩ := ihr (done ++ [some (swept x child)]) kk (c + 1) buff2
          (by simp [hd]) (by omega) (by omega) hw.2 h2 f3 hpath2
        refine ⟨buff3, ?_, e2, e3⟩
        have hset : (done ++ some child :: r).set c (some (swept x child)) =
            done ++ some (swept x child) :: r := by
          rw [List.set_append_right _ _ (by omega)]
          simp [hd]
        simp only [rm_table, hne, if_false, hin, if_true, hget, hmod, hbyte, f1, hset]
        rw [hassoc (some (swept x child)), e1]
        simp [swept.swept_table, emptied.emptied_table, Nat.add_assoc, take_set_succ hin, hpath]

theorem rm_helper_pipe_eq (x : pipe_t) :
    ∀ (k : Nat) (buff : List Nat) (n m : Nat) (t : mtrie_t), wf_upto 255 t = true →
      need t ≤ k → n ≤ buff.length → m ≤ buff.length →
      ∃ buff1, rm_helper_pipe x k buff n m t =
          .ok (swept x t, buff1, emptied x (buff.take n) t) ∧
        buff1.take n = buff.take n ∧ m ≤ buff1.length := by
  intro k
  induction k with
  | zero =>
    intro buff n m t _ hn
    have := need_pos t
    omega
  | succ k ih =>
    intro buff n m t h hn hnb hmb
    -- the buffer after the adjustment
    obtain ⟨m1, b1, hm1, hb1, hnm, hmm, hlen, htake⟩ :
        ∃ m1 b1, (if n ≥ m then n + 256 else m) = m1 ∧
          (if n ≥ m then realloc buff (n + 256) else buff) = b1 ∧
          n < m1 ∧ m ≤ m1 ∧ m1 ≤ b1.length ∧ b1.take n = buff.take n := by
      by_cases hge : n ≥ m
      · refine ⟨n + 256, realloc buff (n + 256), by simp [hge], by simp [hge], by omega,
          by omega, by rw [realloc_length], realloc_take hnb (by omega)⟩
      · refine ⟨m, buff, by simp [hge], by simp [hge], by omega, le_refl _, hmb, rfl⟩
    have hin : n < b1.length := by omega
    rcases wf_cases h with ⟨pipes, min, rfl, h1⟩ | ⟨pipes, min, child, rfl, h1, h2⟩ |
      ⟨pipes, min, count, T, rfl, h1, h2, h3, h4, h5, h6⟩
    · refine ⟨b1, ?_, htake, by omega⟩
      simp only [rm_helper_pipe, if_true, swept, emptied, own_calls h1, hb1]
    · have hc : need child ≤ k := by simp only [need] at hn; omega
      obtain ⟨buff2, f1, f2, f3⟩ := ih (b1.set n min) (n + 1) m1 child h2 hc
        (by simp; omega) (by simpa using hlen)
      refine ⟨buff2, ?_, ?_, by omega⟩
      · simp only [rm_helper_pipe, one_ne_zero, if_false, if_true, swept, emptied, own_calls h1,
          hb1, hm1, hin, f1, take_set_succ hin, htake]
      · rw [take_of_take_succ f2, take_set_same, htake]
    · simp only [need] at hn
      have hc1 : count + 1 ≤ k := by omega
      have hc2 : need.need_table T ≤ k := by omega
      have h0 : ¬ count = 0 := by omega
      have h01 : ¬ count = 1 := by omega
      obtain ⟨buff2, e1, e2, e3⟩ := rm_table_swept x k n m1 min count (buff.take n) h3 h4 hnm
        (fun b t hw hnd hb1 hb2 => ih b (n + 1) m1 t hw hnd hb1 hb2)
        T [] k 0 b1 rfl (by omega) (by omega) h6 hc2 hlen htake
      refine ⟨buff2, ?_, e2, by omega⟩
      simp only [List.nil_append, Nat.add_zero] at e1
      simp only [rm_helper_pipe, h0, h01, if_false, if_true, swept, emptied, own_calls h1, hb1,
        hm1, e1]

theorem rm_pipe_eq (x : pipe_t) (t : mtrie_t) (h : wf_upto 255 t = true) (fuel : Nat)
    (hf : need t ≤ fuel) : rm_pipe fuel x t = .ok (swept x t, emptied x [] t) := by
  obtain ⟨buff1, e1, _, _⟩ := rm_helper_pipe_eq x fuel [] 0 0 t h hf (le_refl _) (le_refl _)
  simp only [rm_pipe, e1, List.take_nil]

/-! ## The trie left by the sweep -/

theorem swept_table_get (x : pipe_t) :
    ∀ (T : List (Option mtrie_t)) (i : Nat),
      (swept.swept_table x T)[i]? = (T[i]?).map (Option.map (swept x)) := by
  intro T
  induction T with
  | nil => intro i; simp [swept.swept_table]
  | cons s r ih =>
    intro i
    rcases s with _ | child <;> cases i with
    | zero => simp [swept.swept_table]
    | succ j => simp [swept.swept_table, ih j]

theorem swept_table_length (x : pipe_t) :
    ∀ T : List (Option mtrie_t), (swept.swept_table x T).length = T.length := by
  intro T
  induction T with
  | nil => rfl
  | cons s r ih => rcases s with _ | child <;> simp [swept.swept_table, ih]

theorem swept_pipes (x : pipe_t) (t : mtrie_t) : (swept x t).pipes = pipes_erase x t.pipes := by
  rcases t with ⟨pipes, min, count, next⟩
  rcases next with _ | n | T
  · rfl
  · rcases n with _ | child <;> rfl
  · rfl

theorem swept_min_count (x : pipe_t) (t : mtrie_t) :
    ((swept x t).min, (swept x t).count) = (t.min, t.count) := by
  rcases t with ⟨pipes, min, count, next⟩
  rcases next with _ | n | T
  · rfl
  · rcases n with _ | child <;> rfl
  · rfl

theorem child_at_swept (x : pipe_t) (c : Nat) (t : mtrie_t) :
    child_at c (swept x t) = (child_at c t).map (swept x) := by
  rcases t with ⟨pipes, min, count, next⟩
  rcases next with _ | n | T
  · simp only [swept, child_at]
    split_ifs <;> rfl
  · rcases n with _ | child
    · simp only [swept, child_at]
      split_ifs <;> rfl
    · simp only [swept, child_at]
      split_ifs <;> rfl
  · simp only [swept, child_at]
    split_ifs
    · rfl
    · rfl
    · rw [swept_table_get]
      cases T[c - min]? with
      | none => rfl
      | some s => cases s <;> rfl

theorem node_at_swept (x : pipe_t) :
    ∀ (p : List Nat) (t : mtrie_t), node_at p (swept x t) = (node_at p t).map (swept x) := by
  intro p
  induction p with
  | nil => intro t; rfl
  | cons c p ih =>
    intro t
    rw [node_at_cons, node_at_cons, child_at_swept]
    cases child_at c t with
    | none => rfl
    | some child => exact ih child

theorem pipes_at_swept (x : pipe_t) (p : List Nat) (t : mtrie_t) :
    pipes_at p (swept x t) = pipes_erase x (pipes_at p t) := by
  unfold pipes_at
  rw [node_at_swept]
  cases node_at p t with
  | none => rfl
  | some n => exact swept_pipes x n

theorem wf_swept {B : Nat} (x : pipe_t) :
    ∀ (n : Nat) (t : mtrie_t), need t ≤ n → wf_upto B t = true →
      wf_upto B (swept x t) = true := by
  intro n
  induction n with
  | zero =>
    intro t hn
    have := need_pos t
    omega
  | succ n ih =>
    intro t hn h
    rcases wf_cases h with ⟨pipes, min, rfl, h1⟩ | ⟨pipes, min, child, rfl, h1, h2⟩ |
      ⟨pipes, min, count, T, rfl, h1, h2, h3, h4, h5, h6⟩
    · simp [swept, wf_upto, pairwise_pipes_erase x pipes h1]
    · have hc : need child ≤ n := by simp only [need] at hn; omega
      simp [swept, wf_upto, pairwise_pipes_erase x pipes h1, ih child hc h2]
    · simp only [need] at hn
      have hT : need.need_table T ≤ n := by omega
      have hw : wf_upto.wf_table B (swept.swept_table x T) = true := by
        clear h5 hn h
        induction T with
        | nil => rfl
        | cons s r ihr =>
          rcases s with _ | c0
          · simp only [wf_upto.wf_table, swept.swept_table] at h6 ⊢
            simp only [need.need_table] at hT
            exact ihr h6 hT
          · simp only [wf_upto.wf_table, swept.swept_table, Bool.and_eq_true] at h6 ⊢
            simp only [need.need_table] at hT
            exact ⟨ih c0 (by omega) h6.1, ihr h6.2 (by omega)⟩
      simp [swept, wf_upto, pairwise_pipes_erase x pipes h1, h2, h3, h4, h5, hw,
        swept_table_length]

/-! ## The prefixes the sweep reports -/

theorem mem_emptied_table (x : pipe_t) (q buff : List Nat) :
    ∀ (T : List (Option mtrie_t)) (b : Nat),
      q ∈ emptied.emptied_table x buff b T ↔
        ∃ i child, T[i]? = some (some child) ∧ q ∈ emptied x (buff ++ [b + i]) child := by
  intro T
  induction T with
  | nil => intro b; simp [emptied.emptied_table]
  | cons s r ih =>
    intro b
    rcases s with _ | c0
    · simp only [emptied.emptied_table, ih]
      constructor
      · rintro ⟨i, child, h1, h2⟩
        exact ⟨i + 1, child, by simpa using h1, by rw [← Nat.add_assoc, Nat.add_right_comm]; exact h2⟩
      · rintro ⟨i, child, h1, h2⟩
        cases i with
        | zero => simp at h1
        | succ j =>
          exact ⟨j, child, by simpa using h1, by
            rw [← Nat.add_assoc, Nat.add_right_comm] at h2; exact h2⟩
    · simp only [emptied.emptied_table, List.mem_append, ih]
      constructor
      · rintro (h0 | ⟨i, child, h1, h2⟩)
        · exact ⟨0, c0, by simp, by simpa using h0⟩
        · exact ⟨i + 1, child, by simpa using h1, by
            rw [← Nat.add_assoc, Nat.add_right_comm]; exact h2⟩
      · rintro ⟨i, child, h1, h2⟩
        cases i with
        | zero =>
          simp at h1
          subst h1
          exact Or.inl (by simpa using h2)
        | succ j =>
          exact Or.inr ⟨j, child, by simpa using h1, by
            rw [← Nat.add_assoc, Nat.add_right_comm] at h2; exact h2⟩

theorem mem_emptied_step {B : Nat} {t : mtrie_t} (h : wf_upto B t = true) (x : pipe_t)
    (q buff : List Nat) :
    q ∈ emptied x buff t ↔
      (q = buff ∧ t.pipes = [x]) ∨
        ∃ c child, child_at c t = some child ∧ q ∈ emptied x (buff ++ [c]) child := by
  rcases wf_cases h with ⟨pipes, min, rfl, h1⟩ | ⟨pipes, min, ch, rfl, h1, h2⟩ |
    ⟨pipes, min, count, T, rfl, h1, h2, h3, h4, h5, h6⟩
  · simp only [emptied, child_at_leaf, mtrie_t.pipes]
    split_ifs with hp <;> simp [hp]
  · simp only [emptied, child_at_single, mtrie_t.pipes, List.mem_append]
    constructor
    · rintro (h0 | h0)
      · left
        split_ifs at h0 with hp
        · exact ⟨by simpa using h0, hp⟩
        · simp at h0
      · exact Or.inr ⟨min, ch, by simp, h0⟩
    · rintro (⟨rfl, hp⟩ | ⟨c, child, hc, hq⟩)
      · left; simp [hp]
      · right
        split_ifs at hc with hcm
        simp at hc
        subst hc hcm
        exact hq
  · simp only [emptied, child_at_table _ _ _ _ _ h2, mtrie_t.pipes, List.mem_append,
      mem_emptied_table]
    constructor
    · rintro (h0 | ⟨i, child, hi, hq⟩)
      · left
        split_ifs at h0 with hp
        · exact ⟨by simpa using h0, hp⟩
        · simp at h0
      · right
        have hlt : i < T.length := by
          by_contra hge
          rw [List.getElem?_eq_none (by omega)] at hi
          simp at hi
        refine ⟨min + i, child, ?_, hq⟩
        have hr : min ≤ min + i ∧ min + i < min + count := by omega
        simp [hr, hi]
    · rintro (⟨rfl, hp⟩ | ⟨c, child, hc, hq⟩)
      · left; simp [hp]
      · right
        split_ifs at hc with hr
        cases hs : T[c - min]? with
        | none => simp [hs] at hc
        | some s =>
          simp [hs] at hc
          subst hc
          refine ⟨c - min, child, hs, ?_⟩
          have : min + (c - min) = c := by omega
          rw [this]
          exact hq

theorem pipes_at_cons_eq_singleton {c : Nat} {p : List Nat} {t : mtrie_t} {x : pipe_t} :
    pipes_at (c :: p) t = [x] ↔ ∃ child, child_at c t = some child ∧ pipes_at p child = [x] := by
  cases hc : child_at c t with
  | none => simp [pipes_at_cons_none hc]
  | some child => simp [pipes_at_cons_some hc]

theorem mem_emptied {B : Nat} (x : pipe_t) :
    ∀ (n : Nat) (t : mtrie_t), need t ≤ n → wf_upto B t = true →
      ∀ buff q : List Nat,
        q ∈ emptied x buff t ↔ ∃ p, q = buff ++ p ∧ pipes_at p t = [x] := by
  intro n
  induction n with
  | zero =>
    intro t hn
    have := need_pos t
    omega
  | succ n ih =>
    intro t hn h buff q
    rw [mem_emptied_step h]
    constructor
    · rintro (⟨rfl, hp⟩ | ⟨c, child, hc, hq⟩)
      · exact ⟨[], by simp, hp⟩
      · have hlt := need_child_lt hc
        obtain ⟨p, rfl, hp⟩ := (ih child (by omega) (wf_child h hc) _ _).1 hq
        exact ⟨c :: p, by simp, pipes_at_cons_eq_singleton.2 ⟨child, hc, hp⟩⟩
    · rintro ⟨p, rfl, hp⟩
      cases p with
      | nil => exact Or.inl ⟨by simp, hp⟩
      | cons c p =>
        obtain ⟨child, hc, hp2⟩ := pipes_at_cons_eq_singleton.1 hp
        have hlt := need_child_lt hc
        exact Or.inr ⟨c, child, hc,
          (ih child (by omega) (wf_child h hc) _ _).2 ⟨p, by simp, hp2⟩⟩

theorem nodup_emptied_table (x : pipe_t) (buff : List Nat) :
    ∀ (T : List (Option mtrie_t)) (b : Nat),
      (∀ (i : Nat) (child : mtrie_t), T[i]? = some (some child) →
        ∀ buff1, (emptied x buff1 child).Nodup) →
      (∀ (i : Nat) (child : mtrie_t), T[i]? = some (some child) →
        ∀ buff1 q, q ∈ emptied x buff1 child → ∃ p, q = buff1 ++ p) →
      (emptied.emptied_table x buff b T).Nodup := by
  intro T
  induction T with
  | nil => intro b _ _; simp [emptied.emptied_table]
  | cons s r ih =>
    intro b hnd hpre
    have hnd2 : ∀ (i : Nat) (child : mtrie_t), r[i]? = some (some child) →
        ∀ buff1, (emptied x buff1 child).Nodup :=
      fun i child hi => hnd (i + 1) child (by simpa using hi)
    have hpre2 : ∀ (i : Nat) (child : mtrie_t), r[i]? = some (some child) → ∀ buff1 q,
        q ∈ emptied x buff1 child → ∃ p, q = buff1 ++ p :=
      fun i child hi => hpre (i + 1) child (by simpa using hi)
    rcases s with _ | c0
    · simp only [emptied.emptied_table]
      exact ih (b + 1) hnd2 hpre2
    · simp only [emptied.emptied_table]
      rw [List.nodup_append]
      refine ⟨hnd 0 c0 (by simp) _, ih (b + 1) hnd2 hpre2, ?_⟩
      intro q hq1 hq2
      obtain ⟨p1, e1⟩ := hpre 0 c0 (by simp) _ q hq1
      obtain ⟨i, child, hi, hq3⟩ := (mem_emptied_table x q buff r (b + 1)).1 hq2
      obtain ⟨p2, e2⟩ := hpre2 i child hi _ q hq3
      rw [e1] at e2
      simp only [List.append_assoc, List.singleton_append, List.append_cancel_left_eq,
        List.cons.injEq] at e2
      omega

theorem nodup_emptied {B : Nat} (x : pipe_t) :
    ∀ (n : Nat) (t : mtrie_t), need t ≤ n → wf_upto B t = true →
      ∀ buff : List Nat, (emptied x buff t).Nodup := by
  intro n
  induction n with
  | zero =>
    intro t hn
    have := need_pos t
    omega
  | succ n ih =>
    intro t hn h buff
    have hlonger : ∀ c child, child_at c t = some child →
        buff ∉ emptied x (buff ++ [c]) child := by
      intro c child hc hmem
      obtain ⟨p, hp, _⟩ := (mem_emptied x (need child) child (le_refl _) (wf_child h hc) _ _).1 hmem
      have := congrArg List.length hp
      simp at this
    rcases wf_cases h with ⟨pipes, min, rfl, h1⟩ | ⟨pipes, min, child, rfl, h1, h2⟩ |
      ⟨pipes, min, count, T, rfl, h1, h2, h3, h4, h5, h6⟩
    · simp only [emptied]
      split_ifs <;> simp
    · have hc : need child ≤ n := by simp only [need] at hn; omega
      simp only [emptied]
      rw [List.nodup_append]
      refine ⟨by split_ifs <;> simp, ih child hc h2 _, ?_⟩
      intro q hq1 hq2
      by_cases hp : pipes = [x]
      · simp only [hp, if_true, List.mem_singleton] at hq1
        subst hq1
        exact hlonger min child (by simp [child_at_single]) hq2
      · simp [hp] at hq1
    · simp only [need] at hn
      have hT : need.need_table T ≤ n := by omega
      have hchild : ∀ (i : Nat) (child : mtrie_t), T[i]? = some (some child) →
          need child ≤ n ∧ wf_upto B child = true :=
        fun i child hi => ⟨le_trans (need_table_get hi) hT, wf_table_get h6 hi⟩
      simp only [emptied]
      rw [List.nodup_append]
      refine ⟨by split_ifs <;> simp, ?_, ?_⟩
      · apply nodup_emptied_table
        · intro i child hi buff1
          exact ih child (hchild i child hi).1 (hchild i child hi).2 buff1
        · intro i child hi buff1 q hq
          obtain ⟨p, hp, _⟩ :=
            (mem_emptied x n child (hchild i child hi).1 (hchild i child hi).2 _ _).1 hq
          exact ⟨p, hp⟩
      · intro q hq1 hq2
        by_cases hp : pipes = [x]
        · simp only [hp, if_true, List.mem_singleton] at hq1
          subst hq1
          obtain ⟨i, child, hi, hq3⟩ := (mem_emptied_table x _ _ T min).1 hq2
          have hlt : i < T.length := by
            by_contra hge
            rw [List.getElem?_eq_none (by omega)] at hi
            simp at hi
          refine hlonger (min + i) child ?_ hq3
          rw [child_at_table _ _ _ _ _ h2]
          have hr : min ≤ min + i ∧ min + i < min + count := by omega
          simp [hr, hi]
        · simp [hp] at hq1

/-! ## The step budget of the sweep -/

theorem rm_table_mono (step step1 : List Nat → mtrie_t → result (mtrie_t × List Nat × List (List Nat)))
    (min count n : Nat)
    (hstep : ∀ b child r, step b child = .ok r → step1 b child = .ok r) :
    ∀ (kk c : Nat) (buff : List Nat) (T : List (Option mtrie_t))
      (r : List (Option mtrie_t) × List Nat × List (List Nat)),
      rm_table step min count n kk c buff T = .ok r →
      rm_table step1 min count n (kk + 1) c buff T = .ok r := by
  intro kk
  induction kk with
  | zero => intro c buff T r h; simp [rm_table] at h
  | succ kk ih =>
    intro c buff T r h
    rw [rm_table] at h ⊢
    by_cases hc : c = count
    · simpa only [hc, if_true] using h
    · simp only [hc, if_false] at h ⊢
      by_cases hin : n < buff.length
      · simp only [hin, if_true] at h ⊢
        cases hs : T[c]? with
        | none => simp [hs] at h
        | some s =>
          rcases s with _ | child
          · simp only [hs] at h ⊢
            exact ih _ _ _ _ h
          · simp only [hs] at h ⊢
            cases h1 : step (buff.set n ((min + c) % 256)) child with
            | error e => simp [h1] at h
            | ok v =>
              rcases v with ⟨child1, buff2, calls⟩
              simp only [h1, hstep _ _ _ h1] at h ⊢
              cases h2 : rm_table step min count n kk ((c + 1) % 256) buff2
                  (T.set c (some child1)) with
              | error e => simp [h2] at h
              | ok w =>
                rcases w with ⟨table1, buff3, calls1⟩
                simp only [h2, ih _ _ _ _ h2] at h ⊢
                exact h
      · simp [hin] at h

theorem rm_helper_pipe_mono (x : pipe_t) :
    ∀ (k : Nat) (buff : List Nat) (n m : Nat) (t : mtrie_t)
      (r : mtrie_t × List Nat × List (List Nat)),
      rm_helper_pipe x k buff n m t = .ok r → rm_helper_pipe x (k + 1) buff n m t = .ok r := by
  intro k
  induction k with
  | zero => intro buff n m t r h; simp [rm_helper_pipe] at h
  | succ k ih =>
    intro buff n m t r h
    rcases t with ⟨pipes, min, count, next⟩
    by_cases h0 : count = 0
    · rcases next with _ | nd | T
      · simpa only [rm_helper_pipe, h0, if_true] using h
      · rcases nd with _ | child <;> simpa only [rm_helper_pipe, h0, if_true] using h
      · simpa only [rm_helper_pipe, h0, if_true] using h
    · by_cases h1 : count = 1
      · rcases next with _ | nd | T
        · simp [rm_helper_pipe, h1] at h
        · rcases nd with _ | child
          · simp [rm_helper_pipe, h1] at h
          · simp only [rm_helper_pipe, h1, one_ne_zero, if_false, if_true] at h ⊢
            generalize (if n ≥ m then realloc buff (n + 256) else buff) = b1 at h ⊢
            generalize (if n ≥ m then n + 256 else m) = m1 at h ⊢
            by_cases hin : n < b1.length
            · simp only [hin, if_true] at h ⊢
              cases hr : rm_helper_pipe x k (b1.set n min) (n + 1) m1 child with
              | error e => simp [hr] at h
              | ok v =>
                rcases v with ⟨child1, buff2, calls1⟩
                simp only [hr, ih _ _ _ _ _ hr] at h ⊢
                exact h
            · simp [hin] at h
        · simp [rm_helper_pipe, h1] at h
      · rcases next with _ | nd | T
        · simp [rm_helper_pipe, h0, h1] at h
        · rcases nd with _ | child <;> simp [rm_helper_pipe, h0, h1] at h
        · simp only [rm_helper_pipe, h0, h1, if_false] at h ⊢
          generalize (if n ≥ m then realloc buff (n + 256) else buff) = b1 at h ⊢
          generalize (if n ≥ m then n + 256 else m) = m1 at h ⊢
          cases hr : rm_table (fun b child => rm_helper_pipe x k b (n + 1) m1 child)
              min count n k 0 b1 T with
          | error e => simp [hr] at h
          | ok v =>
            rcases v with ⟨t1, buff2, calls1⟩
            have := rm_table_mono _
              (fun b child => rm_helper_pipe x (k + 1) b (n + 1) m1 child) min count n
              (fun b child r hh => ih _ _ _ _ _ hh) _ _ _ _ _ hr
            simp only [hr, this] at h ⊢
            exact h

theorem rm_helper_pipe_mono_le (x : pipe_t) {k k1 : Nat} (hk : k ≤ k1) (buff : List Nat)
    (n m : Nat) (t : mtrie_t) (r : mtrie_t × List Nat × List (List Nat))
    (h : rm_helper_pipe x k buff n m t = .ok r) : rm_helper_pipe x k1 buff n m t = .ok r := by
  induction hk with
  | refl => exact h
  | step _ ih => exact rm_helper_pipe_mono x _ _ _ _ _ _ ih

theorem rm_pipe_unique (x : pipe_t) (t : mtrie_t) (h : wf_upto 255 t = true) (fuel : Nat)
    (r : mtrie_t × List (List Nat)) (hr : rm_pipe fuel x t = .ok r) :
    r = (swept x t, emptied x [] t) := by
  unfold rm_pipe at hr
  cases h1 : rm_helper_pipe x fuel [] 0 0 t with
  | error e => simp [h1] at hr
  | ok v =>
    rcases v with ⟨t1, buff1, calls⟩
    simp only [h1, Except.ok.injEq] at hr
    have h2 := rm_helper_pipe_mono_le x (le_max_left fuel (need t)) _ _ _ _ _ h1
    obtain ⟨buff2, e1, _, _⟩ := rm_helper_pipe_eq x (max fuel (need t)) [] 0 0 t h
      (le_max_right _ _) (le_refl _) (le_refl _)
    rw [e1] at h2
    simp only [List.take_nil, Except.ok.injEq, Prod.mk.injEq] at h2
    rw [← hr, h2.1, h2.2.2]

theorem rm_table_no_exit (step : List Nat → mtrie_t → result (mtrie_t × List Nat × List (List Nat)))
    (min count n : Nat) (h256 : 256 ≤ count) :
    ∀ (kk c : Nat) (buff : List Nat) (T : List (Option mtrie_t))
      (r : List (Option mtrie_t) × List Nat × List (List Nat)), c < 256 →
      rm_table step min count n kk c buff T ≠ .ok r := by
  intro kk
  induction kk with
  | zero => intro c buff T r _ h; simp [rm_table] at h
  | succ kk ih =>
    intro c buff T r hc h
    have hne : c ≠ count := by omega
    have hlt : (c + 1) % 256 < 256 := Nat.mod_lt _ (by omega)
    rw [rm_table] at h
    simp only [hne, if_false] at h
    by_cases hin : n < buff.length
    · simp only [hin, if_true] at h
      cases hs : T[c]? with
      | none => simp [hs] at h
      | some s =>
        rcases s with _ | child
        · simp only [hs] at h
          exact ih _ _ _ _ hlt h
        · simp only [hs] at h
          cases h1 : step (buff.set n ((min + c) % 256)) child with
          | error e => simp [h1] at h
          | ok v =>
            rcases v with ⟨child1, buff2, calls⟩
            simp only [h1] at h
            cases h2 : rm_table step min count n kk ((c + 1) % 256) buff2
                (T.set c (some child1)) with
            | error e => simp [h2] at h
            | ok w => exact ih _ _ _ _ hlt h2
    · simp [hin] at h

theorem rm_helper_pipe_no_exit (x : pipe_t) (pipes : List pipe_t) (min count : Nat)
    (T : List (Option mtrie_t)) (h256 : 256 ≤ count) (k : Nat) (buff : List Nat) (n m : Nat)
    (r : mtrie_t × List Nat × List (List Nat)) :
    rm_helper_pipe x k buff n m (.mk pipes min count (.table T)) ≠ .ok r := by
  intro h
  cases k with
  | zero => simp [rm_helper_pipe] at h
  | succ k =>
    have h0 : ¬ count = 0 := by omega
    have h1 : ¬ count = 1 := by omega
    simp only [rm_helper_pipe, h0, h1, if_false] at h
    generalize (if n ≥ m then realloc buff (n + 256) else buff) = b1 at h
    generalize (if n ≥ m then n + 256 else m) = m1 at h
    cases hr : rm_table (fun b child => rm_helper_pipe x k b (n + 1) m1 child)
        min count n k 0 b1 T with
    | error e => simp [hr] at h
    | ok v => exact rm_table_no_exit _ min count n h256 _ _ _ _ _ (by omega) hr

theorem rm_table_visits (step : List Nat → mtrie_t → result (mtrie_t × List Nat × List (List Nat)))
    (min count n : Nat) (hc : count ≤ 255) :
    ∀ (kk c : Nat) (buff : List Nat) (T : List (Option mtrie_t))
      (r : List (Option mtrie_t) × List Nat × List (List Nat)), c ≤ count →
      T.length = count → rm_table step min count n kk c buff T = .ok r →
      ∀ (i : Nat) (child : mtrie_t), c ≤ i → T[i]? = some (some child) →
        ∃ b r1, step b child = .ok r1 := by
  intro kk
  induction kk with
  | zero => intro c buff T r _ _ h; simp [rm_table] at h
  | succ kk ih =>
    intro c buff T r hcc hlen h i child hi hget
    rw [rm_table] at h
    by_cases hcount : c = count
    · have : T[i]? = none := List.getElem?_eq_none (by omega)
      rw [this] at hget
      simp at hget
    · simp only [hcount, if_false] at h
      have hmod : (c + 1) % 256 = c + 1 := Nat.mod_eq_of_lt (by omega)
      by_cases hin : n < buff.length
      · simp only [hin, if_true, hmod] at h
        cases hs : T[c]? with
        | none => simp [hs] at h
        | some s =>
          rcases s with _ | child0
          · simp only [hs] at h
            have hne : c ≠ i := by
              intro e
              rw [← e, hs] at hget
              simp at hget
            exact ih _ _ _ _ (by omega) hlen h i child (by omega) hget
          · simp only [hs] at h
            cases h1 : step (buff.set n ((min + c) % 256)) child0 with
            | error e => simp [h1] at h
            | ok v =>
              rcases v with ⟨child1, buff2, calls⟩
              simp only [h1] at h
              by_cases hci : c = i
              · rw [← hci, hs] at hget
                simp only [Option.some.injEq] at hget
                subst hget
                exact ⟨_, _, h1⟩
              · cases h2 : rm_table step min count n kk (c + 1) buff2
                    (T.set c (some child1)) with
                | error e => simp [h2] at h
                | ok w =>
                  refine ih _ _ _ _ (by omega) (by simpa using hlen) h2 i child (by omega) ?_
                  rw [List.getElem?_set_ne hci]
                  exact hget
      · simp [hin] at h

theorem wf_table_of_forall {B : Nat} :
    ∀ T : List (Option mtrie_t),
      (∀ (i : Nat) (child : mtrie_t), T[i]? = some (some child) → wf_upto B child = true) →
      wf_upto.wf_table B T = true := by
  intro T
  induction T with
  | nil => intro _; rfl
  | cons s r ih =>
    intro h
    have hr : wf_upto.wf_table B r = true :=
      ih (fun i child hi => h (i + 1) child (by simpa using hi))
    rcases s with _ | c0
    · simpa only [wf_upto.wf_table] using hr
    · simp only [wf_upto.wf_table, Bool.and_eq_true]
      exact ⟨h 0 c0 (by simp), hr⟩

theorem narrow_of_returns (x : pipe_t) :
    ∀ (k : Nat) (buff : List Nat) (n m : Nat) (t : mtrie_t)
      (r : mtrie_t × List Nat × List (List Nat)), wf t = true →
      rm_helper_pipe x k buff n m t = .ok r → wf_upto 255 t = true := by
  intro k
  induction k with
  | zero => intro buff n m t r _ h; simp [rm_helper_pipe] at h
  | succ k ih =>
    intro buff n m t r hw h
    rcases wf_cases hw with ⟨pipes, min, rfl, h1⟩ | ⟨pipes, min, child, rfl, h1, h2⟩ |
      ⟨pipes, min, count, T, rfl, h1, h2, h3, h4, h5, h6⟩
    · simp [wf_upto, h1]
    · simp only [rm_helper_pipe, one_ne_zero, if_false, if_true] at h
      generalize (if n ≥ m then realloc buff (n + 256) else buff) = b1 at h
      generalize (if n ≥ m then n + 256 else m) = m1 at h
      by_cases hin : n < b1.length
      · simp only [hin, if_true] at h
        cases hr : rm_helper_pipe x k (b1.set n min) (n + 1) m1 child with
        | error e => simp [hr] at h
        | ok v =>
          have := ih _ _ _ _ _ h2 hr
          simp [wf_upto, h1, this]
      · simp [hin] at h
    · have hn : count ≤ 255 := by
        by_contra hgt
        exact rm_helper_pipe_no_exit x pipes min count T (by omega) _ _ _ _ _ h
      have h0 : ¬ count = 0 := by omega
      have h01 : ¬ count = 1 := by omega
      simp only [rm_helper_pipe, h0, h01, if_false] at h
      generalize (if n ≥ m then realloc buff (n + 256) else buff) = b1 at h
      generalize (if n ≥ m then n + 256 else m) = m1 at h
      cases hr : rm_table (fun b child => rm_helper_pipe x k b (n + 1) m1 child)
          min count n k 0 b1 T with
      | error e => simp [hr] at h
      | ok v =>
        have hvis := rm_table_visits _ min count n hn _ _ _ _ _ (Nat.zero_le _) h5 hr
        have hT : wf_upto.wf_table 255 T = true := by
          apply wf_table_of_forall
          intro i child hi
          obtain ⟨b, r1, hb⟩ := hvis i child (Nat.zero_le _) hi
          exact ih _ _ _ _ _ (wf_table_get h6 hi) hb
        simp [wf_upto, h1, h2, hn, h4, h5, hT]

theorem rm_pipe_result (x : pipe_t) (t : mtrie_t) (h : wf t = true) (fuel : Nat)
    (r : mtrie_t × List (List Nat)) (hr : rm_pipe fuel x t = .ok r) :
    wf_upto 255 t = true ∧ r = (swept x t, emptied x [] t) := by
  have hn : wf_upto 255 t = true := by
    unfold rm_pipe at hr
    cases h1 : rm_helper_pipe x fuel [] 0 0 t with
    | error e => simp [h1] at hr
    | ok v => exact narrow_of_returns x _ _ _ _ _ _ h h1
  exact ⟨hn, rm_pipe_unique x t hn fuel r hr⟩

/-! ## The claims about the sweep -/

/-- C7, the pipe sweep removes everywhere.  For every trie state `t` and pipe
`x`: whenever `rm (x, callback)` returns, in the trie `t1` it leaves no node
has `x` in its pipe set, every other pipe is in exactly the same nodes as
before, every node has the `min`, the `count` and the children it had, and
`match` never reports `x`.  The call returns, with every budget of at least
`need t` steps, when no table of `t` has 256 slots (so on every trie left by
`add` and `rm` calls). -/
theorem rm_pipe_removes_everywhere (t : mtrie_t) (x : pipe_t) (h : wf t = true) :
    (wf_upto 255 t = true → ∃ r, ∀ fuel, need t ≤ fuel → rm_pipe fuel x t = .ok r) ∧
    ∀ fuel t1 calls, rm_pipe fuel x t = .ok (t1, calls) →
      (∀ p n1, node_at p t1 = some n1 → x ∉ n1.pipes) ∧
      (∀ p y, y ≠ x → (y ∈ pipes_at p t1 ↔ y ∈ pipes_at p t)) ∧
      (∀ p, (node_at p t1).map (fun n => (n.min, n.count)) =
        (node_at p t).map (fun n => (n.min, n.count))) ∧
      (∀ data, ∃ total reported,
        match_ data true 0 t1 = .ok (total, reported) ∧ x ∉ reported) := by
  refine ⟨fun hn => ⟨_, fun fuel hf => rm_pipe_eq x t hn fuel hf⟩, ?_⟩
  intro fuel t1 calls hr
  obtain ⟨_, he⟩ := rm_pipe_result x t h fuel _ hr
  simp only [Prod.mk.injEq] at he
  obtain ⟨rfl, _⟩ := he
  refine ⟨?_, ?_, ?_, ?_⟩
  · intro p n1 hn1 hx
    rw [node_at_swept] at hn1
    cases hn : node_at p t with
    | none => simp [hn] at hn1
    | some n =>
      simp only [hn, Option.map_some', Option.some.injEq] at hn1
      subst hn1
      rw [swept_pipes, mem_pipes_erase] at hx
      exact hx.2 rfl
  · intro p y hy
    rw [pipes_at_swept, mem_pipes_erase]
    exact ⟨fun hh => hh.1, fun hh => ⟨hh, hy⟩⟩
  · intro p
    rw [node_at_swept]
    cases node_at p t with
    | none => rfl
    | some n => simp [swept_min_count x n]
  · intro data
    have hw : wf_upto 256 (swept x t) = true := wf_swept x (need t) t (le_refl _) h
    refine ⟨_, _, match_zero hw data true, ?_⟩
    simp only [if_true]
    intro hx
    obtain ⟨q, _, hq⟩ := mem_subscribers.1 hx
    rw [pipes_at_swept, mem_pipes_erase] at hq
    exact hq.2 rfl

/-- C7 on a node with a table: pipe 5 is subscribed at "", at the bytes 10 and 12
and below the byte 12, pipe 6 at the byte 12. -/
theorem rm_pipe_removes_everywhere_witness :
    wf (fork [5] 10 [some (leaf [5]), none, some (single [5, 6] 0 (leaf [5]))]) = true ∧
    ((wf_upto 255 (fork [5] 10 [some (leaf [5]), none, some (single [5, 6] 0 (leaf [5]))]) =
        true →
      ∃ r, ∀ fuel,
        need (fork [5] 10 [some (leaf [5]), none, some (single [5, 6] 0 (leaf [5]))]) ≤ fuel →
        rm_pipe fuel 5 (fork [5] 10 [some (leaf [5]), none, some (single [5, 6] 0 (leaf [5]))]) =
          .ok r) ∧
    ∀ fuel t1 calls,
      rm_pipe fuel 5 (fork [5] 10 [some (leaf [5]), none, some (single [5, 6] 0 (leaf [5]))]) =
        .ok (t1, calls) →
      (∀ p n1, node_at p t1 = some n1 → (5 : pipe_t) ∉ n1.pipes) ∧
      (∀ p y, y ≠ 5 → (y ∈ pipes_at p t1 ↔ y ∈ pipes_at p
        (fork [5] 10 [some (leaf [5]), none, some (single [5, 6] 0 (leaf [5]))]))) ∧
      (∀ p, (node_at p t1).map (fun n => (n.min, n.count)) =
        (node_at p (fork [5] 10 [some (leaf [5]), none,
          some (single [5, 6] 0 (leaf [5]))])).map (fun n => (n.min, n.count))) ∧
      (∀ data, ∃ total reported,
        match_ data true 0 t1 = .ok (total, reported) ∧ (5 : pipe_t) ∉ reported)) :=
  ⟨by decide, rm_pipe_removes_everywhere
    (fork [5] 10 [some (leaf [5]), none, some (single [5, 6] 0 (leaf [5]))]) 5 (by decide)⟩

/-- C8, the callbacks of the pipe sweep.  For every trie state `t` and pipe
`x`: whenever `rm (x, callback)` returns, the byte strings `calls` it invoked
the callback on, each the first `buffsize_` bytes of the buffer at its
invocation, hold no byte string twice, and a byte string is among them if and
only if it is the path from the root to a node whose pipe set was exactly `x`
before the call (the empty string for the root).  The call returns, with every
budget of at least `need t` steps, when no table of `t` has 256 slots. -/
theorem rm_pipe_callbacks (t : mtrie_t) (x : pipe_t) (h : wf t = true) :
    (wf_upto 255 t = true → ∃ r, ∀ fuel, need t ≤ fuel → rm_pipe fuel x t = .ok r) ∧
    ∀ fuel t1 calls, rm_pipe fuel x t = .ok (t1, calls) →
      calls.Nodup ∧ ∀ q, q ∈ calls ↔ ∃ n, node_at q t = some n ∧ n.pipes = [x] := by
  refine ⟨fun hn => ⟨_, fun fuel hf => rm_pipe_eq x t hn fuel hf⟩, ?_⟩
  intro fuel t1 calls hr
  obtain ⟨_, he⟩ := rm_pipe_result x t h fuel _ hr
  simp only [Prod.mk.injEq] at he
  obtain ⟨_, rfl⟩ := he
  refine ⟨nodup_emptied x (need t) t (le_refl _) h [], ?_⟩
  intro q
  rw [mem_emptied x (need t) t (le_refl _) h [] q]
  simp only [List.nil_append, exists_eq_left']
  unfold pipes_at
  cases node_at q t with
  | none => simp
  | some n => simp

/-- C8 on the same node: the callbacks are for "", for the byte 10 and for the
bytes 12, 0. -/
theorem rm_pipe_callbacks_witness :
    wf (fork [5] 10 [some (leaf [5]), none, some (single [5, 6] 0 (leaf [5]))]) = true ∧
    ((wf_upto 255 (fork [5] 10 [some (leaf [5]), none, some (single [5, 6] 0 (leaf [5]))]) =
        true →
      ∃ r, ∀ fuel,
        need (fork [5] 10 [some (leaf [5]), none, some (single [5, 6] 0 (leaf [5]))]) ≤ fuel →
        rm_pipe fuel 5 (fork [5] 10 [some (leaf [5]), none, some (single [5, 6] 0 (leaf [5]))]) =
          .ok r) ∧
    ∀ fuel t1 calls,
      rm_pipe fuel 5 (fork [5] 10 [some (leaf [5]), none, some (single [5, 6] 0 (leaf [5]))]) =
        .ok (t1, calls) →
      calls.Nodup ∧
      ∀ q, q ∈ calls ↔ ∃ n, node_at q (fork [5] 10 [some (leaf [5]), none,
        some (single [5, 6] 0 (leaf [5]))]) = some n ∧ n.pipes = [5]) :=
  ⟨by decide, rm_pipe_callbacks
    (fork [5] 10 [some (leaf [5]), none, some (single [5, 6] 0 (leaf [5]))]) 5 (by decide)⟩

/-! ## The text around the first separator -/

theorem find_spec (str : List Char) (s : List Char) :
    (find str s = none → ∀ b a : List Char, s ≠ b ++ str ++ a) ∧
    (∀ pos, find str s = some pos →
      s = s.take pos ++ str ++ s.drop (pos + str.length) ∧ pos ≤ s.length ∧
      ∀ b a : List Char, s = b ++ str ++ a → pos ≤ b.length) := by
  induction s with
  | nil =>
    constructor
    · intro h b a hs
      simp only [find] at h
      split_ifs at h with h0
      have := congrArg List.length hs
      simp at this
      exact h0 (List.length_eq_zero.mp (by omega))
    · intro pos h
      simp only [find] at h
      split_ifs at h with h0
      cases h
      subst h0
      simp
  | cons c t ih =>
    simp only [find]
    by_cases hp : str.isPrefixOf (c :: t) = true
    · simp only [hp, if_true]
      constructor
      · intro h; cases h
      · intro pos h
        cases h
        obtain ⟨r, hr⟩ := List.isPrefixOf_iff_prefix.mp hp
        refine ⟨?_, Nat.zero_le _, fun _ _ _ => Nat.zero_le _⟩
        simp only [List.take_zero, List.nil_append, Nat.zero_add]
        rw [← hr, List.drop_left]
    · have hnp : ∀ a : List Char, c :: t ≠ str ++ a := by
        intro a ha
        exact hp (List.isPrefixOf_iff_prefix.mpr ⟨a, ha.symm⟩)
      simp only [hp, if_false, Bool.false_eq_true]
      constructor
      · intro h b a hs
        have h1 : find str t = none := by
          cases hf : find str t with
          | none => rfl
          | some p => rw [hf] at h; cases h
        cases b with
        | nil => exact hnp a (by simpa using hs)
        | cons b0 b1 =>
          simp only [List.cons_append, List.cons.injEq] at hs
          exact ih.1 h1 b1 a (by simpa using hs.2)
      · intro pos h
        cases hf : find str t with
        | none => rw [hf] at h; cases h
        | some p =>
          rw [hf] at h
          simp only [Option.map_some', Option.some.injEq] at h
          subst h
          obtain ⟨h1, h2, h3⟩ := ih.2 p hf
          refine ⟨?_, by simp only [List.length_cons]; omega, ?_⟩
          · simp only [List.take_succ_cons, List.cons_append, List.cons.injEq, true_and]
            have : p + 1 + str.length = (p + str.length) + 1 := by omega
            rw [this, List.drop_succ_cons]
            simpa using h1
          · intro b a hs
            cases b with
            | nil => exact absurd (by simpa using hs) (hnp a)
            | cons b0 b1 =>
              simp only [List.cons_append, List.cons.injEq] at hs
              have := h3 b1 a (by simpa using hs.2)
              simp only [List.length_cons]
              omega

theorem splits_at_first_unique (uri b a b1 a1 : List Char)
    (h : splits_at_first uri b a) (h1 : splits_at_first uri b1 a1) : b = b1 ∧ a = a1 := by
  have hl : b.length = b1.length :=
    Nat.le_antisymm (h.2 b1 a1 h1.1) (h1.2 b a h.1)
  have he : b ++ ("://".toList ++ a) = b1 ++ ("://".toList ++ a1) := by
    rw [← List.append_assoc, ← List.append_assoc, ← h.1, ← h1.1]
  have := List.append_inj he hl
  exact ⟨this.1, List.append_cancel_left this.2⟩

theorem splits_at_first_of_find (uri : List Char) (pos : Nat)
    (h : find "://".toList uri = some pos) :
    splits_at_first uri (uri.take pos) (uri.drop (pos + 3)) := by
  obtain ⟨h1, h2, h3⟩ := (find_spec "://".toList uri).2 pos h
  refine ⟨h1, ?_⟩
  intro b a hs
  have := h3 b a hs
  simp only [List.length_take]
  omega

/-! ## The claims about the address of an endpoint -/

/-- C11: for every string `uri`, `parse_uri` returns 0 or -1; it returns -1,
and then with `errno` set to `EINVAL`, exactly when `uri` contains no `"://"`,
or the text before its first `"://"` is empty, or the text after it is empty;
when it returns 0 it leaves `errno` alone, `protocol_` is the text before the
first `"://"`, `address_` is everything after it, and
`protocol_ ++ "://" ++ address_` is `uri`. -/
theorem parse_uri_first_separator (uri protocol_ address_ : List Char) (s : socket_base_t) :
    ∃ rc protocol address s1,
      socket_base_t.parse_uri (some uri) protocol_ address_ s =
        .ok (rc, protocol, address, s1) ∧
      ((rc = 0 ∧ s1 = s) ∨ (rc = -1 ∧ s1 = { s with errno := .EINVAL })) ∧
      (rc = -1 ↔ (¬ "://".toList <:+: uri) ∨
        ∃ b a, splits_at_first uri b a ∧ (b = [] ∨ a = [])) ∧
      (rc = 0 → splits_at_first uri protocol address ∧
        protocol ++ "://".toList ++ address = uri) := by
  cases hf : find "://".toList uri with
  | none =>
    refine ⟨-1, protocol_, address_, { s with errno := .EINVAL }, ?_, Or.inr ⟨rfl, rfl⟩, ?_, ?_⟩
    · simp only [socket_base_t.parse_uri, hf]
    · refine ⟨fun _ => Or.inl ?_, fun _ => rfl⟩
      rintro ⟨b, a, hba⟩
      exact (find_spec "://".toList uri).1 hf b a hba.symm
    · intro h; cases h
  | some pos =>
    have hsp := splits_at_first_of_find uri pos hf
    by_cases he : (uri.take pos).isEmpty = true ∨ (uri.drop (pos + 3)).isEmpty = true
    · refine ⟨-1, uri.take pos, uri.drop (pos + 3), { s with errno := .EINVAL }, ?_,
        Or.inr ⟨rfl, rfl⟩, ?_, ?_⟩
      · simp only [socket_base_t.parse_uri, hf, he, if_true]
      · refine ⟨fun _ => Or.inr ⟨_, _, hsp, ?_⟩, fun _ => rfl⟩
        simpa only [List.isEmpty_iff] using he
      · intro h; cases h
    · refine ⟨0, uri.take pos, uri.drop (pos + 3), s, ?_, Or.inl ⟨rfl, rfl⟩, ?_, ?_⟩
      · simp only [socket_base_t.parse_uri, hf, he, if_false]
      · refine ⟨fun h => absurd h (by decide), ?_⟩
        rintro (h | ⟨b, a, hba, hem⟩)
        · exact absurd ⟨_, _, hsp.1.symm⟩ h
        · obtain ⟨hb, ha⟩ := splits_at_first_unique uri _ _ _ _ hba hsp
          refine absurd ?_ he
          simp only [List.isEmpty_iff]
          rcases hem with h | h
          · exact Or.inl (hb ▸ h)
          · exact Or.inr (ha ▸ h)
      · intro _
        exact ⟨hsp, hsp.1.symm⟩

/-- C12: `check_protocol`, for every protocol string, socket type and build
(OpenPGM and Windows or OpenVMS as parameters): it fails with
`EPROTONOSUPPORT` exactly when the protocol is not one of inproc, ipc, tcp,
pgm, epgm, sys, or is pgm or epgm without OpenPGM, or is ipc on Windows or
OpenVMS; otherwise it fails with `ENOCOMPATPROTO` exactly when the protocol
is pgm or epgm and the socket type is none of PUB, SUB, XPUB, XSUB; otherwise
it returns 0 and leaves `errno` alone. -/
theorem check_protocol_table (cfg : config_t) (protocol_ : List Char) (s : socket_base_t) :
    (socket_base_t.check_protocol cfg protocol_ s = (-1, { s with errno := .EPROTONOSUPPORT }) ↔
      unsupported cfg protocol_) ∧
    (socket_base_t.check_protocol cfg protocol_ s = (-1, { s with errno := .ENOCOMPATPROTO }) ↔
      ¬ unsupported cfg protocol_ ∧ incompatible protocol_ s.options.type) ∧
    (socket_base_t.check_protocol cfg protocol_ s = (0, s) ↔
      ¬ unsupported cfg protocol_ ∧ ¬ incompatible protocol_ s.options.type) := by
  have hd1 : ∀ e : errno_t, ((-1 : Int), { s with errno := e }) ≠ ((0 : Int), s) := by
    intro e h
    have := congrArg Prod.fst h
    simp at this
  have hd2 : ((-1 : Int), { s with errno := errno_t.EPROTONOSUPPORT }) ≠
      ((-1 : Int), { s with errno := errno_t.ENOCOMPATPROTO }) := by
    intro h
    have := congrArg (fun p : Int × socket_base_t => p.2.errno) h
    simp at this
  have hu : unsupported cfg protocol_ ↔
      ((protocol_ ≠ "inproc".toList ∧ protocol_ ≠ "ipc".toList ∧ protocol_ ≠ "tcp".toList ∧
        protocol_ ≠ "pgm".toList ∧ protocol_ ≠ "epgm".toList ∧ protocol_ ≠ "sys".toList) ∨
      ((protocol_ = "pgm".toList ∨ protocol_ = "epgm".toList) ∧ cfg.ZMQ_HAVE_OPENPGM = false) ∨
      (protocol_ = "ipc".toList ∧ (cfg.ZMQ_HAVE_WINDOWS = true ∨ cfg.ZMQ_HAVE_OPENVMS = true))) := by
    simp only [unsupported, List.mem_cons, List.mem_singleton, List.not_mem_nil, or_false,
      not_or, ne_eq]
  have hi : incompatible protocol_ s.options.type ↔
      ((protocol_ = "pgm".toList ∨ protocol_ = "epgm".toList) ∧
      s.options.type ≠ .ZMQ_PUB ∧ s.options.type ≠ .ZMQ_SUB ∧
      s.options.type ≠ .ZMQ_XPUB ∧ s.options.type ≠ .ZMQ_XSUB) := by
    simp only [incompatible, List.mem_cons, List.mem_singleton, List.not_mem_nil, or_false,
      not_or, ne_eq]
  simp only [socket_base_t.check_protocol]
  split_ifs with h1 h2 h3 h4
  · have hU : unsupported cfg protocol_ := hu.mpr (Or.inl h1)
    exact ⟨iff_of_true rfl hU, iff_of_false hd2 (fun h => h.1 hU),
      iff_of_false (hd1 _) (fun h => h.1 hU)⟩
  · have hU : unsupported cfg protocol_ := hu.mpr (Or.inr (Or.inl ⟨h2.2, h2.1⟩))
    exact ⟨iff_of_true rfl hU, iff_of_false hd2 (fun h => h.1 hU),
      iff_of_false (hd1 _) (fun h => h.1 hU)⟩
  · have hU : unsupported cfg protocol_ := hu.mpr (Or.inr (Or.inr ⟨h3.2, h3.1⟩))
    exact ⟨iff_of_true rfl hU, iff_of_false hd2 (fun h => h.1 hU),
      iff_of_false (hd1 _) (fun h => h.1 hU)⟩
  · have hU : ¬ unsupported cfg protocol_ := by
      rw [hu]
      rintro (u | u | u)
      · exact h1 u
      · exact h2 ⟨u.2, u.1⟩
      · exact h3 ⟨u.2, u.1⟩
    have hI : incompatible protocol_ s.options.type := hi.mpr h4
    exact ⟨iff_of_false hd2.symm hU, iff_of_true rfl ⟨hU, hI⟩,
      iff_of_false (hd1 _) (fun h => h.2 hI)⟩
  · have hU : ¬ unsupported cfg protocol_ := by
      rw [hu]
      rintro (u | u | u)
      · exact h1 u
      · exact h2 ⟨u.2, u.1⟩
      · exact h3 ⟨u.2, u.1⟩
    have hI : ¬ incompatible protocol_ s.options.type := fun h => h4 (hi.mp h)
    exact ⟨iff_of_false (hd1 _).symm hU, iff_of_false (hd1 _).symm (fun h => hI h.2),
      iff_of_true rfl ⟨hU, hI⟩⟩

theorem parse_uri_samples :
    socket_base_t.parse_uri (some "tcp://127.0.0.1:5555".toList) [] []
        (socket_base_t.init (sample_options .ZMQ_PUB) (.other 0)) =
      .ok (0, "tcp".toList, "127.0.0.1:5555".toList,
        socket_base_t.init (sample_options .ZMQ_PUB) (.other 0)) ∧
    socket_base_t.parse_uri (some "a:////b".toList) [] []
        (socket_base_t.init (sample_options .ZMQ_PUB) (.other 0)) =
      .ok (0, "a".toList, "//b".toList,
        socket_base_t.init (sample_options .ZMQ_PUB) (.other 0)) ∧
    socket_base_t.parse_uri (some "tcp:/127.0.0.1".toList) [] []
        (socket_base_t.init (sample_options .ZMQ_PUB) (.other 0)) =
      .ok (-1, [], [], socket_base_t.init (sample_options .ZMQ_PUB) .EINVAL) ∧
    socket_base_t.parse_uri (some "://x".toList) [] []
        (socket_base_t.init (sample_options .ZMQ_PUB) (.other 0)) =
      .ok (-1, [], "x".toList, socket_base_t.init (sample_options .ZMQ_PUB) .EINVAL) ∧
    socket_base_t.parse_uri (some "tcp://".toList) [] []
        (socket_base_t.init (sample_options .ZMQ_PUB) (.other 0)) =
      .ok (-1, "tcp".toList, [], socket_base_t.init (sample_options .ZMQ_PUB) .EINVAL) ∧
    socket_base_t.parse_uri none [] []
        (socket_base_t.init (sample_options .ZMQ_PUB) (.other 0)) = .error .assertion :=
  ⟨rfl, rfl, rfl, rfl, rfl, rfl⟩

theorem check_protocol_samples :
    (socket_base_t.check_protocol sample_config "pgm".toList
      (socket_base_t.init (sample_options .ZMQ_REQ) (.other 0))).1 = -1 ∧
    (socket_base_t.check_protocol sample_config "pgm".toList
      (socket_base_t.init (sample_options .ZMQ_REQ) (.other 0))).2.errno = .ENOCOMPATPROTO ∧
    socket_base_t.check_protocol sample_config "epgm".toList
      (socket_base_t.init (sample_options .ZMQ_XSUB) (.other 0)) =
      (0, socket_base_t.init (sample_options .ZMQ_XSUB) (.other 0)) ∧
    (socket_base_t.check_protocol { sample_config with ZMQ_HAVE_OPENPGM := false } "epgm".toList
      (socket_base_t.init (sample_options .ZMQ_XSUB) (.other 0))).2.errno = .EPROTONOSUPPORT ∧
    (socket_base_t.check_protocol { sample_config with ZMQ_HAVE_WINDOWS := true } "ipc".toList
      (socket_base_t.init (sample_options .ZMQ_XSUB) (.other 0))).2.errno = .EPROTONOSUPPORT ∧
    (socket_base_t.check_protocol sample_config "udp".toList
      (socket_base_t.init (sample_options .ZMQ_XSUB) (.other 0))).2.errno = .EPROTONOSUPPORT :=
  ⟨by decide, by decide, by decide, by decide, by decide, by decide⟩

/-! ## A terminated context -/

theorem setsockopt_terminated (cfg : config_t) (env : env_t) (cls : class_t) (option_ : Int)
    (optval_ : List Nat) (s : socket_base_t) (h : s.ctx_terminated = true) :
    socket_base_t.setsockopt cfg env cls option_ optval_ s =
      .ok (-1, { s with errno := .ETERM }) := by
  simp only [socket_base_t.setsockopt, h, if_true]

theorem getsockopt_terminated (env : env_t) (option_ : Int) (optvallen_ : Nat)
    (s : socket_base_t) (h : s.ctx_terminated = true) :
    socket_base_t.getsockopt env option_ optvallen_ s = (-1, [], { s with errno := .ETERM }) := by
  simp only [socket_base_t.getsockopt, h, if_true]

theorem bind_terminated (cfg : config_t) (env : env_t) (addr_ : Option (List Char))
    (s : socket_base_t) (h : s.ctx_terminated = true) :
    socket_base_t.bind cfg env addr_ s = .ok (-1, { s with errno := .ETERM }) := by
  simp only [socket_base_t.bind, h, if_true]

theorem connect_terminated (cfg : config_t) (env : env_t) (addr_ : Option (List Char))
    (s : socket_base_t) (h : s.ctx_terminated = true) :
    socket_base_t.connect cfg env addr_ s = .ok (-1, { s with errno := .ETERM }) := by
  simp only [socket_base_t.connect, h, if_true]

theorem send_terminated (cfg : config_t) (env : env_t) (cls : class_t) (fuel : Nat)
    (msg_ : msg_t) (flags_ : Nat) (s : socket_base_t) (h : s.ctx_terminated = true) :
    socket_base_t.send cfg env cls fuel msg_ flags_ s =
      .ok (-1, msg_, { s with errno := .ETERM }) := by
  simp only [socket_base_t.send, h, if_true]

theorem recv_terminated (cfg : config_t) (env : env_t) (fuel : Nat)
    (msg_ : msg_t) (flags_ : Nat) (s : socket_base_t) (h : s.ctx_terminated = true) :
    socket_base_t.recv cfg env fuel msg_ flags_ s =
      .ok (-1, msg_, { s with errno := .ETERM }) := by
  simp only [socket_base_t.recv, h, if_true]

theorem perform_terminated (cfg : config_t) (env : env_t) (cls : class_t) (fuel : Nat)
    (c : api_t) (s : socket_base_t) (h : s.ctx_terminated = true) :
    perform cfg env cls fuel c s = .ok (-1, { s with errno := .ETERM }) := by
  cases c with
  | setsockopt o v => exact setsockopt_terminated cfg env cls o v s h
  | getsockopt o n => simp only [perform, getsockopt_terminated env o n s h]
  | bind a => exact bind_terminated cfg env a s h
  | connect a => exact connect_terminated cfg env a s h
  | send m f => simp only [perform, send_terminated cfg env cls fuel m f s h]
  | recv m f => simp only [perform, recv_terminated cfg env fuel m f s h]

theorem perform_all_terminated (cfg : config_t) (env : env_t) (cls : class_t) (fuel : Nat)
    (cs : List api_t) (c : api_t) (s : socket_base_t) (h : s.ctx_terminated = true) :
    perform_all cfg env cls fuel (c :: cs) s =
      .ok (List.replicate (cs.length + 1) (-1), { s with errno := .ETERM }) := by
  induction cs generalizing c s with
  | nil =>
    simp only [perform_all, perform_terminated cfg env cls fuel c s h]
    rfl
  | cons d ds ih =>
    rw [perform_all]
    simp only [perform_terminated cfg env cls fuel c s h]
    rw [ih d { s with errno := .ETERM } h]
    rfl

theorem ask_ctx_terminated (env : env_t) (e : event_t) (s : socket_base_t) :
    (ask env e s).2.ctx_terminated = s.ctx_terminated := rfl

theorem foldl_terminate_ctx_terminated (env : env_t) (l : List pipe_t) (s : socket_base_t) :
    (l.foldl (fun s pipe_ => (ask env (.pipe_terminate pipe_ false) s).2) s).ctx_terminated =
      s.ctx_terminated := by
  induction l generalizing s with
  | nil => rfl
  | cons p r ih => rw [List.foldl_cons, ih]; rfl

theorem process_term_ctx_terminated (env : env_t) (linger_ : Int) (s : socket_base_t) :
    (socket_base_t.process_term env linger_ s).ctx_terminated = s.ctx_terminated := by
  simp only [socket_base_t.process_term, own_process_term, register_term_acks]
  rw [ask_ctx_terminated, foldl_terminate_ctx_terminated]
  rfl

/-! ## The claims about a terminated context -/

/-- C13: when `ctx_terminated` is set, each of `setsockopt`, `getsockopt`,
`bind`, `connect`, `send` and `recv` returns -1 with `errno` set to `ETERM`,
for every argument (a null or malformed address and an invalid message
included), every socket type and every step budget; nothing else of the
socket changes, and no call is made to the code of the socket type, to the
mailbox or to anything else outside (the trace stays as it was). -/
theorem terminated_context_refuses (cfg : config_t) (env : env_t) (cls : class_t) (fuel : Nat)
    (s : socket_base_t) (h : s.ctx_terminated = true) :
    (∀ option_ optval_, socket_base_t.setsockopt cfg env cls option_ optval_ s =
      .ok (-1, { s with errno := .ETERM })) ∧
    (∀ option_ optvallen_, socket_base_t.getsockopt env option_ optvallen_ s =
      (-1, [], { s with errno := .ETERM })) ∧
    (∀ addr_, socket_base_t.bind cfg env addr_ s = .ok (-1, { s with errno := .ETERM })) ∧
    (∀ addr_, socket_base_t.connect cfg env addr_ s = .ok (-1, { s with errno := .ETERM })) ∧
    (∀ msg_ flags_, socket_base_t.send cfg env cls fuel msg_ flags_ s =
      .ok (-1, msg_, { s with errno := .ETERM })) ∧
    (∀ msg_ flags_, socket_base_t.recv cfg env fuel msg_ flags_ s =
      .ok (-1, msg_, { s with errno := .ETERM })) ∧
    ({ s with errno := .ETERM } : socket_base_t).trace = s.trace :=
  ⟨fun o v => setsockopt_terminated cfg env cls o v s h,
    fun o n => getsockopt_terminated env o n s h,
    fun a => bind_terminated cfg env a s h,
    fun a => connect_terminated cfg env a s h,
    fun m f => send_terminated cfg env cls fuel m f s h,
    fun m f => recv_terminated cfg env fuel m f s h, rfl⟩

theorem terminated_context_refuses_witness :
    (socket_base_t.process_stop (socket_base_t.init (sample_options .ZMQ_PUB) (.other 0))).ctx_terminated
      = true ∧
    socket_base_t.bind sample_config (sample_env none [] (sample_options .ZMQ_SUB)) none
      (socket_base_t.process_stop (socket_base_t.init (sample_options .ZMQ_PUB) (.other 0))) =
      .ok (-1, { socket_base_t.process_stop
        (socket_base_t.init (sample_options .ZMQ_PUB) (.other 0)) with errno := .ETERM }) :=
  ⟨rfl, (terminated_context_refuses sample_config (sample_env none [] (sample_options .ZMQ_SUB))
    .other 0 (socket_base_t.process_stop (socket_base_t.init (sample_options .ZMQ_PUB) (.other 0)))
    rfl).2.2.1 none⟩

/-- C14, the claim as it stands fails: after `close ()`, and also after
`process_term` has taken the socket to the state Terminating, a `setsockopt`
on a socket whose context is not terminated reaches the socket type and
returns what it returns, here 0. -/
theorem close_does_not_refuse :
    (socket_base_t.setsockopt sample_config (sample_env none [] (sample_options .ZMQ_SUB))
      .other 0 []
      (socket_base_t.close (sample_env none [] (sample_options .ZMQ_SUB))
        (socket_base_t.init (sample_options .ZMQ_PUB) (.other 0))).2).map Prod.fst = .ok 0 ∧
    is_terminating (socket_base_t.process_term (sample_env none [] (sample_options .ZMQ_SUB)) 0
      (socket_base_t.init (sample_options .ZMQ_PUB) (.other 0))) = true ∧
    (socket_base_t.setsockopt sample_config (sample_env none [] (sample_options .ZMQ_SUB))
      .other 0 []
      (socket_base_t.process_term (sample_env none [] (sample_options .ZMQ_SUB)) 0
        (socket_base_t.init (sample_options .ZMQ_PUB) (.other 0)))).map Prod.fst = .ok 0 :=
  ⟨rfl, rfl, rfl⟩

/-- C14, amended: once `process_stop` has run (the stop command of a
terminating context), every later `setsockopt`, `getsockopt`, `bind`,
`connect`, `send` and `recv`, in any number and order and with any arguments,
returns -1 with `errno` set to `ETERM`; `close ()` and `process_term` leave
`ctx_terminated` as it was. -/
theorem stop_refuses_every_later_call (cfg : config_t) (env : env_t) (cls : class_t)
    (fuel : Nat) (s : socket_base_t) (c : api_t) (cs : List api_t) (linger_ : Int) :
    perform_all cfg env cls fuel (c :: cs) (socket_base_t.process_stop s) =
      .ok (List.replicate (cs.length + 1) (-1),
        { socket_base_t.process_stop s with errno := .ETERM }) ∧
    (socket_base_t.close env s).2.ctx_terminated = s.ctx_terminated ∧
    (socket_base_t.process_term env linger_ s).ctx_terminated = s.ctx_terminated :=
  ⟨perform_all_terminated cfg env cls fuel cs c (socket_base_t.process_stop s) rfl, rfl,
    process_term_ctx_terminated env linger_ s⟩

/-! ## Attaching a pipe -/

theorem generated_identity_length (uuid : List Nat) :
    (socket_base_t.generated_identity uuid).length = 17 := by
  simp [socket_base_t.generated_identity, memcpy]

theorem generated_identity_eq (uuid : List Nat) :
    socket_base_t.generated_identity uuid = 0 :: (List.range 16).map (fun i => uuid.getD i 0) := by
  have h : ((List.range 16).map (fun i => uuid.getD i 0)).take 16 =
      (List.range 16).map (fun i => uuid.getD i 0) := List.take_of_length_le (by simp)
  simp only [socket_base_t.generated_identity, memcpy, h]
  rfl

theorem attach_pipe_pipes (env : env_t) (pipe_ : pipe_t) (peer_identity_ : List Nat)
    (s : socket_base_t) :
    (socket_base_t.attach_pipe env pipe_ peer_identity_ s).pipes = s.pipes ++ [pipe_] := by
  simp only [socket_base_t.attach_pipe, socket_base_t.xattach_pipe, ask, vask, is_terminating,
    register_term_acks]
  split_ifs <;> rfl

theorem attach_pipe_terminating (env : env_t) (pipe_ : pipe_t) (peer_identity_ : List Nat)
    (s : socket_base_t) :
    (socket_base_t.attach_pipe env pipe_ peer_identity_ s).terminating = s.terminating := by
  simp only [socket_base_t.attach_pipe, socket_base_t.xattach_pipe, ask, vask, is_terminating,
    register_term_acks]
  split_ifs <;> rfl

theorem attach_pipe_ctx_terminated (env : env_t) (pipe_ : pipe_t) (peer_identity_ : List Nat)
    (s : socket_base_t) :
    (socket_base_t.attach_pipe env pipe_ peer_identity_ s).ctx_terminated = s.ctx_terminated := by
  simp only [socket_base_t.attach_pipe, socket_base_t.xattach_pipe, ask, vask, is_terminating,
    register_term_acks]
  split_ifs <;> rfl

theorem attach_pipe_term_acks (env : env_t) (pipe_ : pipe_t) (peer_identity_ : List Nat)
    (s : socket_base_t) :
    (socket_base_t.attach_pipe env pipe_ peer_identity_ s).term_acks =
      if s.terminating then s.term_acks + 1 else s.term_acks := by
  simp only [socket_base_t.attach_pipe, socket_base_t.xattach_pipe, ask, vask, is_terminating,
    register_term_acks]
  split_ifs <;> rfl

theorem attach_pipe_trace (env : env_t) (pipe_ : pipe_t) (peer_identity_ : List Nat)
    (s : socket_base_t) :
    ∃ identity,
      (peer_identity_ ≠ [] → identity = peer_identity_) ∧
      (peer_identity_ = [] → ∃ uuid, identity = socket_base_t.generated_identity uuid) ∧
      (socket_base_t.attach_pipe env pipe_ peer_identity_ s).trace =
        s.trace ++ [.set_event_sink pipe_] ++
          (if peer_identity_ = [] then [.generate_uuid] else []) ++
          [.xattach_pipe pipe_ identity] ++
          (if s.terminating then [.pipe_terminate pipe_ false] else []) := by
  by_cases hid : peer_identity_ = []
  · subst hid
    refine ⟨socket_base_t.generated_identity (ask env .generate_uuid
      { (ask env (.set_event_sink pipe_) s).2 with
        pipes := (ask env (.set_event_sink pipe_) s).2.pipes ++ [pipe_] }).1.bytes,
      fun h => absurd rfl h, fun _ => ⟨_, rfl⟩, ?_⟩
    simp only [socket_base_t.attach_pipe, socket_base_t.xattach_pipe, ask, vask, is_terminating,
      register_term_acks]
    split_ifs <;> simp_all
  · have hl : peer_identity_.length ≠ 0 := fun h => hid (List.length_eq_zero.mp h)
    refine ⟨peer_identity_, fun _ => rfl, fun h => absurd h hid, ?_⟩
    simp only [socket_base_t.attach_pipe, socket_base_t.xattach_pipe, ask, vask, is_terminating,
      register_term_acks]
    split_ifs <;> simp_all

/-! ## The claim about attaching a pipe -/

/-- C20: `attach_pipe` appends the pipe to the pipe list of the socket and
calls `xattach_pipe` exactly once, for that pipe; a peer identity that is not
empty is passed on as it is, and for an empty one the identity passed has
exactly 17 bytes of which the first is 0 (the other 16 are what
`generate_uuid` writes). -/
theorem attach_pipe_identity (env : env_t) (pipe_ : pipe_t) (peer_identity_ : List Nat)
    (s : socket_base_t) :
    (socket_base_t.attach_pipe env pipe_ peer_identity_ s).pipes = s.pipes ++ [pipe_] ∧
    ∃ identity before after,
      (socket_base_t.attach_pipe env pipe_ peer_identity_ s).trace =
        s.trace ++ before ++ [.xattach_pipe pipe_ identity] ++ after ∧
      (∀ p i, event_t.xattach_pipe p i ∉ before ++ after) ∧
      (peer_identity_ ≠ [] → identity = peer_identity_) ∧
      (peer_identity_ = [] → identity.length = 17 ∧ identity.head? = some 0 ∧
        ∃ uuid : List Nat, identity.tail = (List.range 16).map (fun i => uuid.getD i 0)) := by
  refine ⟨attach_pipe_pipes env pipe_ peer_identity_ s, ?_⟩
  obtain ⟨identity, h1, h2, h3⟩ := attach_pipe_trace env pipe_ peer_identity_ s
  refine ⟨identity, [.set_event_sink pipe_] ++
    (if peer_identity_ = [] then [.generate_uuid] else []),
    (if s.terminating then [.pipe_terminate pipe_ false] else []), ?_, ?_, h1, ?_⟩
  · rw [h3]
    simp only [List.append_assoc]
  · intro p i
    split_ifs <;> simp
  · intro h
    obtain ⟨uuid, hu⟩ := h2 h
    rw [hu, generated_identity_eq]
    exact ⟨by simp, rfl, uuid, rfl⟩

theorem attach_pipe_identity_witness :
    (socket_base_t.attach_pipe (sample_env none [] (sample_options .ZMQ_SUB)) 7 []
      (socket_base_t.init (sample_options .ZMQ_PUB) (.other 0))).trace =
      [.set_event_sink 7, .generate_uuid,
        .xattach_pipe 7 [0, 1, 2, 3, 4, 5, 6, 7, 8, 9, 10, 11, 12, 13, 14, 15, 16]] ∧
    (socket_base_t.attach_pipe (sample_env none [] (sample_options .ZMQ_SUB)) 7 [65, 66]
      (socket_base_t.init (sample_options .ZMQ_PUB) (.other 0))).trace =
      [.set_event_sink 7, .xattach_pipe 7 [65, 66]] ∧
    (socket_base_t.attach_pipe (sample_env none [] (sample_options .ZMQ_SUB)) 7 []
      (socket_base_t.init (sample_options .ZMQ_PUB) (.other 0))).pipes = [] ++ [7] :=
  ⟨rfl, rfl, (attach_pipe_identity (sample_env none [] (sample_options .ZMQ_SUB)) 7 []
    (socket_base_t.init (sample_options .ZMQ_PUB) (.other 0))).1⟩


/-! ## The marks of an inproc connection -/


theorem find_inproc (a : List Char) :
    find "://".toList ("inproc".toList ++ "://".toList ++ a) = some 6 := by
  have h1 : "inproc".toList = ['i', 'n', 'p', 'r', 'o', 'c'] := rfl
  have h2 : "://".toList = [':', '/', '/'] := rfl
  rw [h1, h2]
  simp [find, List.isPrefixOf]

theorem find_sys (a : List Char) :
    find "://".toList ("sys".toList ++ "://".toList ++ a) = some 3 := by
  have h1 : "sys".toList = ['s', 'y', 's'] := rfl
  have h2 : "://".toList = [':', '/', '/'] := rfl
  rw [h1, h2]
  simp [find, List.isPrefixOf]


theorem pipepair_hwms_append (a b : List event_t) :
    pipepair_hwms (a ++ b) = pipepair_hwms a ++ pipepair_hwms b := by
  induction a with
  | nil => rfl
  | cons e r ih => cases e <;> simp [pipepair_hwms, ih]

theorem parse_uri_inproc (address protocol_ address_ : List Char) (s : socket_base_t)
    (ha : address ≠ []) :
    socket_base_t.parse_uri (some ("inproc".toList ++ "://".toList ++ address)) protocol_ address_ s
      = .ok (0, "inproc".toList, address, s) := by
  have hae : address.isEmpty = false := by
    cases address with
    | nil => exact absurd rfl ha
    | cons c r => rfl
  simp only [socket_base_t.parse_uri, find_inproc]
  have h1 : ("inproc".toList ++ "://".toList ++ address).take 6 = "inproc".toList := rfl
  have h2 : ("inproc".toList ++ "://".toList ++ address).drop (6 + 3) = address := rfl
  rw [h1, h2, hae]
  rfl

theorem parse_uri_sys (address protocol_ address_ : List Char) (s : socket_base_t)
    (ha : address ≠ []) :
    socket_base_t.parse_uri (some ("sys".toList ++ "://".toList ++ address)) protocol_ address_ s
      = .ok (0, "sys".toList, address, s) := by
  have hae : address.isEmpty = false := by
    cases address with
    | nil => exact absurd rfl ha
    | cons c r => rfl
  simp only [socket_base_t.parse_uri, find_sys]
  have h1 : ("sys".toList ++ "://".toList ++ address).take 3 = "sys".toList := rfl
  have h2 : ("sys".toList ++ "://".toList ++ address).drop (3 + 3) = address := rfl
  rw [h1, h2, hae]
  rfl

theorem check_protocol_inproc (cfg : config_t) (s : socket_base_t) :
    socket_base_t.check_protocol cfg "inproc".toList s = (0, s) := by
  have n1 : "inproc".toList ≠ "pgm".toList := by decide
  have n2 : "inproc".toList ≠ "epgm".toList := by decide
  have n3 : "inproc".toList ≠ "ipc".toList := by decide
  simp [socket_base_t.check_protocol, n1, n2, n3]

theorem check_protocol_sys (cfg : config_t) (s : socket_base_t) :
    socket_base_t.check_protocol cfg "sys".toList s = (0, s) := by
  have n1 : "sys".toList ≠ "pgm".toList := by decide
  have n2 : "sys".toList ≠ "epgm".toList := by decide
  have n3 : "sys".toList ≠ "ipc".toList := by decide
  simp [socket_base_t.check_protocol, n1, n2, n3]

theorem ask_trace (env : env_t) (e : event_t) (s : socket_base_t) :
    (ask env e s).2.trace = s.trace ++ [e] := rfl

theorem ask_options (env : env_t) (e : event_t) (s : socket_base_t) :
    (ask env e s).2.options = s.options := rfl

theorem connect_inproc (cfg : config_t) (env : env_t) (protocol address : List Char)
    (s : socket_base_t) (sndhwm rcvhwm : Int)
    (hterm : s.ctx_terminated = false)
    (hp : protocol = "inproc".toList ∨ protocol = "sys".toList) (ha : address ≠ [])
    (hpeer : (env.answer s (.find_endpoint (protocol ++ "://".toList ++ address))).ptr ≠ 0)
    (hs : socket_base_t.inproc_hwm s.options.sndhwm
      (env.answer s (.find_endpoint (protocol ++ "://".toList ++ address))).peer_options.rcvhwm =
        .ok sndhwm)
    (hr : socket_base_t.inproc_hwm s.options.rcvhwm
      (env.answer s (.find_endpoint (protocol ++ "://".toList ++ address))).peer_options.sndhwm =
        .ok rcvhwm)
    (hpp : (env.answer (ask env (.find_endpoint (protocol ++ "://".toList ++ address)) s).2
      (.pipepair (env.answer s (.find_endpoint (protocol ++ "://".toList ++ address))).ptr
        sndhwm rcvhwm s.options.delay_on_disconnect s.options.delay_on_close)).rc = 0) :
    ∃ s2, socket_base_t.connect cfg env (some (protocol ++ "://".toList ++ address)) s =
        .ok (0, s2) ∧
      pipepair_hwms s2.trace = pipepair_hwms s.trace ++ [(sndhwm, rcvhwm)] := by
  have hae : address.isEmpty = false := by
    cases address with
    | nil => exact absurd rfl ha
    | cons c r => rfl
  have key : ∀ protocol : List Char, protocol ≠ "tcp".toList → protocol ≠ "ipc".toList →
      (protocol = "inproc".toList ∨ protocol = "sys".toList) →
      socket_base_t.parse_uri (some (protocol ++ "://".toList ++ address)) [] [] s =
        .ok (0, protocol, address, s) →
      socket_base_t.check_protocol cfg protocol s = (0, s) →
      (ask env (.find_endpoint (protocol ++ "://".toList ++ address)) s).1.ptr ≠ 0 →
      socket_base_t.inproc_hwm s.options.sndhwm
        (ask env (.find_endpoint (protocol ++ "://".toList ++ address)) s).1.peer_options.rcvhwm =
          .ok sndhwm →
      socket_base_t.inproc_hwm s.options.rcvhwm
        (ask env (.find_endpoint (protocol ++ "://".toList ++ address)) s).1.peer_options.sndhwm =
          .ok rcvhwm →
      (ask env (.pipepair (ask env (.find_endpoint (protocol ++ "://".toList ++ address)) s).1.ptr
          sndhwm rcvhwm s.options.delay_on_disconnect s.options.delay_on_close)
        (ask env (.find_endpoint (protocol ++ "://".toList ++ address)) s).2).1.rc = 0 →
      ∃ s2, socket_base_t.connect cfg env (some (protocol ++ "://".toList ++ address)) s =
          .ok (0, s2) ∧
        pipepair_hwms s2.trace = pipepair_hwms s.trace ++ [(sndhwm, rcvhwm)] := by
    intro protocol n1 n2 hp hparse hcheck hpeer hs hr hpp
    simp only [socket_base_t.connect, hterm, hparse, hcheck, n1, n2, hp, Option.getD_some,
      Bool.false_eq_true, if_false, ne_eq, not_true_eq_false, if_true, ask_options,
      hpeer, hs, hr, hpp]
    refine ⟨_, rfl, ?_⟩
    obtain ⟨identity, -, -, h3⟩ := attach_pipe_trace env
      (ask env (.pipepair (ask env (.find_endpoint (protocol ++ "://".toList ++ address)) s).1.ptr
          sndhwm rcvhwm s.options.delay_on_disconnect s.options.delay_on_close)
        (ask env (.find_endpoint (protocol ++ "://".toList ++ address)) s).2).1.ptr
      (ask env (.find_endpoint (protocol ++ "://".toList ++ address)) s).1.peer_options.identity
      (ask env (.pipepair (ask env (.find_endpoint (protocol ++ "://".toList ++ address)) s).1.ptr
          sndhwm rcvhwm s.options.delay_on_disconnect s.options.delay_on_close)
        (ask env (.find_endpoint (protocol ++ "://".toList ++ address)) s).2).2
    rw [ask_trace, h3, ask_trace, ask_trace]
    simp only [pipepair_hwms_append]
    split_ifs <;> simp [pipepair_hwms]
  rcases hp with rfl | rfl
  · exact key _ (by decide) (by decide) (Or.inl rfl) (parse_uri_inproc _ _ _ _ ha)
      (check_protocol_inproc cfg s) hpeer hs hr hpp
  · exact key _ (by decide) (by decide) (Or.inr rfl) (parse_uri_sys _ _ _ _ ha)
      (check_protocol_sys cfg s) hpeer hs hr hpp

/-! ## The claim about the marks of an inproc connection -/

/-- C15: the high-water mark that `connect` computes for one direction of an
inproc connection is 0 when the mark of the connecting socket or the opposite
mark of the peer is 0, and otherwise their sum, when the sum is an `int`
(100 and 200 give 300); for marks that are not negative and whose sum is an
`int` it is 0 only if one of the two is 0.  A `connect` to an inproc or sys
endpoint that is found gives to the one `pipepair` it calls the mark so
computed from its own `sndhwm` and the `rcvhwm` of the peer as the send mark,
and the mark computed from its own `rcvhwm` and the `sndhwm` of the peer as
the receive mark. -/
theorem inproc_hwm_composition :
    (∀ mine theirs : Int, mine = 0 ∨ theirs = 0 →
      socket_base_t.inproc_hwm mine theirs = .ok 0) ∧
    (∀ mine theirs : Int, mine ≠ 0 → theirs ≠ 0 →
      INT_MIN ≤ mine + theirs → mine + theirs ≤ INT_MAX →
      socket_base_t.inproc_hwm mine theirs = .ok (mine + theirs)) ∧
    socket_base_t.inproc_hwm 100 200 = .ok 300 ∧
    (∀ mine theirs : Int, 0 ≤ mine → 0 ≤ theirs → mine + theirs ≤ INT_MAX →
      socket_base_t.inproc_hwm mine theirs = .ok 0 → mine = 0 ∨ theirs = 0) ∧
    (∀ (cfg : config_t) (env : env_t) (protocol address : List Char) (s : socket_base_t)
      (sndhwm rcvhwm : Int),
      s.ctx_terminated = false →
      protocol = "inproc".toList ∨ protocol = "sys".toList →
      address ≠ [] →
      (env.answer s (.find_endpoint (protocol ++ "://".toList ++ address))).ptr ≠ 0 →
      socket_base_t.inproc_hwm s.options.sndhwm
        (env.answer s (.find_endpoint (protocol ++ "://".toList ++ address))).peer_options.rcvhwm
          = .ok sndhwm →
      socket_base_t.inproc_hwm s.options.rcvhwm
        (env.answer s (.find_endpoint (protocol ++ "://".toList ++ address))).peer_options.sndhwm
          = .ok rcvhwm →
      (env.answer (ask env (.find_endpoint (protocol ++ "://".toList ++ address)) s).2
        (.pipepair (env.answer s (.find_endpoint (protocol ++ "://".toList ++ address))).ptr
          sndhwm rcvhwm s.options.delay_on_disconnect s.options.delay_on_close)).rc = 0 →
      ∃ s2, socket_base_t.connect cfg env (some (protocol ++ "://".toList ++ address)) s =
          .ok (0, s2) ∧
        pipepair_hwms s2.trace = pipepair_hwms s.trace ++ [(sndhwm, rcvhwm)]) := by
  refine ⟨?_, ?_, rfl, ?_, ?_⟩
  · intro mine theirs h
    simp only [socket_base_t.inproc_hwm, h, if_true]
  · intro mine theirs h1 h2 h3 h4
    simp only [socket_base_t.inproc_hwm, int_add, h1, h2, h3, h4, or_self, if_false, and_self,
      if_true]
  · intro mine theirs h1 h2 h3 h
    by_contra hc
    rw [not_or] at hc
    have hlo : INT_MIN ≤ mine + theirs := by
      have : INT_MIN ≤ 0 := by decide
      omega
    simp only [socket_base_t.inproc_hwm, int_add, hc.1, hc.2, or_self, if_false, hlo, h3,
      and_self, if_true, Except.ok.injEq] at h
    omega
  · intro cfg env protocol address s sndhwm rcvhwm hterm hp ha hpeer hs hr hpp
    exact connect_inproc cfg env protocol address s sndhwm rcvhwm hterm hp ha hpeer hs hr hpp

theorem inproc_hwm_composition_witness :
    socket_base_t.inproc_hwm 0 200 = .ok 0 ∧
    socket_base_t.inproc_hwm 1 2147483646 = .ok (1 + 2147483646) ∧
    ∃ s2, socket_base_t.connect sample_config
        (sample_env none [] { sample_options .ZMQ_SUB with sndhwm := 5, rcvhwm := 0 })
        (some ("inproc".toList ++ "://".toList ++ "a".toList))
        (socket_base_t.init (sample_options .ZMQ_PUB) (.other 0)) = .ok (0, s2) ∧
      pipepair_hwms s2.trace =
        pipepair_hwms (socket_base_t.init (sample_options .ZMQ_PUB) (.other 0)).trace ++
          [(0, 205)] :=
  ⟨inproc_hwm_composition.1 0 200 (Or.inl rfl),
    inproc_hwm_composition.2.1 1 2147483646 (by decide) (by decide) (by decide) (by decide),
    inproc_hwm_composition.2.2.2.2 sample_config
      (sample_env none [] { sample_options .ZMQ_SUB with sndhwm := 5, rcvhwm := 0 })
      "inproc".toList "a".toList (socket_base_t.init (sample_options .ZMQ_PUB) (.other 0))
      0 205 rfl (Or.inl rfl) (by decide) (by decide) rfl rfl rfl⟩

/-! ## Sending -/

theorem process_commands_loop_polls (env : env_t) (fuel : Nat) (rc : Int) (cmd : command_t)
    (s : socket_base_t) (b : Bool) (s1 : socket_base_t)
    (h : socket_base_t.process_commands_loop env fuel rc cmd s = .ok (b, s1)) (t : Int)
    (ht : event_t.mailbox_recv t ∈ s1.trace) : event_t.mailbox_recv t ∈ s.trace ∨ t = 0 := by
  induction fuel generalizing rc cmd s with
  | zero => simp [socket_base_t.process_commands_loop] at h
  | succ k ih =>
    simp only [socket_base_t.process_commands_loop] at h
    split_ifs at h with h1 h2 h3
    · cases h; exact Or.inl ht
    · cases h; exact Or.inl ht
    · rcases ih _ _ _ h with i | i
      · simp only [ask, process_command, List.append_assoc, List.mem_append, List.mem_cons,
          List.mem_singleton, event_t.mailbox_recv.injEq, List.not_mem_nil, or_false,
          reduceCtorEq, false_or] at i
        exact i
      · exact Or.inr i

theorem process_commands_polls (cfg : config_t) (env : env_t) (fuel : Nat) (throttle_ : Bool)
    (s : socket_base_t) (r : Int) (s1 : socket_base_t)
    (h : socket_base_t.process_commands cfg env fuel 0 throttle_ s = .ok (r, s1)) (t : Int)
    (ht : event_t.mailbox_recv t ∈ s1.trace) : event_t.mailbox_recv t ∈ s.trace ∨ t = 0 := by
  have hend : ∀ (rc : Int) (cmd : command_t) (s2 : socket_base_t),
      socket_base_t.process_commands_end env fuel rc cmd s2 = .ok (r, s1) →
      event_t.mailbox_recv t ∈ s2.trace ∨ t = 0 := by
    intro rc cmd s2 he
    simp only [socket_base_t.process_commands_end] at he
    cases hl : socket_base_t.process_commands_loop env fuel rc cmd s2 with
    | error f => rw [hl] at he; cases he
    | ok p =>
      obtain ⟨b, s3⟩ := p
      rw [hl] at he
      cases b with
      | false =>
        simp only [Except.ok.injEq, Prod.mk.injEq] at he
        exact process_commands_loop_polls env fuel rc cmd s2 false s3 hl t (he.2 ▸ ht)
      | true =>
        simp only at he
        split_ifs at he
        · simp only [Except.ok.injEq, Prod.mk.injEq] at he
          exact process_commands_loop_polls env fuel rc cmd s2 true s3 hl t
            (by rw [← he.2] at ht; exact ht)
        · simp only [Except.ok.injEq, Prod.mk.injEq] at he
          exact process_commands_loop_polls env fuel rc cmd s2 true s3 hl t (he.2 ▸ ht)
  simp only [socket_base_t.process_commands, ne_eq, not_true_eq_false, if_false] at h
  split_ifs at h with h1 h2
  · simp only [Except.ok.injEq, Prod.mk.injEq] at h
    rw [← h.2] at ht
    exact Or.inl (by simpa [ask] using ht)
  · rcases hend _ _ _ h with i | i
    · simp only [ask, List.append_assoc, List.mem_append, List.mem_cons, List.mem_singleton,
        event_t.mailbox_recv.injEq, List.not_mem_nil, or_false, reduceCtorEq, false_or] at i
      exact i
    · exact Or.inr i
  · rcases hend _ _ _ h with i | i
    · simp only [ask, List.append_assoc, List.mem_append, List.mem_cons, List.mem_singleton,
        event_t.mailbox_recv.injEq, List.not_mem_nil, or_false, reduceCtorEq, false_or] at i
      exact i
    · exact Or.inr i

theorem send_after_drain (cfg : config_t) (env : env_t) (cls : class_t) (fuel : Nat)
    (msg_ : msg_t) (flags_ : Nat) (s s1 : socket_base_t)
    (hterm : s.ctx_terminated = false) (hvalid : msg_.valid = true)
    (hdrain : socket_base_t.process_commands cfg env fuel 0 true s = .ok (0, s1))
    (hfail : (socket_base_t.xsend env cls (socket_base_t.impose_flags cfg flags_ msg_)
      flags_ s1).1 ≠ 0)
    (hnow : (socket_base_t.xsend env cls (socket_base_t.impose_flags cfg flags_ msg_)
        flags_ s1).2.2.errno ≠ .EAGAIN ∨
      test_flag flags_ cfg.ZMQ_DONTWAIT = true ∨
      (socket_base_t.xsend env cls (socket_base_t.impose_flags cfg flags_ msg_)
        flags_ s1).2.2.options.sndtimeo = 0) :
    socket_base_t.send cfg env cls fuel msg_ flags_ s =
      .ok (-1, (socket_base_t.xsend env cls (socket_base_t.impose_flags cfg flags_ msg_)
          flags_ s1).2.1,
        (socket_base_t.xsend env cls (socket_base_t.impose_flags cfg flags_ msg_)
          flags_ s1).2.2) := by
  simp only [socket_base_t.send, hterm, hvalid, hdrain]
  generalize socket_base_t.xsend env cls (socket_base_t.impose_flags cfg flags_ msg_)
    flags_ s1 = r at hfail hnow ⊢
  obtain ⟨rc, m, s2⟩ := r
  simp only at hfail hnow ⊢
  simp only [Bool.false_eq_true, if_false, ne_eq, not_true_eq_false, hfail]
  by_cases he : s2.errno = .EAGAIN
  · have h2 : test_flag flags_ cfg.ZMQ_DONTWAIT = true ∨ s2.options.sndtimeo = 0 := by
      rcases hnow with h | h
      · exact absurd he h
      · exact h
    simp only [he, not_true_eq_false, if_false, h2, if_true, Bool.true_eq_false]
  · simp only [he, not_false_eq_true, if_true, Bool.true_eq_false, if_false]

theorem xsend_trace (env : env_t) (cls : class_t) (msg_ : msg_t) (flags_ : Nat)
    (s : socket_base_t) :
    (socket_base_t.xsend env cls msg_ flags_ s).2.2.trace =
      s.trace ++ (if cls = .other then [.xsend msg_ flags_] else []) := by
  cases cls
  · simp [socket_base_t.xsend, sub_t.xsend]
  · simp [socket_base_t.xsend, vask]

/-! ## The claims about sending -/

/-- C16: when the context is not terminated, the message is valid and the
first drain of the commands has succeeded, a `send` whose `xsend` fails
returns -1 right after that one `xsend`: with `errno` as `xsend` left it and
whatever the flags and the timeout when that is not `EAGAIN`, and with
`EAGAIN` when `ZMQ_DONTWAIT` is in the flags or `sndtimeo` is 0.  After the
drain the trace grows by the one call of `xsend` only, and in the whole call
the mailbox is asked with the timeout 0 only: `send` never waits on it. -/
theorem send_nonblocking (cfg : config_t) (env : env_t) (cls : class_t) (fuel : Nat)
    (msg_ : msg_t) (flags_ : Nat) (s s1 : socket_base_t)
    (hterm : s.ctx_terminated = false) (hvalid : msg_.valid = true)
    (hdrain : socket_base_t.process_commands cfg env fuel 0 true s = .ok (0, s1))
    (hfail : (socket_base_t.xsend env cls (socket_base_t.impose_flags cfg flags_ msg_)
      flags_ s1).1 ≠ 0) :
    ((socket_base_t.xsend env cls (socket_base_t.impose_flags cfg flags_ msg_)
        flags_ s1).2.2.errno = .EAGAIN →
      test_flag flags_ cfg.ZMQ_DONTWAIT = true ∨
        (socket_base_t.xsend env cls (socket_base_t.impose_flags cfg flags_ msg_)
          flags_ s1).2.2.options.sndtimeo = 0 →
      ∃ m s2, socket_base_t.send cfg env cls fuel msg_ flags_ s = .ok (-1, m, s2) ∧
        s2.errno = .EAGAIN ∧
        s2.trace = s1.trace ++
          (if cls = .other then [.xsend (socket_base_t.impose_flags cfg flags_ msg_) flags_]
            else []) ∧
        ∀ t, event_t.mailbox_recv t ∈ s2.trace → event_t.mailbox_recv t ∈ s.trace ∨ t = 0) ∧
    ((socket_base_t.xsend env cls (socket_base_t.impose_flags cfg flags_ msg_)
        flags_ s1).2.2.errno ≠ .EAGAIN →
      ∃ m s2, socket_base_t.send cfg env cls fuel msg_ flags_ s = .ok (-1, m, s2) ∧
        s2.errno = (socket_base_t.xsend env cls (socket_base_t.impose_flags cfg flags_ msg_)
          flags_ s1).2.2.errno ∧
        s2.trace = s1.trace ++
          (if cls = .other then [.xsend (socket_base_t.impose_flags cfg flags_ msg_) flags_]
            else []) ∧
        ∀ t, event_t.mailbox_recv t ∈ s2.trace → event_t.mailbox_recv t ∈ s.trace ∨ t = 0) := by
  have hw : ∀ t, event_t.mailbox_recv t ∈ (socket_base_t.xsend env cls
      (socket_base_t.impose_flags cfg flags_ msg_) flags_ s1).2.2.trace →
      event_t.mailbox_recv t ∈ s.trace ∨ t = 0 := by
    intro t ht
    rw [xsend_trace] at ht
    refine process_commands_polls cfg env fuel true s 0 s1 hdrain t ?_
    rcases List.mem_append.mp ht with i | i
    · exact i
    · split_ifs at i <;> simp at i
  constructor
  · intro he hn
    exact ⟨_, _, send_after_drain cfg env cls fuel msg_ flags_ s s1 hterm hvalid hdrain hfail
      (Or.inr hn), he, xsend_trace env cls _ flags_ s1, hw⟩
  · intro he
    exact ⟨_, _, send_after_drain cfg env cls fuel msg_ flags_ s s1 hterm hvalid hdrain hfail
      (Or.inl he), rfl, xsend_trace env cls _ flags_ s1, hw⟩

theorem send_nonblocking_witness :
    (∃ m s2, socket_base_t.send sample_config
        (sample_env (some .EAGAIN) [] (sample_options .ZMQ_SUB)) .other 1
        (sample_msg false false [65]) 1
        (socket_base_t.init (sample_options .ZMQ_PUSH) (.other 0)) = .ok (-1, m, s2) ∧
      s2.errno = .EAGAIN ∧
      s2.trace = [event_t.rdtsc] ++
        (if class_t.other = .other then
          [.xsend (socket_base_t.impose_flags sample_config 1 (sample_msg false false [65])) 1]
        else []) ∧
      ∀ t, event_t.mailbox_recv t ∈ s2.trace →
        event_t.mailbox_recv t ∈
          (socket_base_t.init (sample_options .ZMQ_PUSH) (.other 0)).trace ∨ t = 0) ∧
    socket_base_t.send sample_config
        (sample_env (some .EAGAIN) [] (sample_options .ZMQ_SUB)) .other 1
        (sample_msg false false [65]) 1
        (socket_base_t.init (sample_options .ZMQ_PUSH) (.other 0)) =
      .ok (-1, sample_msg false false [65],
        { socket_base_t.init (sample_options .ZMQ_PUSH) .EAGAIN with
          trace := [.rdtsc, .xsend (sample_msg false false [65]) 1] }) ∧
    socket_base_t.send sample_config
        (sample_env (some .EAGAIN) [] { sample_options .ZMQ_SUB with sndtimeo := 0 }) .other 1
        (sample_msg false false [65]) 6
        { socket_base_t.init { sample_options .ZMQ_PUSH with sndtimeo := 0 } (.other 0) with
          last_tsc := 1 } =
      .ok (-1, sample_msg true true [65],
        { socket_base_t.init { sample_options .ZMQ_PUSH with sndtimeo := 0 } .EAGAIN with
          last_tsc := 1, trace := [.rdtsc, .xsend (sample_msg true true [65]) 6] }) :=
  ⟨(send_nonblocking sample_config (sample_env (some .EAGAIN) [] (sample_options .ZMQ_SUB))
      .other 1 (sample_msg false false [65]) 1
      (socket_base_t.init (sample_options .ZMQ_PUSH) (.other 0))
      (ask (sample_env (some .EAGAIN) [] (sample_options .ZMQ_SUB)) .rdtsc
        (socket_base_t.init (sample_options .ZMQ_PUSH) (.other 0))).2
      rfl rfl rfl (by decide)).1 rfl (Or.inl rfl), rfl, rfl⟩

/-- C19: on a SUB socket whose context is not terminated, every `send` of a
valid message, for every flags value and every `sndtimeo`, returns -1 with
`errno` set to `ENOTSUP` once the first drain of the commands has succeeded:
the socket is the drained one with that `errno`, the mailbox was asked with
the timeout 0 only, so the loop that waits and retries is not entered; and
`has_out ()` is false. -/
theorem sub_send_unsupported (cfg : config_t) (env : env_t) (fuel : Nat)
    (msg_ : msg_t) (flags_ : Nat) (s s1 : socket_base_t)
    (hterm : s.ctx_terminated = false) (hvalid : msg_.valid = true)
    (hdrain : socket_base_t.process_commands cfg env fuel 0 true s = .ok (0, s1)) :
    socket_base_t.send cfg env .sub fuel msg_ flags_ s =
      .ok (-1, socket_base_t.impose_flags cfg flags_ msg_, { s1 with errno := .ENOTSUP }) ∧
    (∀ t, event_t.mailbox_recv t ∈ s1.trace → event_t.mailbox_recv t ∈ s.trace ∨ t = 0) ∧
    socket_base_t.has_out env .sub s = (false, s) := by
  refine ⟨?_, process_commands_polls cfg env fuel true s 0 s1 hdrain, rfl⟩
  exact send_after_drain cfg env .sub fuel msg_ flags_ s s1 hterm hvalid hdrain
    (by simp [socket_base_t.xsend, sub_t.xsend])
    (Or.inl (by simp [socket_base_t.xsend, sub_t.xsend]))

theorem sub_send_unsupported_witness :
    socket_base_t.send sample_config (sample_env none [] (sample_options .ZMQ_PUB)) .sub 1
        (sample_msg false false [65]) 2 (sub_t.init (sample_options .ZMQ_XSUB) (.other 0)) =
      .ok (-1, sample_msg true false [65],
        { sub_t.init (sample_options .ZMQ_XSUB) .ENOTSUP with trace := [.rdtsc] }) ∧
    socket_base_t.has_out (sample_env none [] (sample_options .ZMQ_PUB)) .sub
        (sub_t.init (sample_options .ZMQ_XSUB) (.other 0)) =
      (false, sub_t.init (sample_options .ZMQ_XSUB) (.other 0)) :=
  ⟨(sub_send_unsupported sample_config (sample_env none [] (sample_options .ZMQ_PUB)) 1
    (sample_msg false false [65]) 2 (sub_t.init (sample_options .ZMQ_XSUB) (.other 0))
    (ask (sample_env none [] (sample_options .ZMQ_PUB)) .rdtsc
      (sub_t.init (sample_options .ZMQ_XSUB) (.other 0))).2 rfl rfl rfl).1,
   (sub_send_unsupported sample_config (sample_env none [] (sample_options .ZMQ_PUB)) 1
    (sample_msg false false [65]) 2 (sub_t.init (sample_options .ZMQ_XSUB) (.other 0))
    (ask (sample_env none [] (sample_options .ZMQ_PUB)) .rdtsc
      (sub_t.init (sample_options .ZMQ_XSUB) (.other 0))).2 rfl rfl rfl).2.2⟩

/-! ## Receiving -/

theorem count_xrecv_append (a b : List event_t) :
    count_xrecv (a ++ b) = count_xrecv a + count_xrecv b := by
  induction a with
  | nil => simp [count_xrecv]
  | cons e r ih =>
    cases e <;> simp [count_xrecv, ih]
    omega

theorem process_commands_loop_trace (env : env_t) (fuel : Nat) (rc : Int) (cmd : command_t)
    (s : socket_base_t) (b : Bool) (s1 : socket_base_t)
    (h : socket_base_t.process_commands_loop env fuel rc cmd s = .ok (b, s1)) :
    ∃ rest, s1.trace = s.trace ++ rest ∧ count_xrecv rest = 0 := by
  induction fuel generalizing rc cmd s with
  | zero => simp [socket_base_t.process_commands_loop] at h
  | succ k ih =>
    simp only [socket_base_t.process_commands_loop] at h
    split_ifs at h with h1 h2 h3
    · cases h; exact ⟨[], by simp, rfl⟩
    · cases h; exact ⟨[], by simp, rfl⟩
    · obtain ⟨rest, hr, hc⟩ := ih _ _ _ h
      refine ⟨[.process_command cmd, .mailbox_recv 0] ++ rest, ?_, ?_⟩
      · rw [hr]; simp [ask, process_command]
      · rw [count_xrecv_append, hc]; rfl

theorem process_commands_end_trace (env : env_t) (fuel : Nat) (rc : Int) (cmd : command_t)
    (s : socket_base_t) (r : Int) (s1 : socket_base_t)
    (h : socket_base_t.process_commands_end env fuel rc cmd s = .ok (r, s1)) :
    ∃ rest, s1.trace = s.trace ++ rest ∧ count_xrecv rest = 0 := by
  simp only [socket_base_t.process_commands_end] at h
  cases hl : socket_base_t.process_commands_loop env fuel rc cmd s with
  | error f => rw [hl] at h; cases h
  | ok p =>
    obtain ⟨b, s2⟩ := p
    obtain ⟨rest, hr, hc⟩ := process_commands_loop_trace env fuel rc cmd s b s2 hl
    rw [hl] at h
    cases b with
    | false =>
      simp only at h
      cases h
      exact ⟨rest, hr, hc⟩
    | true =>
      simp only at h
      split_ifs at h <;> cases h <;> exact ⟨rest, hr, hc⟩

theorem process_commands_trace (cfg : config_t) (env : env_t) (fuel : Nat) (timeout_ : Int)
    (throttle_ : Bool) (s : socket_base_t) (r : Int) (s1 : socket_base_t)
    (h : socket_base_t.process_commands cfg env fuel timeout_ throttle_ s = .ok (r, s1)) :
    ∃ rest, s1.trace = s.trace ++ rest ∧ count_xrecv rest = 0 := by
  simp only [socket_base_t.process_commands] at h
  split_ifs at h with h1 h2 h3
  · obtain ⟨rest, hr, hc⟩ := process_commands_end_trace env fuel _ _ _ r s1 h
    refine ⟨[.mailbox_recv timeout_] ++ rest, ?_, ?_⟩
    · rw [hr]; simp [ask]
    · rw [count_xrecv_append, hc]; rfl
  · cases h
    exact ⟨[.rdtsc], rfl, rfl⟩
  · obtain ⟨rest, hr, hc⟩ := process_commands_end_trace env fuel _ _ _ r s1 h
    refine ⟨[.rdtsc, .mailbox_recv 0] ++ rest, ?_, ?_⟩
    · rw [hr]; simp [ask]
    · rw [count_xrecv_append, hc]; rfl
  · obtain ⟨rest, hr, hc⟩ := process_commands_end_trace env fuel _ _ _ r s1 h
    refine ⟨[.rdtsc, .mailbox_recv 0] ++ rest, ?_, ?_⟩
    · rw [hr]; simp [ask]
    · rw [count_xrecv_append, hc]; rfl

theorem deadline_trace (env : env_t) (timeout : Int) (s : socket_base_t) :
    ∃ rest, (socket_base_t.deadline env timeout s).2.trace = s.trace ++ rest ∧
      count_xrecv rest = 0 := by
  simp only [socket_base_t.deadline]
  split_ifs
  · exact ⟨[], by simp, rfl⟩
  · exact ⟨[.now_ms], rfl, rfl⟩

theorem remaining_trace (env : env_t) (timeout : Int) (end_ : Nat) (s : socket_base_t) :
    ∃ rest, (socket_base_t.remaining env timeout end_ s).2.trace = s.trace ++ rest ∧
      count_xrecv rest = 0 := by
  simp only [socket_base_t.remaining]
  split_ifs
  · exact ⟨[.now_ms], rfl, rfl⟩
  · exact ⟨[.now_ms], rfl, rfl⟩
  · exact ⟨[], by simp, rfl⟩

theorem xrecv_spec (env : env_t) (msg_ : msg_t) (flags_ : Nat) (s : socket_base_t)
    (rc : Int) (m : msg_t) (s1 : socket_base_t)
    (h : socket_base_t.xrecv env msg_ flags_ s = (rc, m, s1)) :
    rc = (env.answer s (.xrecv msg_ flags_)).rc ∧ m = (env.answer s (.xrecv msg_ flags_)).msg ∧
      s1.trace = s.trace ++ [.xrecv msg_ flags_] := by
  simp only [socket_base_t.xrecv, vask, Prod.mk.injEq] at h
  obtain ⟨h1, h2, h3⟩ := h
  subst h1 h2 h3
  exact ⟨rfl, rfl, rfl⟩

theorem recv_loop_returns (cfg : config_t) (env : env_t) (fuel : Nat) (flags_ : Nat)
    (end_ : Nat) (k : Nat) (block : Bool) (timeout : Int) (msg_ : msg_t) (s : socket_base_t)
    (m : msg_t) (s1 : socket_base_t)
    (h : socket_base_t.recv_loop cfg env fuel flags_ end_ k block timeout msg_ s =
      .ok (true, m, s1)) :
    ∃ st m0 pre, st.trace = s.trace ++ pre ∧
      (env.answer st (.xrecv m0 flags_)).rc = 0 ∧
      m = (env.answer st (.xrecv m0 flags_)).msg ∧
      s1.trace = st.trace ++ [.xrecv m0 flags_] := by
  induction k generalizing block timeout msg_ s with
  | zero => simp [socket_base_t.recv_loop] at h
  | succ k ih =>
    simp only [socket_base_t.recv_loop] at h
    cases hp : socket_base_t.process_commands cfg env fuel (if block = true then timeout else 0)
        false s with
    | error f => rw [hp] at h; cases h
    | ok p =>
      obtain ⟨r, s2⟩ := p
      obtain ⟨rest, hr, -⟩ := process_commands_trace cfg env fuel _ false s r s2 hp
      rw [hp] at h
      simp only at h
      generalize hx : socket_base_t.xrecv env msg_ flags_ s2 = x at h
      obtain ⟨rc, m1, s3⟩ := x
      obtain ⟨x1, x2, x3⟩ := xrecv_spec env msg_ flags_ s2 rc m1 s3 hx
      simp only at h
      generalize hq : socket_base_t.remaining env timeout end_ s3 = q at h
      obtain ⟨t, s4⟩ := q
      obtain ⟨rest2, hr2, -⟩ := remaining_trace env timeout end_ s3
      rw [hq] at hr2
      simp only at h hr2
      split_ifs at h with h1 h2 h3
      · simp at h
      · simp only [Except.ok.injEq, Prod.mk.injEq, true_and] at h
        obtain ⟨hm, hs⟩ := h
        subst hm hs
        exact ⟨s2, msg_, rest, hr, x1 ▸ h2, x2, x3⟩
      · simp at h
      · cases t with
        | none => simp at h
        | some t =>
          simp only at h
          obtain ⟨st, m0, pre, i1, i2, i3, i4⟩ := ih _ _ _ _ h
          refine ⟨st, m0, rest ++ [.xrecv msg_ flags_] ++ rest2 ++ pre, ?_, i2, i3, i4⟩
          rw [i1, hr2, x3, hr]
          simp only [List.append_assoc]

theorem recv_flags_spec (msg_ : msg_t) (s : socket_base_t) :
    (socket_base_t.recv_flags msg_ s).2.rcvlabel = msg_.label ∧
    (socket_base_t.recv_flags msg_ s).2.rcvmore = (msg_.more || msg_.label) ∧
    (socket_base_t.recv_flags msg_ s).1.label = false ∧
    (socket_base_t.recv_flags msg_ s).1.more = false ∧
    (socket_base_t.recv_flags msg_ s).1.data = msg_.data ∧
    (socket_base_t.recv_flags msg_ s).1.valid = msg_.valid ∧
    (socket_base_t.recv_flags msg_ s).2.trace = s.trace := by
  obtain ⟨v, m, l, d⟩ := msg_
  cases m <;> cases l <;> simp [socket_base_t.recv_flags]

theorem recv_tick_trace (cfg : config_t) (env : env_t) (fuel : Nat) (s : socket_base_t)
    (r : Int) (s1 : socket_base_t) (h : socket_base_t.recv_tick cfg env fuel s = .ok (r, s1)) :
    ∃ rest, s1.trace = s.trace ++ rest ∧ count_xrecv rest = 0 := by
  simp only [socket_base_t.recv_tick] at h
  split_ifs at h with h1
  · cases hp : socket_base_t.process_commands cfg env fuel 0 false
        { s with ticks := s.ticks + 1 } with
    | error f => rw [hp] at h; cases h
    | ok p =>
      obtain ⟨r2, s2⟩ := p
      obtain ⟨rest, hr, hc⟩ := process_commands_trace cfg env fuel _ false _ r2 s2 hp
      rw [hp] at h
      simp only at h
      split_ifs at h <;> cases h <;> exact ⟨rest, hr, hc⟩
  · cases h
    exact ⟨[], by simp, rfl⟩

theorem recv_nonblocking_returns (cfg : config_t) (env : env_t) (fuel : Nat) (msg_ : msg_t)
    (flags_ : Nat) (s : socket_base_t) (m1 : msg_t) (s1 : socket_base_t)
    (h : socket_base_t.recv_nonblocking cfg env fuel msg_ flags_ s = .ok (0, m1, s1)) :
    ∃ st m0 pre s2, st.trace = s.trace ++ pre ∧ count_xrecv pre = 0 ∧
      0 ≤ (env.answer st (.xrecv m0 flags_)).rc ∧
      s2.trace = st.trace ++ [.xrecv m0 flags_] ∧
      (m1, s1) = socket_base_t.recv_flags (env.answer st (.xrecv m0 flags_)).msg s2 := by
  simp only [socket_base_t.recv_nonblocking] at h
  cases hp : socket_base_t.process_commands cfg env fuel 0 false s with
  | error f => rw [hp] at h; cases h
  | ok p =>
    obtain ⟨r2, s2⟩ := p
    obtain ⟨rest, hr, hc⟩ := process_commands_trace cfg env fuel _ false _ r2 s2 hp
    rw [hp] at h
    simp only at h
    generalize hx : socket_base_t.xrecv env msg_ flags_ { s2 with ticks := 0 } = x at h
    obtain ⟨rc, m2, s3⟩ := x
    obtain ⟨x1, x2, x3⟩ := xrecv_spec env msg_ flags_ _ rc m2 s3 hx
    simp only at h
    split_ifs at h with h1 h2
    · simp at h
    · simp only [Except.ok.injEq, Prod.mk.injEq] at h
      omega
    · simp only [Except.ok.injEq, Prod.mk.injEq, true_and] at h
      refine ⟨{ s2 with ticks := 0 }, msg_, rest, s3, hr, hc, ?_, x3, ?_⟩
      · rw [← x1]; omega
      · rw [← x2, ← h.1, ← h.2]

theorem recv_blocking_returns (cfg : config_t) (env : env_t) (fuel : Nat) (msg_ : msg_t)
    (flags_ : Nat) (s : socket_base_t) (m1 : msg_t) (s1 : socket_base_t)
    (h : socket_base_t.recv_blocking cfg env fuel msg_ flags_ s = .ok (0, m1, s1)) :
    ∃ st m0 pre s2, st.trace = s.trace ++ pre ∧
      0 ≤ (env.answer st (.xrecv m0 flags_)).rc ∧
      s2.trace = st.trace ++ [.xrecv m0 flags_] ∧
      (m1, s1) = socket_base_t.recv_flags (env.answer st (.xrecv m0 flags_)).msg s2 := by
  simp only [socket_base_t.recv_blocking] at h
  obtain ⟨rest, hr, -⟩ := deadline_trace env s.options.rcvtimeo s
  generalize socket_base_t.deadline env s.options.rcvtimeo s = d at h hr
  obtain ⟨end_, s2⟩ := d
  simp only at h hr
  cases hl : socket_base_t.recv_loop cfg env fuel flags_ end_ fuel (s2.ticks != 0)
      s.options.rcvtimeo msg_ s2 with
  | error f => rw [hl] at h; cases h
  | ok p =>
    obtain ⟨b, m2, s3⟩ := p
    rw [hl] at h
    cases b with
    | false => simp at h
    | true =>
      simp only [Except.ok.injEq, Prod.mk.injEq, true_and] at h
      obtain ⟨st, m0, pre, i1, i2, i3, i4⟩ := recv_loop_returns cfg env fuel flags_ end_ fuel _ _
        msg_ s2 m2 s3 hl
      refine ⟨st, m0, rest ++ pre, s3, ?_, by rw [i2], i4, ?_⟩
      · rw [i1, hr, List.append_assoc]
      · rw [← i3, ← h.1, ← h.2]

theorem recv_returns (cfg : config_t) (env : env_t) (fuel : Nat) (msg_ : msg_t)
    (flags_ : Nat) (s : socket_base_t) (m1 : msg_t) (s1 : socket_base_t)
    (h : socket_base_t.recv cfg env fuel msg_ flags_ s = .ok (0, m1, s1)) :
    ∃ st m0 pre rest s2, st.trace = s.trace ++ pre ∧
      0 ≤ (env.answer st (.xrecv m0 flags_)).rc ∧
      s2.trace = st.trace ++ [.xrecv m0 flags_] ++ rest ∧ count_xrecv rest = 0 ∧
      (m1, s1) = socket_base_t.recv_flags (env.answer st (.xrecv m0 flags_)).msg s2 := by
  simp only [socket_base_t.recv] at h
  generalize hx : socket_base_t.xrecv env msg_ flags_ s = x at h
  obtain ⟨rc, m2, s2⟩ := x
  obtain ⟨x1, x2, x3⟩ := xrecv_spec env msg_ flags_ s rc m2 s2 hx
  simp only at h
  split_ifs at h with h1 h2 h3 h4
  · simp at h
  · simp at h
  · simp at h
  · cases ht : socket_base_t.recv_tick cfg env fuel s2 with
    | error f => rw [ht] at h; cases h
    | ok p =>
      obtain ⟨r, s3⟩ := p
      obtain ⟨rest, hr, hc⟩ := recv_tick_trace cfg env fuel s2 r s3 ht
      rw [ht] at h
      simp only at h
      split_ifs at h with h5
      · simp at h
      · simp only [Except.ok.injEq, Prod.mk.injEq, true_and] at h
        refine ⟨s, msg_, [], rest, s3, by simp, by rw [← x1, h4], by rw [hr, x3], hc, ?_⟩
        rw [← x2, ← h.1, ← h.2]
  · cases ht : socket_base_t.recv_tick cfg env fuel s2 with
    | error f => rw [ht] at h; cases h
    | ok p =>
      obtain ⟨r, s3⟩ := p
      obtain ⟨rest, hr, hc⟩ := recv_tick_trace cfg env fuel s2 r s3 ht
      rw [ht] at h
      simp only at h
      split_ifs at h with h5 h6
      · simp at h
      · obtain ⟨st, m0, pre, s4, i1, -, i3, i4, i5⟩ :=
          recv_nonblocking_returns cfg env fuel m2 flags_ s3 m1 s1 h
        refine ⟨st, m0, [.xrecv msg_ flags_] ++ rest ++ pre, [], s4, ?_, i3, by simpa using i4,
          rfl, i5⟩
        rw [i1, hr, x3]
        simp only [List.append_assoc]
      · obtain ⟨st, m0, pre, s4, i1, i3, i4, i5⟩ :=
          recv_blocking_returns cfg env fuel m2 flags_ s3 m1 s1 h
        refine ⟨st, m0, [.xrecv msg_ flags_] ++ rest ++ pre, [], s4, ?_, i3, by simpa using i4,
          rfl, i5⟩
        rw [i1, hr, x3]
        simp only [List.append_assoc]

/-! ## The claim about the flags of a received message -/

/-- C17, the claim as it stands fails for RCVMORE: `xrecv` returns a message
that carries the label flag and not the more flag, `recv` succeeds, and the
RCVMORE field is true although the message did not carry the more flag. -/
theorem recv_label_sets_rcvmore :
    ((sample_env none [some (sample_msg false true [65])] (sample_options .ZMQ_PUB)).answer
      (socket_base_t.init (sample_options .ZMQ_SUB) (.other 0))
      (.xrecv (sample_msg false false []) 0)).msg = sample_msg false true [65] ∧
    socket_base_t.recv sample_config
        (sample_env none [some (sample_msg false true [65])] (sample_options .ZMQ_PUB)) 0
        (sample_msg false false []) 0 (socket_base_t.init (sample_options .ZMQ_SUB) (.other 0)) =
      .ok (0, sample_msg false false [65],
        { socket_base_t.init (sample_options .ZMQ_SUB) (.other 0) with
          ticks := 1, rcvlabel := true, rcvmore := true,
          trace := [.xrecv (sample_msg false false []) 0] }) :=
  ⟨rfl, rfl⟩

/-- C17, amended: a `recv` that returns 0 has got its message from a call of
`xrecv` that did not fail, the last call of `xrecv` it made; afterwards the
RCVLABEL field is the label flag that message carried when `xrecv` returned
it, the RCVMORE field is true exactly when the message carried the more flag
or the label flag, and the message handed to the caller is that message with
both flags cleared. -/
theorem recv_exposes_flags (cfg : config_t) (env : env_t) (fuel : Nat) (msg_ : msg_t)
    (flags_ : Nat) (s : socket_base_t) (m1 : msg_t) (s1 : socket_base_t)
    (h : socket_base_t.recv cfg env fuel msg_ flags_ s = .ok (0, m1, s1)) :
    ∃ st m0 pre rest,
      st.trace = s.trace ++ pre ∧
      s1.trace = st.trace ++ [.xrecv m0 flags_] ++ rest ∧ count_xrecv rest = 0 ∧
      0 ≤ (env.answer st (.xrecv m0 flags_)).rc ∧
      s1.rcvlabel = (env.answer st (.xrecv m0 flags_)).msg.label ∧
      s1.rcvmore = ((env.answer st (.xrecv m0 flags_)).msg.more ||
        (env.answer st (.xrecv m0 flags_)).msg.label) ∧
      m1.label = false ∧ m1.more = false ∧
      m1.data = (env.answer st (.xrecv m0 flags_)).msg.data ∧
      m1.valid = (env.answer st (.xrecv m0 flags_)).msg.valid := by
  obtain ⟨st, m0, pre, rest, s2, i1, i2, i3, i4, i5⟩ :=
    recv_returns cfg env fuel msg_ flags_ s m1 s1 h
  obtain ⟨f1, f2, f3, f4, f5, f6, f7⟩ :=
    recv_flags_spec (env.answer st (.xrecv m0 flags_)).msg s2
  rw [← i5] at f1 f2 f3 f4 f5 f6 f7
  exact ⟨st, m0, pre, rest, i1, by rw [← i3]; exact f7, i4, i2, f1, f2, f3, f4, f5, f6⟩

theorem recv_exposes_flags_witness :
    (∃ st m0 pre rest,
      st.trace = (socket_base_t.init (sample_options .ZMQ_SUB) (.other 0)).trace ++ pre ∧
      ({ socket_base_t.init (sample_options .ZMQ_SUB) .EAGAIN with
          rcvlabel := false, rcvmore := true,
          trace := [.xrecv (sample_msg false false []) 1, .rdtsc, .mailbox_recv 0,
            .xrecv (sample_msg false false []) 1] } : socket_base_t).trace =
        st.trace ++ [.xrecv m0 1] ++ rest ∧ count_xrecv rest = 0 ∧
      0 ≤ ((sample_env none [none, some (sample_msg true false [65])]
        (sample_options .ZMQ_PUB)).answer st (.xrecv m0 1)).rc ∧
      ({ socket_base_t.init (sample_options .ZMQ_SUB) .EAGAIN with
          rcvlabel := false, rcvmore := true,
          trace := [.xrecv (sample_msg false false []) 1, .rdtsc, .mailbox_recv 0,
            .xrecv (sample_msg false false []) 1] } : socket_base_t).rcvlabel =
        ((sample_env none [none, some (sample_msg true false [65])]
          (sample_options .ZMQ_PUB)).answer st (.xrecv m0 1)).msg.label ∧
      ({ socket_base_t.init (sample_options .ZMQ_SUB) .EAGAIN with
          rcvlabel := false, rcvmore := true,
          trace := [.xrecv (sample_msg false false []) 1, .rdtsc, .mailbox_recv 0,
            .xrecv (sample_msg false false []) 1] } : socket_base_t).rcvmore =
        (((sample_env none [none, some (sample_msg true false [65])]
          (sample_options .ZMQ_PUB)).answer st (.xrecv m0 1)).msg.more ||
        ((sample_env none [none, some (sample_msg true false [65])]
          (sample_options .ZMQ_PUB)).answer st (.xrecv m0 1)).msg.label) ∧
      (sample_msg false false [65]).label = false ∧ (sample_msg false false [65]).more = false ∧
      (sample_msg false false [65]).data =
        ((sample_env none [none, some (sample_msg true false [65])]
          (sample_options .ZMQ_PUB)).answer st (.xrecv m0 1)).msg.data ∧
      (sample_msg false false [65]).valid =
        ((sample_env none [none, some (sample_msg true false [65])]
          (sample_options .ZMQ_PUB)).answer st (.xrecv m0 1)).msg.valid) ∧
    socket_base_t.recv sample_config
        (sample_env none [none, some (sample_msg true true [65])] (sample_options .ZMQ_PUB)) 1
        (sample_msg false false []) 0 (socket_base_t.init (sample_options .ZMQ_SUB) (.other 0)) =
      .ok (0, sample_msg false false [65],
        { socket_base_t.init (sample_options .ZMQ_SUB) .EAGAIN with
          rcvlabel := true, rcvmore := true,
          trace := [.xrecv (sample_msg false false []) 0, .mailbox_recv (-1),
            .xrecv (sample_msg false false []) 0] }) :=
  ⟨recv_exposes_flags sample_config
    (sample_env none [none, some (sample_msg true false [65])] (sample_options .ZMQ_PUB)) 1
    (sample_msg false false []) 1 (socket_base_t.init (sample_options .ZMQ_SUB) (.other 0))
    (sample_msg false false [65])
    { socket_base_t.init (sample_options .ZMQ_SUB) .EAGAIN with
      rcvlabel := false, rcvmore := true,
      trace := [.xrecv (sample_msg false false []) 1, .rdtsc, .mailbox_recv 0,
        .xrecv (sample_msg false false []) 1] } rfl, rfl⟩

/-! ## The claim about the options of a SUB socket -/

/-- C18: for every byte string `v` of length `n`, `sub_t::xsetsockopt` with
`ZMQ_SUBSCRIBE` passes to `xsub_t::xsend`, with the flags 0, a message of
exactly `n + 1` bytes whose first byte is 1 and whose other bytes are `v`;
with `ZMQ_UNSUBSCRIBE` the same with the first byte 0.  It then closes the
message and, when the close succeeds, returns what `xsend` returned, with the
`errno` of `xsend` when that failed.  Every other option is passed unchanged
to `xsub_t::xsetsockopt`, whose result is returned. -/
theorem sub_subscription_message (cfg : config_t) (env : env_t) (option_ : Int)
    (optval_ : List Nat) (s : socket_base_t)
    (hne : cfg.ZMQ_SUBSCRIBE ≠ cfg.ZMQ_UNSUBSCRIBE) :
    (option_ = cfg.ZMQ_SUBSCRIBE ∨ option_ = cfg.ZMQ_UNSUBSCRIBE →
      ∃ msg : msg_t,
        msg.data = (if option_ = cfg.ZMQ_SUBSCRIBE then 1 else 0) :: optval_ ∧
        msg.data.length = optval_.length + 1 ∧
        ((ask env (.msg_close (vask env (.xsub_xsend msg 0) s).1.msg)
            (vask env (.xsub_xsend msg 0) s).2).1.rc = 0 →
          ∃ s1, sub_t.xsetsockopt cfg env option_ optval_ s =
              .ok ((vask env (.xsub_xsend msg 0) s).1.rc, s1) ∧
            s1.trace = s.trace ++
              [.xsub_xsend msg 0, .msg_close (vask env (.xsub_xsend msg 0) s).1.msg] ∧
            ((vask env (.xsub_xsend msg 0) s).1.rc ≠ 0 →
              s1.errno = (vask env (.xsub_xsend msg 0) s).1.errno))) ∧
    (option_ ≠ cfg.ZMQ_SUBSCRIBE → option_ ≠ cfg.ZMQ_UNSUBSCRIBE →
      sub_t.xsetsockopt cfg env option_ optval_ s =
        .ok ((vask env (.xsub_xsetsockopt option_ optval_) s).1.rc,
          (vask env (.xsub_xsetsockopt option_ optval_) s).2) ∧
      (vask env (.xsub_xsetsockopt option_ optval_) s).2.trace =
        s.trace ++ [.xsub_xsetsockopt option_ optval_]) := by
  constructor
  · intro ho
    have hdata : memcpy
        (if option_ = cfg.ZMQ_SUBSCRIBE then (List.replicate (optval_.length + 1) 0).set 0 1
          else if option_ = cfg.ZMQ_UNSUBSCRIBE then
            (List.replicate (optval_.length + 1) 0).set 0 0
          else List.replicate (optval_.length + 1) 0) 1 optval_ optval_.length =
        (if option_ = cfg.ZMQ_SUBSCRIBE then 1 else 0) :: optval_ := by
      have hu : option_ ≠ cfg.ZMQ_SUBSCRIBE → option_ = cfg.ZMQ_UNSUBSCRIBE := by
        intro h
        rcases ho with h1 | h1
        · exact absurd h1 h
        · exact h1
      by_cases h1 : option_ = cfg.ZMQ_SUBSCRIBE
      · simp [memcpy, h1, List.replicate_succ]
        omega
      · have h3 : ¬ cfg.ZMQ_UNSUBSCRIBE = cfg.ZMQ_SUBSCRIBE := fun h => hne h.symm
        simp [memcpy, hu h1, h3, List.replicate_succ]
        omega
    refine ⟨msg_t.mk true false false ((if option_ = cfg.ZMQ_SUBSCRIBE then 1 else 0) :: optval_),
      rfl, by simp, ?_⟩
    simp only [sub_t.xsetsockopt, ho, if_true, hdata]
    generalize (if option_ = cfg.ZMQ_SUBSCRIBE then (1 : Nat) else 0) = b
    intro hclose
    simp only [hclose, ne_eq, not_true_eq_false, if_false]
    by_cases hrc : (vask env (.xsub_xsend (msg_t.mk true false false (b :: optval_)) 0) s).1.rc = 0
    · rw [if_neg (not_not.mpr hrc)]
      exact ⟨_, rfl, by simp [ask, vask], fun h => absurd hrc h⟩
    · rw [if_pos hrc]
      exact ⟨_, rfl, by simp [ask, vask], fun _ => rfl⟩
  · intro h1 h2
    refine ⟨?_, rfl⟩
    simp only [sub_t.xsetsockopt, h1, h2, or_self, if_false]

theorem sub_subscription_message_witness :
    sub_t.xsetsockopt sample_config (sample_env (some .EAGAIN) [] (sample_options .ZMQ_PUB)) 6
        [65, 66] (socket_base_t.init (sample_options .ZMQ_SUB) (.other 0)) =
      .ok (-1, { socket_base_t.init (sample_options .ZMQ_SUB) .EAGAIN with
        trace := [.xsub_xsend (sample_msg false false [1, 65, 66]) 0,
          .msg_close (sample_msg false false [1, 65, 66])] }) ∧
    sub_t.xsetsockopt sample_config (sample_env none [] (sample_options .ZMQ_PUB)) 7
        [65, 66] (socket_base_t.init (sample_options .ZMQ_SUB) (.other 0)) =
      .ok (0, { socket_base_t.init (sample_options .ZMQ_SUB) (.other 0) with
        trace := [.xsub_xsend (sample_msg false false [0, 65, 66]) 0,
          .msg_close (sample_msg false false [0, 65, 66])] }) ∧
    sub_t.xsetsockopt sample_config (sample_env none [] (sample_options .ZMQ_PUB)) 8
        [65, 66] (socket_base_t.init (sample_options .ZMQ_SUB) (.other 0)) =
      .ok ((vask (sample_env none [] (sample_options .ZMQ_PUB)) (.xsub_xsetsockopt 8 [65, 66])
          (socket_base_t.init (sample_options .ZMQ_SUB) (.other 0))).1.rc,
        (vask (sample_env none [] (sample_options .ZMQ_PUB)) (.xsub_xsetsockopt 8 [65, 66])
          (socket_base_t.init (sample_options .ZMQ_SUB) (.other 0))).2) :=
  ⟨rfl, rfl, ((sub_subscription_message sample_config
    (sample_env none [] (sample_options .ZMQ_PUB)) 8 [65, 66]
    (socket_base_t.init (sample_options .ZMQ_SUB) (.other 0)) (by decide)).2
    (by decide) (by decide)).1⟩

/-! ## The claims about the table extension -/

section

set_option maxRecDepth 16384

/-- C21, the code at the failing input: the root has the single child of byte
66 and `add` descends with byte 65.  The block `newtable` has the two slots of
the range `[65, 67)`, but the old child is copied to the offset `c - lo = 0`,
the slot of byte 65, and not to the slot of its own byte 66; the node is left
with `min = 65`, `count = 2` and the union still holding `next.node`, the new
block being stored nowhere; the read of `next.table [0]` that follows is
undefined.  With the bytes the other way round (child at 65, byte 66) the node
is left with `min = 66`, not `min (65, 66)`. -/
theorem widening_stores_no_table :
    run [op.add [66] 1] empty = .ok (single [] 66 (leaf [1])) ∧
    newtable 65 66 1 (.node (some (leaf [1]))) = some [some (leaf [1]), none] ∧
    adjust 65 66 1 (.node (some (leaf [1]))) = .ok (65, 2, .node (some (leaf [1]))) ∧
    add [65] 2 (single [] 66 (leaf [1])) = .error .undefined ∧
    adjust 66 65 1 (.node (some (leaf [1]))) = .ok (66, 2, .node (some (leaf [1]))) :=
  ⟨rfl, rfl, rfl, rfl, rfl⟩

/-- C22, the code at the failing input: the root has the single child of byte
0 and `add` descends with byte 255.  The table extension leaves the node with
`min = 255` and `count = 256`, so `min + count - 1` is 510 and not at most
255, and with the union still holding `next.node`; the index `c - min = 0` is
below `count`, but the read of `next.table [0]` is undefined. -/
theorem widening_breaks_range :
    run [op.add [0] 1] empty = .ok (single [] 0 (leaf [1])) ∧
    adjust 255 0 1 (.node (some (leaf [1]))) = .ok (255, 256, .node (some (leaf [1]))) ∧
    255 + 256 - 1 = 510 ∧
    add [255] 2 (single [] 0 (leaf [1])) = .error .undefined :=
  ⟨rfl, rfl, rfl, rfl⟩

/-- C23, the code at the failing input: the first `add` of the scenario leaves
the root with the single child of byte 0; the second, of byte 1, is a table
extension and does not return normally, and so the sequence of the 256 calls
does not. -/
theorem stress_adds_fault :
    stress_adds.length = 256 ∧
    run (stress_adds.take 1) empty = .ok (single [] 0 (leaf [1])) ∧
    adjust 1 0 1 (.node (some (leaf [1]))) = .ok (1, 2, .node (some (leaf [1]))) ∧
    run (stress_adds.take 2) empty = .error .undefined ∧
    run stress_adds empty = .error .undefined :=
  ⟨by simp [stress_adds], rfl, rfl, rfl, rfl⟩

end

/-! ## The table loop of the sweep on 256 slots -/

theorem rm_table_full_empty (step : List Nat → mtrie_t → result (mtrie_t × List Nat × List (List Nat)))
    (min n : Nat) (hn : 256 ≤ n) :
    ∀ (kk c : Nat) (buff : List Nat), c < 256 → 0 < buff.length →
      rm_table step min n 0 kk c buff (List.replicate n none) = .error .fuel := by
  intro kk
  induction kk with
  | zero => intro c buff _ _; rfl
  | succ kk ih =>
    intro c buff hc hb
    have hne : c ≠ n := by omega
    have hlt : (c + 1) % 256 < 256 := Nat.mod_lt _ (by omega)
    have hcn : c < n := by omega
    have hs : (List.replicate n (none : Option mtrie_t))[c]? = some none := by
      rw [List.getElem?_replicate, if_pos hcn]
    have hb1 : 0 < (buff.set 0 ((min + c) % 256)).length := by
      rw [List.length_set]; exact hb
    rw [rm_table]
    simp only [hne, if_false, hb, if_true, hs]
    exact ih _ _ hlt hb1

theorem rm_pipe_full_empty (x : pipe_t) (pipes : List pipe_t) (min n fuel : Nat)
    (hn : 256 ≤ n) :
    rm_pipe fuel x (.mk pipes min n (.table (List.replicate n none))) = .error .fuel := by
  cases fuel with
  | zero => rfl
  | succ k =>
    have hl : 0 < (realloc [] (0 + 256)).length := by
      rw [realloc_length]; omega
    have h := rm_table_full_empty
      (fun b child => rm_helper_pipe x k b (0 + 1) (0 + 256) child) min n hn k 0
      (realloc [] (0 + 256)) (by omega) hl
    have h0 : ¬ n = 0 := by omega
    have h1 : ¬ n = 1 := by omega
    simp only [rm_pipe, rm_helper_pipe, ge_iff_le, le_refl, if_true, h0, h1, if_false, h]

/-! ## The claim about the termination of the sweep -/

/-- The sweep and the width of the tables: the sweep of a node with
`count = 256` returns for no step budget, whatever its pipes, its base byte
and its table, and on the table of 256 null slots it meets no other fault
than the end of the budget: the index `c` of the table loop is a byte and is
never equal to 256.  On the tries with tables of 2 to 255 slots, and so on
every trie that a sequence of `add` and `rm` calls returns, the sweep returns
as soon as the budget reaches `need`. -/
theorem sweep_never_leaves_full_table :
    (∀ (fuel : Nat) (x : pipe_t) (pipes : List pipe_t) (min : Nat) (T : List (Option mtrie_t))
      (r : mtrie_t × List (List Nat)),
      rm_pipe fuel x (.mk pipes min 256 (.table T)) ≠ .ok r) ∧
    (∀ (fuel : Nat) (x : pipe_t),
      rm_pipe fuel x (fork [] 0 (List.replicate 256 none)) = .error .fuel) ∧
    (∀ (t : mtrie_t) (x : pipe_t) (fuel : Nat), wf_upto 255 t = true → need t ≤ fuel →
      rm_pipe fuel x t = .ok (swept x t, emptied x [] t)) ∧
    (∀ (ops : List op) (t : mtrie_t) (x : pipe_t) (fuel : Nat), run ops empty = .ok t →
      need t ≤ fuel → rm_pipe fuel x t = .ok (swept x t, emptied x [] t)) := by
  refine ⟨?_, ?_, ?_, ?_⟩
  · intro fuel x pipes min T r h
    unfold rm_pipe at h
    cases h1 : rm_helper_pipe x fuel [] 0 0 (.mk pipes min 256 (.table T)) with
    | error e => simp [h1] at h
    | ok v => exact rm_helper_pipe_no_exit x pipes min 256 T (le_refl _) fuel [] 0 0 v h1
  · intro fuel x
    have h : fork [] 0 (List.replicate 256 (none : Option mtrie_t)) =
        .mk [] 0 256 (.table (List.replicate 256 none)) := by
      unfold fork
      rw [List.length_replicate]
    rw [h]
    exact rm_pipe_full_empty x [] 0 256 fuel (le_refl _)
  · intro t x fuel h hf
    exact rm_pipe_eq x t h fuel hf
  · intro ops t x fuel h hf
    exact rm_pipe_eq x t (wf_of_run 255 ops t h) fuel hf

theorem sweep_never_leaves_full_table_witness :
    rm_pipe 5 5 (fork [5] 10 [some (leaf [5]), none, some (leaf [5, 6])]) =
      .ok (swept 5 (fork [5] 10 [some (leaf [5]), none, some (leaf [5, 6])]),
        emptied 5 [] (fork [5] 10 [some (leaf [5]), none, some (leaf [5, 6])])) ∧
    rm_pipe 3 1 (single [] 65 (single [1] 66 (leaf [1, 2]))) =
      .ok (swept 1 (single [] 65 (single [1] 66 (leaf [1, 2]))),
        emptied 1 [] (single [] 65 (single [1] 66 (leaf [1, 2])))) ∧
    emptied 1 [] (single [] 65 (single [1] 66 (leaf [1, 2]))) = [[65]] :=
  ⟨sweep_never_leaves_full_table.2.2.1
      (fork [5] 10 [some (leaf [5]), none, some (leaf [5, 6])]) 5 5 (by decide) (by decide),
    sweep_never_leaves_full_table.2.2.2
      [op.add [65] 1, op.add [65, 66] 1, op.add [65, 66] 2, op.add [65, 66] 2,
        op.rm [65, 66] 2, op.add [65, 66] 2]
      (single [] 65 (single [1] 66 (leaf [1, 2]))) 1 3 rfl (by decide), rfl⟩

section

set_option maxRecDepth 16384

end

/-! ## The throttle of the command drain -/

theorem process_commands_skip (cfg : config_t) (env : env_t) (fuel : Nat) (s : socket_base_t)
    (h0 : (env.answer s .rdtsc).ptr ≠ 0) (h1 : s.last_tsc ≤ (env.answer s .rdtsc).ptr)
    (h2 : (env.answer s .rdtsc).ptr - s.last_tsc ≤ cfg.max_command_delay) :
    socket_base_t.process_commands cfg env fuel 0 true s =
      .ok (0, { s with errno := (env.answer s .rdtsc).errno, trace := s.trace ++ [.rdtsc] }) := by
  have h3 : (¬ (ask env .rdtsc s).1.ptr = 0 ∧ True) ∧
      ((ask env .rdtsc s).1.ptr ≥ (ask env .rdtsc s).2.last_tsc ∧
        (ask env .rdtsc s).1.ptr - (ask env .rdtsc s).2.last_tsc ≤ cfg.max_command_delay) :=
    ⟨⟨h0, trivial⟩, h1, h2⟩
  simp only [socket_base_t.process_commands, ne_eq, not_true_eq_false, if_false]
  rw [if_pos h3]
  rfl

theorem process_commands_poll (cfg : config_t) (env : env_t) (fuel : Nat) (throttle_ : Bool)
    (s : socket_base_t) (h : throttle_ = false ∨ (env.answer s .rdtsc).ptr = 0) :
    socket_base_t.process_commands cfg env fuel 0 throttle_ s =
      socket_base_t.process_commands_end env fuel
        (ask env (.mailbox_recv 0) (ask env .rdtsc s).2).1.rc
        (ask env (.mailbox_recv 0) (ask env .rdtsc s).2).1.ptr
        (ask env (.mailbox_recv 0) (ask env .rdtsc s).2).2 := by
  have h3 : ¬ (¬ (ask env .rdtsc s).1.ptr = 0 ∧ throttle_ = true) := by
    rintro ⟨a, b⟩
    rcases h with h | h
    · rw [h] at b; cases b
    · exact a h
  have h4 : ¬ ((¬ (ask env .rdtsc s).1.ptr = 0 ∧ throttle_ = true) ∧
      ((ask env .rdtsc s).1.ptr ≥ (ask env .rdtsc s).2.last_tsc ∧
        (ask env .rdtsc s).1.ptr - (ask env .rdtsc s).2.last_tsc ≤ cfg.max_command_delay)) :=
    fun h5 => h3 h5.1
  simp only [socket_base_t.process_commands, ne_eq, not_true_eq_false, if_false]
  rw [if_neg h4, if_neg h3]

theorem process_commands_end_prefix (env : env_t) (fuel : Nat) (rc : Int) (cmd : command_t)
    (s : socket_base_t) (r : Int) (s1 : socket_base_t)
    (h : socket_base_t.process_commands_end env fuel rc cmd s = .ok (r, s1)) :
    s.trace <+: s1.trace := by
  obtain ⟨rest, hr, -⟩ := process_commands_end_trace env fuel rc cmd s r s1 h
  exact ⟨rest, hr.symm⟩

/-! ## The claim about the throttle of the command drain -/

/-- C24: in `process_commands (0, true)`, when the tick counter read is not 0,
is not before `last_tsc` and is less than `max_command_delay` after it, the
drain is skipped: the call returns 0 for every step budget, the only call made
is the one that reads the counter (nothing is received from the mailbox and no
command is processed), and `last_tsc` and every other member of the socket are
as before.  When `throttle_` is false or the counter reads 0, the call goes on
with `mailbox.recv (&cmd, 0)`: it is what the drain does from the socket after
that call, and whenever it returns that call is in the trace right after the
read of the counter. -/
theorem throttled_drain_skipped (cfg : config_t) (env : env_t) (fuel : Nat)
    (s : socket_base_t) :
    ((env.answer s .rdtsc).ptr ≠ 0 → s.last_tsc ≤ (env.answer s .rdtsc).ptr →
      (env.answer s .rdtsc).ptr - s.last_tsc < cfg.max_command_delay →
      socket_base_t.process_commands cfg env fuel 0 true s =
        .ok (0,
          { s with errno := (env.answer s .rdtsc).errno, trace := s.trace ++ [.rdtsc] })) ∧
    (∀ throttle_ : Bool, throttle_ = false ∨ (env.answer s .rdtsc).ptr = 0 →
      socket_base_t.process_commands cfg env fuel 0 throttle_ s =
        socket_base_t.process_commands_end env fuel
          (ask env (.mailbox_recv 0) (ask env .rdtsc s).2).1.rc
          (ask env (.mailbox_recv 0) (ask env .rdtsc s).2).1.ptr
          (ask env (.mailbox_recv 0) (ask env .rdtsc s).2).2 ∧
      ∀ r s1, socket_base_t.process_commands cfg env fuel 0 throttle_ s = .ok (r, s1) →
        s.trace ++ [.rdtsc, .mailbox_recv 0] <+: s1.trace) := by
  constructor
  · intro h0 h1 h2
    exact process_commands_skip cfg env fuel s h0 h1 (Nat.le_of_lt h2)
  · intro throttle_ h
    refine ⟨process_commands_poll cfg env fuel throttle_ s h, ?_⟩
    intro r s1 hr
    rw [process_commands_poll cfg env fuel throttle_ s h] at hr
    have := process_commands_end_prefix env fuel _ _ _ r s1 hr
    simpa [ask] using this

theorem throttled_drain_skipped_witness :
    socket_base_t.process_commands sample_config
        (sample_env none [] (sample_options .ZMQ_PUB)) 0 0 true
        { socket_base_t.init (sample_options .ZMQ_SUB) (.other 0) with last_tsc := 1 } =
      .ok (0, { socket_base_t.init (sample_options .ZMQ_SUB) (.other 0) with
        last_tsc := 1, trace := [.rdtsc] }) ∧
    socket_base_t.process_commands sample_config
        (sample_env none [] (sample_options .ZMQ_PUB)) 1 0 false
        { socket_base_t.init (sample_options .ZMQ_SUB) (.other 0) with last_tsc := 1 } =
      .ok (0, { socket_base_t.init (sample_options .ZMQ_SUB) .EAGAIN with
        last_tsc := 1, trace := [.rdtsc, .mailbox_recv 0] }) ∧
    ([] : List event_t) ++ [.rdtsc, .mailbox_recv 0] <+:
      ({ socket_base_t.init (sample_options .ZMQ_SUB) .EAGAIN with
        last_tsc := 1, trace := [.rdtsc, .mailbox_recv 0] } : socket_base_t).trace :=
  ⟨(throttled_drain_skipped sample_config (sample_env none [] (sample_options .ZMQ_PUB)) 0
      { socket_base_t.init (sample_options .ZMQ_SUB) (.other 0) with last_tsc := 1 }).1
      (by decide) (by decide) (by decide), rfl,
    ((throttled_drain_skipped sample_config (sample_env none [] (sample_options .ZMQ_PUB)) 1
      { socket_base_t.init (sample_options .ZMQ_SUB) (.other 0) with last_tsc := 1 }).2
      false (Or.inl rfl)).2 0 _ rfl⟩

/-! ## The count of the outstanding acknowledgements -/

theorem foldl_terminate_fields (env : env_t) (l : List pipe_t) (s : socket_base_t) :
    (l.foldl (fun s pipe_ => (ask env (.pipe_terminate pipe_ false) s).2) s).pipes = s.pipes ∧
    (l.foldl (fun s pipe_ => (ask env (.pipe_terminate pipe_ false) s).2) s).term_acks =
      s.term_acks ∧
    (l.foldl (fun s pipe_ => (ask env (.pipe_terminate pipe_ false) s).2) s).terminating =
      s.terminating := by
  induction l generalizing s with
  | nil => exact ⟨rfl, rfl, rfl⟩
  | cons p r ih =>
    rw [List.foldl_cons]
    exact ih _

theorem process_term_pipes (env : env_t) (linger_ : Int) (s : socket_base_t) :
    (socket_base_t.process_term env linger_ s).pipes = s.pipes := by
  simp only [socket_base_t.process_term, own_process_term, register_term_acks]
  exact (foldl_terminate_fields env s.pipes (ask env .unregister_endpoints s).2).1

theorem process_term_terminating (env : env_t) (linger_ : Int) (s : socket_base_t) :
    (socket_base_t.process_term env linger_ s).terminating = true := rfl

theorem process_term_term_acks (env : env_t) (linger_ : Int) (s : socket_base_t) :
    (socket_base_t.process_term env linger_ s).term_acks = s.term_acks + s.pipes.length := by
  have h := foldl_terminate_fields env s.pipes (ask env .unregister_endpoints s).2
  simp only [socket_base_t.process_term, own_process_term, register_term_acks]
  show (List.foldl (fun s pipe_ => (ask env (.pipe_terminate pipe_ false) s).2)
      (ask env .unregister_endpoints s).2 s.pipes).term_acks +
    ((List.foldl (fun s pipe_ => (ask env (.pipe_terminate pipe_ false) s).2)
      (ask env .unregister_endpoints s).2 s.pipes).pipes.length : Int) = _
  rw [h.1, h.2.1]
  rfl

theorem terminated_pipes (env : env_t) (pipe_ : pipe_t) (s : socket_base_t) :
    (socket_base_t.terminated env pipe_ s).pipes = s.pipes.erase pipe_ := by
  simp only [socket_base_t.terminated, socket_base_t.xterminated, vask, is_terminating,
    unregister_term_ack]
  split_ifs <;> rfl

theorem terminated_terminating (env : env_t) (pipe_ : pipe_t) (s : socket_base_t) :
    (socket_base_t.terminated env pipe_ s).terminating = s.terminating := by
  simp only [socket_base_t.terminated, socket_base_t.xterminated, vask, is_terminating,
    unregister_term_ack]
  split_ifs <;> rfl

theorem terminated_term_acks (env : env_t) (pipe_ : pipe_t) (s : socket_base_t) :
    (socket_base_t.terminated env pipe_ s).term_acks =
      if s.terminating then s.term_acks - 1 else s.term_acks := by
  simp only [socket_base_t.terminated, socket_base_t.xterminated, vask, is_terminating,
    unregister_term_ack]
  split_ifs <;> rfl

theorem pipe_run_balance (env : env_t) (ops : List pipe_op) :
    ∀ s : socket_base_t, s.terminating = true → s.term_acks = s.pipes.length →
      attached_then ops s.pipes = true →
      (pipe_run env ops s).terminating = true ∧
        (pipe_run env ops s).term_acks = (pipe_run env ops s).pipes.length := by
  induction ops with
  | nil => intro s ht hb _; exact ⟨ht, hb⟩
  | cons o ops ih =>
    intro s ht hb ha
    cases o with
    | attach pipe_ peer_identity_ =>
      simp only [pipe_run]
      simp only [attached_then] at ha
      apply ih
      · rw [attach_pipe_terminating, ht]
      · rw [attach_pipe_term_acks, attach_pipe_pipes, ht, if_pos rfl, hb]
        simp
      · rw [attach_pipe_pipes]; exact ha
    | terminated pipe_ =>
      simp only [pipe_run]
      simp only [attached_then, Bool.and_eq_true, decide_eq_true_eq] at ha
      apply ih
      · rw [terminated_terminating, ht]
      · rw [terminated_term_acks, terminated_pipes, ht, if_pos rfl, hb,
          List.length_erase_of_mem ha.1]
        have : 0 < s.pipes.length := List.length_pos_of_mem ha.1
        omega
      · rw [terminated_pipes]; exact ha.2

/-! ## The claim about the count of the outstanding acknowledgements -/

/-- C25: `process_term` adds to the outstanding term-acks the number of the
attached pipes, keeps the pipes and sets the socket terminating; `attach_pipe`
on a terminating socket appends the pipe and adds one; `terminated (pipe_)`
erases the pipe and, on a terminating socket, takes one (and none otherwise),
and neither changes the terminating flag.  Hence for a socket that is not
terminating and has no outstanding term-ack, after `process_term` and every
later sequence of `attach_pipe` and `terminated` calls, each `terminated` for a
pipe attached at that moment, the socket is terminating, its outstanding
term-acks are as many as its attached pipes, and they are 0 exactly when no
pipe is attached. -/
theorem term_ack_balance (env : env_t) (linger_ : Int) (s : socket_base_t) :
    ((socket_base_t.process_term env linger_ s).term_acks = s.term_acks + s.pipes.length ∧
      (socket_base_t.process_term env linger_ s).pipes = s.pipes ∧
      (socket_base_t.process_term env linger_ s).terminating = true) ∧
    (∀ pipe_ peer_identity_, s.terminating = true →
      (socket_base_t.attach_pipe env pipe_ peer_identity_ s).term_acks = s.term_acks + 1 ∧
      (socket_base_t.attach_pipe env pipe_ peer_identity_ s).pipes = s.pipes ++ [pipe_] ∧
      (socket_base_t.attach_pipe env pipe_ peer_identity_ s).terminating = true) ∧
    (∀ pipe_,
      (socket_base_t.terminated env pipe_ s).pipes = s.pipes.erase pipe_ ∧
      (socket_base_t.terminated env pipe_ s).terminating = s.terminating ∧
      (s.terminating = true →
        (socket_base_t.terminated env pipe_ s).term_acks = s.term_acks - 1) ∧
      (s.terminating = false →
        (socket_base_t.terminated env pipe_ s).term_acks = s.term_acks)) ∧
    (∀ ops, s.terminating = false → s.term_acks = 0 → attached_then ops s.pipes = true →
      (pipe_run env ops (socket_base_t.process_term env linger_ s)).terminating = true ∧
      (pipe_run env ops (socket_base_t.process_term env linger_ s)).term_acks =
        (pipe_run env ops (socket_base_t.process_term env linger_ s)).pipes.length ∧
      ((pipe_run env ops (socket_base_t.process_term env linger_ s)).term_acks = 0 ↔
        (pipe_run env ops (socket_base_t.process_term env linger_ s)).pipes = [])) := by
  refine ⟨⟨process_term_term_acks env linger_ s, process_term_pipes env linger_ s, rfl⟩,
    ?_, ?_, ?_⟩
  · intro pipe_ peer_identity_ ht
    refine ⟨?_, attach_pipe_pipes env pipe_ peer_identity_ s, ?_⟩
    · rw [attach_pipe_term_acks, ht, if_pos rfl]
    · rw [attach_pipe_terminating, ht]
  · intro pipe_
    refine ⟨terminated_pipes env pipe_ s, terminated_terminating env pipe_ s, ?_, ?_⟩
    · intro ht; rw [terminated_term_acks, ht, if_pos rfl]
    · intro ht; rw [terminated_term_acks, ht]; rfl
  · intro ops _ h0 ha
    have hb := pipe_run_balance env ops (socket_base_t.process_term env linger_ s) rfl
      (by rw [process_term_term_acks, process_term_pipes, h0]; simp)
      (by rw [process_term_pipes]; exact ha)
    refine ⟨hb.1, hb.2, ?_⟩
    rw [hb.2]
    constructor
    · intro h
      exact List.length_eq_zero.mp (by exact_mod_cast h)
    · intro h
      rw [h]; rfl

theorem term_ack_balance_witness :
    (pipe_run (sample_env none [] (sample_options .ZMQ_PUB))
      [.terminated 7, .attach 9 [1], .terminated 8]
      (socket_base_t.process_term (sample_env none [] (sample_options .ZMQ_PUB)) 0
        { socket_base_t.init (sample_options .ZMQ_SUB) (.other 0) with pipes := [7, 8] })).pipes
      = [9] ∧
    (pipe_run (sample_env none [] (sample_options .ZMQ_PUB))
      [.terminated 7, .attach 9 [1], .terminated 8]
      (socket_base_t.process_term (sample_env none [] (sample_options .ZMQ_PUB)) 0
        { socket_base_t.init (sample_options .ZMQ_SUB) (.other 0) with
          pipes := [7, 8] })).term_acks = ([9] : List pipe_t).length ∧
    (socket_base_t.attach_pipe (sample_env none [] (sample_options .ZMQ_PUB)) 9 [1]
      (socket_base_t.process_term (sample_env none [] (sample_options .ZMQ_PUB)) 0
        { socket_base_t.init (sample_options .ZMQ_SUB) (.other 0) with
          pipes := [7, 8] })).term_acks = 2 + 1 ∧
    (socket_base_t.terminated (sample_env none [] (sample_options .ZMQ_PUB)) 7
      (socket_base_t.process_term (sample_env none [] (sample_options .ZMQ_PUB)) 0
        { socket_base_t.init (sample_options .ZMQ_SUB) (.other 0) with
          pipes := [7, 8] })).term_acks = 2 - 1 ∧
    (socket_base_t.terminated (sample_env none [] (sample_options .ZMQ_PUB)) 7
      { socket_base_t.init (sample_options .ZMQ_SUB) (.other 0) with
        pipes := [7, 8] }).term_acks = 0 :=
  ⟨rfl,
    ((term_ack_balance (sample_env none [] (sample_options .ZMQ_PUB)) 0
      { socket_base_t.init (sample_options .ZMQ_SUB) (.other 0) with pipes := [7, 8] }).2.2.2
      [.terminated 7, .attach 9 [1], .terminated 8] rfl rfl rfl).2.1,
    ((term_ack_balance (sample_env none [] (sample_options .ZMQ_PUB)) 0
      (socket_base_t.process_term (sample_env none [] (sample_options .ZMQ_PUB)) 0
        { socket_base_t.init (sample_options .ZMQ_SUB) (.other 0) with pipes := [7, 8] })).2.1
      9 [1] rfl).1,
    (((term_ack_balance (sample_env none [] (sample_options .ZMQ_PUB)) 0
      (socket_base_t.process_term (sample_env none [] (sample_options .ZMQ_PUB)) 0
        { socket_base_t.init (sample_options .ZMQ_SUB) (.other 0) with pipes := [7, 8] })).2.2.1
      7).2.2.1 rfl),
    (((term_ack_balance (sample_env none [] (sample_options .ZMQ_PUB)) 0
      { socket_base_t.init (sample_options .ZMQ_SUB) (.other 0) with pipes := [7, 8] }).2.2.1
      7).2.2.2 rfl)⟩

end zmq
